import Mathlib

/-!
Locally connected operator (caffe2/operators/locally_connected_op_impl.h)

A shallow embedding of the forward and backward pipelines of the locally
connected operator, in both storage orders.  Tensor storage is flat memory
reached through a raw pointer, so a buffer is a map from element offsets to
values and pointer arithmetic is addition on offsets.  Element values are
integers (exact arithmetic); dimensions are natural numbers, taken to fit the
machine `int` they are stored in.
-/

namespace caffe2

/-! ## Memory, tensors, configuration -/

/-- Flat element storage reached through a raw pointer: offset to value. -/
abbrev Buf := Nat → Int

/-- The pointer `b + k`. -/
def Buf.offset (b : Buf) (k : Nat) : Buf := fun i => b (k + i)

/-- Memory `dst` after a primitive `f` has written through the pointer `dst + k`:
`f` maps the old contents seen from that pointer to the new ones. -/
def Buf.writeAt (dst : Buf) (k : Nat) (f : Buf → Buf) : Buf :=
  fun i => if k ≤ i then f (dst.offset k) (i - k) else dst i

/-- Sum of `f 0 .. f (n-1)`, the accumulation loop of the multiply primitives. -/
def sumTo : Nat → (Nat → Int) → Int
  | 0, _ => 0
  | n + 1, f => sumTo n f + f n

inductive StorageOrder where
  | NCHW
  | NHWC
  deriving DecidableEq, Repr

/-- A tensor: its shape and its flat storage. -/
structure Tensor where
  dims : List Nat
  data : Buf

/-- Number of axes, as the `int` the source computes with. -/
def Tensor.ndim (t : Tensor) : Int := t.dims.length

/-- Number of elements. -/
def Tensor.size (t : Tensor) : Nat := t.dims.prod

/-- Resize keeps the storage and replaces the shape. -/
def Tensor.Resize (t : Tensor) (dims : List Nat) : Tensor := { t with dims := dims }

/-- The members of ConvPoolOpBase the operator reads. `pads_` holds the head
pads of every axis followed by the tail pads. -/
structure ConvPoolOpBase where
  group_ : Nat
  kernel_ : List Nat
  stride_ : List Nat
  dilation_ : List Nat
  pads_ : List Nat
  no_bias_ : Bool

def ConvPoolOpBase.kernel_h (op : ConvPoolOpBase) : Nat := op.kernel_.getD 0 0
def ConvPoolOpBase.kernel_w (op : ConvPoolOpBase) : Nat := op.kernel_.getD 1 0
def ConvPoolOpBase.stride_h (op : ConvPoolOpBase) : Nat := op.stride_.getD 0 1
def ConvPoolOpBase.stride_w (op : ConvPoolOpBase) : Nat := op.stride_.getD 1 1
def ConvPoolOpBase.dilation_h (op : ConvPoolOpBase) : Nat := op.dilation_.getD 0 1
def ConvPoolOpBase.dilation_w (op : ConvPoolOpBase) : Nat := op.dilation_.getD 1 1
def ConvPoolOpBase.pad_t (op : ConvPoolOpBase) : Nat := op.pads_.getD 0 0
def ConvPoolOpBase.pad_l (op : ConvPoolOpBase) : Nat := op.pads_.getD 1 0
def ConvPoolOpBase.pad_b (op : ConvPoolOpBase) : Nat := op.pads_.getD 2 0
def ConvPoolOpBase.pad_r (op : ConvPoolOpBase) : Nat := op.pads_.getD 3 0

/-- The value object lc_op_util::ShapeParams. -/
structure ShapeParams where
  N : Nat
  C : Nat
  M : Nat
  input_image_size : Nat
  output_image_size : Nat
  kernel_size : Nat
  input_image_dims : List Nat
  column_dims : List Nat
  column_transposed_dims : List Nat
  column_axes : List Nat
  Y_dims : List Nat
  Y_transposed_dims : List Nat
  Y_axes : List Nat
  deriving DecidableEq, Repr

/-- Scratch buffers owned by the operator instance. -/
structure Scratch where
  column_buffer : Buf
  column_transposed_buffer : Buf
  Y_transposed_buffer : Buf
  bias_multiplier : Buf

/-! ## Validation failures -/

/-- Which enforce failed. -/
inductive EnforceError where
  | kernelRank
  | filterRank
  | dimIndex
  | inputChannels
  | outputChannelsGroup
  | outputSize
  | filterImageDims
  | filterKernelDims
  | biasShape
  deriving DecidableEq, Repr

/-- A failed call: the enforce that failed and the caller-visible outputs as
they stand at that moment. -/
structure Failure (σ : Type) where
  err : EnforceError
  state : σ

/-- CAFFE_ENFORCE: continue when the condition holds, abort otherwise. -/
def enforce {σ : Type} (c : Prop) [Decidable c] (e : EnforceError) (st : σ) :
    Except (Failure σ) Unit :=
  if c then .ok () else .error ⟨e, st⟩

/-- Tensor::dim32: the extent of axis `i`; an index outside the shape aborts. -/
def Tensor.dim32 {σ : Type} (t : Tensor) (i : Int) (st : σ) : Except (Failure σ) Nat :=
  if 0 ≤ i ∧ i < t.ndim then .ok (t.dims.getD i.toNat 0) else .error ⟨.dimIndex, st⟩

/-! ## Shape helpers of the base operator and the shape/axis planner -/

/-- Spatial dims of a tensor in the given storage order (ConvPoolOpBase::GetDims). -/
def GetDims (order : StorageOrder) (t : Tensor) : List Nat :=
  match order with
  | .NCHW => t.dims.drop 2
  | .NHWC => (t.dims.drop 1).dropLast

/-- Number of spatial elements (ConvPoolOpBase::GetDimsSize). -/
def GetDimsSize (order : StorageOrder) (t : Tensor) : Nat := (GetDims order t).prod

/-- One spatial axis of an unfold: input extent and the kernel parameters on it. -/
structure Axis where
  size : Nat
  kernel : Nat
  stride : Nat
  dilation : Nat
  pad_head : Nat
  pad_tail : Nat
  deriving DecidableEq, Repr

/-- Extent of the dilated kernel on an axis. -/
def Axis.dkernel (a : Axis) : Nat := a.dilation * (a.kernel - 1) + 1

/-- Modelled from the spec: the conv-arithmetic output extent of one axis, the
"external collaborator computation" of the output spatial dims:
`(in + pad_head + pad_tail - dilated_kernel) / stride + 1`. -/
def Axis.out (a : Axis) : Nat :=
  (a.size + a.pad_head + a.pad_tail - a.dkernel) / a.stride + 1

/-- The axes of an unfold over spatial dims `dims`, read off the per-axis
parameter vectors (missing entries take the base operator's defaults). -/
def mkAxes (dims kernel stride dilation pads : List Nat) : List Axis :=
  (List.range dims.length).map fun i =>
    { size := dims.getD i 0, kernel := kernel.getD i 0, stride := stride.getD i 1,
      dilation := dilation.getD i 1, pad_head := pads.getD i 0,
      pad_tail := pads.getD (dims.length + i) 0 }

/-- The axes the operator's configuration gives for spatial dims `dims`. -/
def ConvPoolOpBase.axes (op : ConvPoolOpBase) (dims : List Nat) : List Axis :=
  mkAxes dims op.kernel_ op.stride_ op.dilation_ op.pads_

/-- Number of kernel offsets, of output locations and of input locations. -/
def kernelProd (axes : List Axis) : Nat := (axes.map Axis.kernel).prod
def outProd (axes : List Axis) : Nat := (axes.map Axis.out).prod
def sizeProd (axes : List Axis) : Nat := (axes.map Axis.size).prod

/-- The dims SetOutputSize gives the output: `[N, M, out...]` (channel-first) or
`[N, out..., M]` (channel-last), the output spatial dims by conv arithmetic. -/
def outputDims (op : ConvPoolOpBase) (order : StorageOrder) (X : Tensor) (output_channel : Nat) :
    List Nat :=
  match order with
  | .NCHW => X.dims.getD 0 0 :: output_channel :: (op.axes (GetDims order X)).map Axis.out
  | .NHWC => X.dims.getD 0 0 :: ((op.axes (GetDims order X)).map Axis.out ++ [output_channel])

/-- Modelled from the spec: ConvPoolOpBase::SetOutputSize, which is not part of
the source file. It derives the output spatial dims by conv arithmetic over
kernel/stride/pad/dilation and resizes the output to `[N, M, out...]`
(channel-first) or `[N, out..., M]` (channel-last). It needs one kernel entry
per spatial axis and a dilated kernel that fits the padded input. -/
def ConvPoolOpBase.SetOutputSize (op : ConvPoolOpBase) (order : StorageOrder)
    (X Y : Tensor) (output_channel : Nat) : Except (Failure Tensor) Tensor :=
  if op.kernel_.length = (GetDims order X).length ∧ 1 ≤ X.dims.length ∧
      ∀ a ∈ op.axes (GetDims order X), a.dkernel ≤ a.size + a.pad_head + a.pad_tail then
    .ok (Y.Resize (outputDims op order X output_channel))
  else .error ⟨.outputSize, Y⟩

/-- Modelled from the spec: the shape/axis planner lc_op_util::SetColumnBufferShape,
whose body is not part of the source file. Channel-first: the column buffer is
`[N, G, kernel_size, output_image_size]` and its transpose puts the output
location and the group first, `[output_image_size, G, kernel_size, N]`, so that
each batch index of the multiply owns a `[kernel_size, N]` column slab.
Channel-last: `[N, output_image_size, kernel_size]` transposed to
`[output_image_size, N, kernel_size]`. The call sites pass `N`, `kernel_size`,
`output_image_size` and the order; the group count named by the spec's
channel-first shape is the operator's `group_`. -/
def SetColumnBufferShape (N kernel_dim output_image_size : Nat) (order : StorageOrder)
    (group : Nat) : List Nat × List Nat × List Nat :=
  match order with
  | .NCHW => ([N, group, kernel_dim, output_image_size],
              [output_image_size, group, kernel_dim, N], [3, 1, 2, 0])
  | .NHWC => ([N, output_image_size, kernel_dim],
              [output_image_size, N, kernel_dim], [1, 0, 2])

/-- Modelled from the spec: the shape/axis planner lc_op_util::SetYBufferShape,
whose body is not part of the source file. The output buffer is `[N, M,
output_image_size]` (channel-first) or `[N, output_image_size, M]`
(channel-last); its transpose is ordered by the batch dimension of the
multiply first: `[output_image_size, M, N]`, respectively
`[output_image_size, N, M]`. -/
def SetYBufferShape (N M output_image_size : Nat) (order : StorageOrder) :
    List Nat × List Nat × List Nat :=
  match order with
  | .NCHW => ([N, M, output_image_size], [output_image_size, M, N], [2, 1, 0])
  | .NHWC => ([N, output_image_size, M], [output_image_size, N, M], [1, 0, 2])

/-- Modelled from the spec: ConvPoolOpBase::SetBiasMultiplier, the all-ones
vector of length `N`. -/
def SetBiasMultiplier (N : Nat) : Buf := fun i => if i < N then 1 else 0

/-- The shape a call derives, completed by the two planner calls
(SetColumnBufferShape and SetYBufferShape). -/
def planShape (order : StorageOrder) (group N C M input_image_size output_image_size
    kernel_size : Nat) (input_image_dims : List Nat) : ShapeParams :=
  let col := SetColumnBufferShape N kernel_size output_image_size order group
  let y := SetYBufferShape N M output_image_size order
  { N := N, C := C, M := M, input_image_size := input_image_size,
    output_image_size := output_image_size, kernel_size := kernel_size,
    input_image_dims := input_image_dims,
    column_dims := col.1, column_transposed_dims := col.2.1, column_axes := col.2.2,
    Y_dims := y.1, Y_transposed_dims := y.2.1, Y_axes := y.2.2 }

/-! ## Entry points: validation and shape derivation

Each `setup` function is the body of the corresponding `RunOnDeviceWithOrder*`
method up to the call of its `Impl`: the enforces in source order, the shape
derivation, and the resizes of the outputs. -/

/-- The enforce inside a loop, `CAFFE_ENFORCE(t.dim32(i) == v)`: the axis exists
and has extent `v`. -/
def dimIs (t : Tensor) (i : Int) (v : Nat) : Prop :=
  0 ≤ i ∧ i < t.ndim ∧ t.dims.getD i.toNat 0 = v

instance (t : Tensor) (i : Int) (v : Nat) : Decidable (dimIs t i v) := by
  unfold dimIs; infer_instance

/-- What the forward entry point hands to its Impl. -/
structure ForwardSetup where
  shape : ShapeParams
  Y : Tensor
  bias_data : Option Buf
  bias_multiplier : Buf

/-- The bias checks shared by the two forward entry points (`InputSize() == 3`). -/
def checkBias (bias : Tensor) (image_ndim : Int) (output_image_dims : List Nat) (M : Nat)
    (Y : Tensor) : Except (Failure Tensor) Unit := do
  enforce (bias.ndim = image_ndim + 1) .biasShape Y
  enforce (∀ i < image_ndim.toNat, dimIs bias i (output_image_dims.getD i 0)) .biasShape Y
  let bM ← bias.dim32 image_ndim Y
  enforce (bM = M) .biasShape Y

/-- LocallyConnectedOp::RunOnDeviceWithOrderNCHW up to the Impl call. -/
def LocallyConnectedOp.setupNCHW (op : ConvPoolOpBase) (X filter : Tensor)
    (bias : Option Tensor) (Y : Tensor) (bias_multiplier_ : Buf) :
    Except (Failure Tensor) ForwardSetup := do
  let image_ndim : Int := X.ndim - 2
  enforce (X.ndim + image_ndim = filter.ndim) .filterRank Y
  let N ← X.dim32 0 Y
  let C ← X.dim32 1 Y
  let M ← filter.dim32 image_ndim Y
  let filter_channels ← filter.dim32 (image_ndim + 1) Y
  enforce (C = filter_channels * op.group_) .inputChannels Y
  enforce (M % op.group_ = 0) .outputChannelsGroup Y
  let Y ← op.SetOutputSize .NCHW X Y M
  let input_image_size := GetDimsSize .NCHW X
  let output_image_size := GetDimsSize .NCHW Y
  let output_image_dims := GetDims .NCHW Y
  enforce (∀ i < image_ndim.toNat, output_image_dims.getD i 0 = filter.dims.getD i 0)
    .filterImageDims Y
  enforce (∀ i < op.kernel_.length, dimIs filter (i + image_ndim + 2) (op.kernel_.getD i 0))
    .filterKernelDims Y
  let kernel_dims_size := op.kernel_.prod
  let input_image_dims := GetDims .NCHW X
  let kernel_size := C / op.group_ * kernel_dims_size
  let shape := planShape .NCHW op.group_ N C M input_image_size output_image_size
    kernel_size input_image_dims
  match bias with
  | some bias =>
    checkBias bias image_ndim output_image_dims M Y
    pure { shape := shape, Y := Y, bias_data := some bias.data,
           bias_multiplier := SetBiasMultiplier N }
  | none =>
    pure { shape := shape, Y := Y, bias_data := none, bias_multiplier := bias_multiplier_ }

/-- LocallyConnectedOp::RunOnDeviceWithOrderNHWC up to the Impl call. -/
def LocallyConnectedOp.setupNHWC (op : ConvPoolOpBase) (X filter : Tensor)
    (bias : Option Tensor) (Y : Tensor) (bias_multiplier_ : Buf) :
    Except (Failure Tensor) ForwardSetup := do
  enforce (op.kernel_.length = 2) .kernelRank Y
  let image_ndim : Int := X.ndim - 2
  enforce (X.ndim + image_ndim = filter.ndim) .filterRank Y
  let N ← X.dim32 0 Y
  let C ← X.dim32 3 Y
  let H ← X.dim32 1 Y
  let W ← X.dim32 2 Y
  let input_image_dims := [H, W]
  let M ← filter.dim32 image_ndim Y
  let f1 ← filter.dim32 (image_ndim + 1) Y
  enforce (f1 = op.kernel_h) .filterKernelDims Y
  let f2 ← filter.dim32 (image_ndim + 2) Y
  enforce (f2 = op.kernel_w) .filterKernelDims Y
  let f3 ← filter.dim32 (image_ndim + 3) Y
  enforce (f3 = C) .inputChannels Y
  let Y ← op.SetOutputSize .NHWC X Y M
  let input_image_size := GetDimsSize .NHWC X
  let output_image_size := GetDimsSize .NHWC Y
  let output_image_dims := GetDims .NHWC Y
  enforce (∀ i < image_ndim.toNat, output_image_dims.getD i 0 = filter.dims.getD i 0)
    .filterImageDims Y
  let kernel_size := op.kernel_h * op.kernel_w * C
  let shape := planShape .NHWC op.group_ N C M input_image_size output_image_size
    kernel_size input_image_dims
  match bias with
  | some bias =>
    checkBias bias image_ndim output_image_dims M Y
    pure { shape := shape, Y := Y, bias_data := some bias.data,
           bias_multiplier := SetBiasMultiplier N }
  | none =>
    pure { shape := shape, Y := Y, bias_data := none, bias_multiplier := bias_multiplier_ }

/-- The outputs of the gradient operator as the caller sees them. The input
gradient is Output(1) when the operator has no bias and Output(2) otherwise. -/
structure GradOutputs where
  dfilter : Tensor
  dbias : Tensor
  dX : Tensor

/-- What the backward entry point hands to its Impl: the shape, the resized
outputs, and which optional gradients were requested. -/
structure BackwardSetup where
  shape : ShapeParams
  outputs : GradOutputs
  want_dX : Bool
  want_dbias : Bool
  bias_multiplier : Buf

/-- The output resizes at the end of both backward entry points. -/
def resizeGradOutputs (op : ConvPoolOpBase) (shape : ShapeParams) (X filter : Tensor)
    (output_image_dims : List Nat) (OutputSize : Nat) (outs : GradOutputs)
    (bias_multiplier_ : Buf) : BackwardSetup :=
  let dfilter := outs.dfilter.Resize filter.dims
  let want_dX : Bool := OutputSize = 3 ∨ (op.no_bias_ = true ∧ OutputSize = 2)
  let dX := if want_dX then outs.dX.Resize X.dims else outs.dX
  let dbias := if op.no_bias_ then outs.dbias
    else outs.dbias.Resize (output_image_dims ++ [shape.M])
  { shape := shape, outputs := { dfilter := dfilter, dbias := dbias, dX := dX },
    want_dX := want_dX, want_dbias := !op.no_bias_,
    bias_multiplier := if op.no_bias_ then bias_multiplier_ else SetBiasMultiplier shape.N }

/-- LocallyConnectedGradientOp::RunOnDeviceWithOrderNCHW up to the Impl call.
ComputePads only acts for the legacy padding modes and leaves explicit pads as
they are. -/
def LocallyConnectedGradientOp.setupNCHW (op : ConvPoolOpBase) (X filter dY : Tensor)
    (OutputSize : Nat) (outs : GradOutputs) (bias_multiplier_ : Buf) :
    Except (Failure GradOutputs) BackwardSetup := do
  let image_ndim : Int := X.ndim - 2
  enforce (X.ndim + image_ndim = filter.ndim) .filterRank outs
  let N ← X.dim32 0 outs
  let C ← X.dim32 1 outs
  let M ← filter.dim32 image_ndim outs
  let filter_channels ← filter.dim32 (image_ndim + 1) outs
  enforce (filter_channels * op.group_ = C) .inputChannels outs
  enforce (M % op.group_ = 0) .outputChannelsGroup outs
  let input_image_dims := GetDims .NCHW X
  let input_image_size := GetDimsSize .NCHW X
  let output_image_dims := GetDims .NCHW dY
  let output_image_size := GetDimsSize .NCHW dY
  enforce (∀ i < image_ndim.toNat, output_image_dims.getD i 0 = filter.dims.getD i 0)
    .filterImageDims outs
  enforce (∀ i < op.kernel_.length, dimIs filter (i + image_ndim + 2) (op.kernel_.getD i 0))
    .filterKernelDims outs
  let kernel_dims_size := op.kernel_.prod
  let kernel_size := C / op.group_ * kernel_dims_size
  let shape := planShape .NCHW op.group_ N C M input_image_size output_image_size
    kernel_size input_image_dims
  pure (resizeGradOutputs op shape X filter output_image_dims OutputSize outs bias_multiplier_)

/-- LocallyConnectedGradientOp::RunOnDeviceWithOrderNHWC up to the Impl call. -/
def LocallyConnectedGradientOp.setupNHWC (op : ConvPoolOpBase) (X filter dY : Tensor)
    (OutputSize : Nat) (outs : GradOutputs) (bias_multiplier_ : Buf) :
    Except (Failure GradOutputs) BackwardSetup := do
  enforce (op.kernel_.length = 2) .kernelRank outs
  let image_ndim : Int := X.ndim - 2
  enforce (X.ndim + image_ndim = filter.ndim) .filterRank outs
  let N ← X.dim32 0 outs
  let C ← X.dim32 3 outs
  let H ← X.dim32 1 outs
  let W ← X.dim32 2 outs
  let input_image_dims := [H, W]
  let M ← filter.dim32 image_ndim outs
  let f1 ← filter.dim32 (image_ndim + 1) outs
  enforce (f1 = op.kernel_h) .filterKernelDims outs
  let f2 ← filter.dim32 (image_ndim + 2) outs
  enforce (f2 = op.kernel_w) .filterKernelDims outs
  let f3 ← filter.dim32 (image_ndim + 3) outs
  enforce (f3 = C) .inputChannels outs
  let input_image_size := GetDimsSize .NHWC X
  let output_image_size := GetDimsSize .NHWC dY
  let output_image_dims := GetDims .NHWC dY
  enforce (∀ i < image_ndim.toNat, output_image_dims.getD i 0 = filter.dims.getD i 0)
    .filterImageDims outs
  let kernel_size := op.kernel_h * op.kernel_w * C
  let shape := planShape .NHWC op.group_ N C M input_image_size output_image_size
    kernel_size input_image_dims
  pure (resizeGradOutputs op shape X filter output_image_dims OutputSize outs bias_multiplier_)

/-! ## The external primitives: unfold/fold, transpose, multiply -/

/-- Input position on one axis read by kernel offset `k` at output index `d`;
`none` when it falls in the padding. -/
def Axis.tap (a : Axis) (k d : Nat) : Option Nat :=
  if a.pad_head ≤ d * a.stride + k * a.dilation ∧
      d * a.stride + k * a.dilation - a.pad_head < a.size then
    some (d * a.stride + k * a.dilation - a.pad_head)
  else none

/-- Flat input location read by flat kernel offset `k` at flat output location
`p` (both row-major over the axes); `none` when any axis falls in the padding. -/
def spatialTap : List Axis → Nat → Nat → Option Nat
  | [], _, _ => some 0
  | a :: rest, k, p =>
    match a.tap (k / kernelProd rest % a.kernel) (p / outProd rest % a.out),
          spatialTap rest (k % kernelProd rest) (p % outProd rest) with
    | some h, some t => some (h * sizeProd rest + t)
    | _, _ => none

/-- Element `i` of the channel-first unfold of `data_im`: row `i / outputs` of the
`[channels * kernel offsets, output locations]` result is one (channel, kernel
offset) pair, column `i % outputs` one output location; padding reads as zero. -/
def unfoldAtNCHW (axes : List Axis) (data_im : Buf) (i : Nat) : Int :=
  match spatialTap axes (i / outProd axes % kernelProd axes) (i % outProd axes) with
  | some s => data_im (i / outProd axes / kernelProd axes * sizeProd axes + s)
  | none => 0

/-- Modelled from the spec: the unfold (im2col) primitive in channel-first
layout. It rearranges the patch covered by each kernel placement into a column
and writes `channels * kernel offsets * output locations` elements. -/
def unfoldNCHW (axes : List Axis) (channels : Nat) (data_im data_col : Buf) : Buf :=
  fun i =>
    if i < channels * kernelProd axes * outProd axes then unfoldAtNCHW axes data_im i
    else data_col i

/-- Element `i` of the channel-last unfold of `data_im`, whose result is
`[output locations, kernel offsets, channels]`. -/
def unfoldAtNHWC (axes : List Axis) (channels : Nat) (data_im : Buf) (i : Nat) : Int :=
  match spatialTap axes (i / channels % kernelProd axes) (i / channels / kernelProd axes) with
  | some s => data_im (s * channels + i % channels)
  | none => 0

/-- Modelled from the spec: the unfold (im2col) primitive in channel-last layout. -/
def unfoldNHWC (axes : List Axis) (channels : Nat) (data_im data_col : Buf) : Buf :=
  fun i =>
    if i < outProd axes * kernelProd axes * channels then unfoldAtNHWC axes channels data_im i
    else data_col i

/-- Element `i` of the channel-first fold of `data_col`: the sum of the column
entries of all (kernel offset, output location) pairs that read image element `i`. -/
def foldAtNCHW (axes : List Axis) (data_col : Buf) (i : Nat) : Int :=
  sumTo (kernelProd axes) fun k => sumTo (outProd axes) fun p =>
    if spatialTap axes k p = some (i % sizeProd axes) then
      data_col ((i / sizeProd axes * kernelProd axes + k) * outProd axes + p)
    else 0

/-- Modelled from the spec: the fold (col2im) primitive in channel-first layout,
the adjoint of the unfold: it overwrites the `channels * input locations` image
elements, each with the sum of the column entries that were read from it. -/
def foldNCHW (axes : List Axis) (channels : Nat) (data_col data_im : Buf) : Buf :=
  fun i => if i < channels * sizeProd axes then foldAtNCHW axes data_col i else data_im i

/-- Element `i` of the channel-last fold of `data_col`. -/
def foldAtNHWC (axes : List Axis) (channels : Nat) (data_col : Buf) (i : Nat) : Int :=
  sumTo (kernelProd axes) fun k => sumTo (outProd axes) fun p =>
    if spatialTap axes k p = some (i / channels) then
      data_col ((p * kernelProd axes + k) * channels + i % channels)
    else 0

/-- Modelled from the spec: the fold (col2im) primitive in channel-last layout. -/
def foldNHWC (axes : List Axis) (channels : Nat) (data_col data_im : Buf) : Buf :=
  fun i => if i < sizeProd axes * channels then foldAtNHWC axes channels data_col i else data_im i

/-- The axes of the 2-d specialisation, from its scalar arguments. -/
def axes2d (height width kernel_h kernel_w dilation_h dilation_w pad_t pad_l pad_b pad_r
    stride_h stride_w : Nat) : List Axis :=
  [{ size := height, kernel := kernel_h, stride := stride_h, dilation := dilation_h,
     pad_head := pad_t, pad_tail := pad_b },
   { size := width, kernel := kernel_w, stride := stride_w, dilation := dilation_w,
     pad_head := pad_l, pad_tail := pad_r }]

/-- math::Im2col, the 2-d unfold, with the argument order of the call sites. -/
def math.Im2col (order : StorageOrder) (data_im : Buf) (channels height width kernel_h kernel_w
    dilation_h dilation_w pad_t pad_l pad_b pad_r stride_h stride_w : Nat) (data_col : Buf) : Buf :=
  let axes := axes2d height width kernel_h kernel_w dilation_h dilation_w pad_t pad_l pad_b pad_r
    stride_h stride_w
  match order with
  | .NCHW => unfoldNCHW axes channels data_im data_col
  | .NHWC => unfoldNHWC axes channels data_im data_col

/-- math::Col2im, the 2-d fold, with the argument order of the call sites. -/
def math.Col2im (order : StorageOrder) (data_col : Buf) (channels height width kernel_h kernel_w
    dilation_h dilation_w pad_t pad_l pad_b pad_r stride_h stride_w : Nat) (data_im : Buf) : Buf :=
  let axes := axes2d height width kernel_h kernel_w dilation_h dilation_w pad_t pad_l pad_b pad_r
    stride_h stride_w
  match order with
  | .NCHW => foldNCHW axes channels data_col data_im
  | .NHWC => foldNHWC axes channels data_col data_im

/-- The axes of the N-d specialisation: spatial extents are `img_shape[1..N]`. -/
def axesNd (img_shape kernel_shape stride dilation pad : List Nat) (N : Nat) : List Axis :=
  mkAxes ((img_shape.drop 1).take N) kernel_shape stride dilation pad

/-- math::Im2colNd (channel-first), with the argument order of the call sites.
The contract modelled from the spec unfolds one image slice into `col_size`
elements, so the number of channels is `col_size` over the number of kernel
offsets times output locations. -/
def math.Im2colNd (data_img : Buf) (img_shape _col_shape : List Nat) (_img_size col_size : Nat)
    (kernel_shape stride dilation pad : List Nat) (N : Nat) (data_col : Buf) : Buf :=
  let axes := axesNd img_shape kernel_shape stride dilation pad N
  unfoldNCHW axes (col_size / (kernelProd axes * outProd axes)) data_img data_col

/-- math::Col2imNd (channel-first), with the argument order of the call sites. -/
def math.Col2imNd (data_col : Buf) (img_shape _col_shape : List Nat) (_img_size col_size : Nat)
    (kernel_shape stride dilation pad : List Nat) (N : Nat) (data_img : Buf) : Buf :=
  let axes := axesNd img_shape kernel_shape stride dilation pad N
  foldNCHW axes (col_size / (kernelProd axes * outProd axes)) data_col data_img

/-- Row-major stride of axis `t` in a tensor of shape `dims`. -/
def strideOf (dims : List Nat) (t : Nat) : Nat := (dims.drop (t + 1)).prod

/-- Modelled from the spec: the axis transpose primitive math::Transpose(size,
ndim, x_dims, y_dims, axes, X, Y). Axis `t` of the result is axis `axes[t]` of
the source: the element at multi-index `j` of `Y` comes from the offset
`sum over t of stride_x[axes[t]] * j[t]` of `X`. -/
def math.Transpose (size ndim : Nat) (x_dims y_dims axes : List Nat) (X Y : Buf) : Buf :=
  fun i =>
    if i < size then
      X (((List.range ndim).map fun t =>
            strideOf x_dims (axes.getD t 0) * (i / strideOf y_dims t % y_dims.getD t 1)).sum)
    else Y i

/-- Modelled from the spec: the batched multiply primitive math::GemmBatched.
For each batch index `b` it computes `C_b = alpha * op(A_b) * op(B_b) + beta * C_b`
on row-major slabs, `op(A_b)` being `M x K` and `op(B_b)` being `K x N`; a `true`
flag is CblasTrans. -/
def math.GemmBatched (TransA TransB : Bool) (batch_size M N K : Nat) (alpha : Int) (A B : Buf)
    (beta : Int) (C : Buf) : Buf :=
  fun i =>
    if i < batch_size * (M * N) then
      alpha * (sumTo K fun k =>
        A (i / (M * N) * (M * K) +
            (if TransA then k * M + i % (M * N) / N else i % (M * N) / N * K + k)) *
        B (i / (M * N) * (K * N) + (if TransB then i % N * K + k else k * N + i % N)))
      + beta * C i
    else C i

/-- math::Gemm, a single matrix product: the batched multiply with one batch. -/
def math.Gemm (TransA TransB : Bool) (M N K : Nat) (alpha : Int) (A B : Buf) (beta : Int)
    (C : Buf) : Buf :=
  math.GemmBatched TransA TransB 1 M N K alpha A B beta C

/-- Modelled from the spec: the matrix-vector product math::Gemv on an `M x N`
row-major matrix: `y = alpha * op(A) * x + beta * y`. -/
def math.Gemv (TransA : Bool) (M N : Nat) (alpha : Int) (A x : Buf) (beta : Int) (y : Buf) : Buf :=
  fun i =>
    if TransA then
      if i < N then alpha * (sumTo M fun r => A (r * N + i) * x r) + beta * y i else y i
    else
      if i < M then alpha * (sumTo N fun c => A (i * N + c) * x c) + beta * y i else y i

/-! ## The pipelines -/

/-- The inner `for (group_id ...)` loop of the channel-first pipelines: iteration
`g` calls the primitive on the pointers `X_data + g * input_stride` and
`column_buffer_data + g * column_stride`. -/
def groupLoop {σ : Type} (input_stride column_stride x_base col_base : Nat)
    (call : Nat → Nat → σ → σ) : Nat → σ → σ
  | 0, s => s
  | g + 1, s =>
    call (x_base + g * input_stride) (col_base + g * column_stride)
      (groupLoop input_stride column_stride x_base col_base call g s)

/-- The `for (image_id ...)` loop of the channel-first pipelines. After each
image both pointers advance: `X_data += input_stride * group_` and
`column_buffer_data += column_stride * group_`. -/
def imageLoop {σ : Type} (group input_stride column_stride : Nat)
    (call : Nat → Nat → σ → σ) : Nat → σ → σ
  | 0, s => s
  | n + 1, s =>
    groupLoop input_stride column_stride (n * (input_stride * group))
      (n * (column_stride * group)) call group
      (imageLoop group input_stride column_stride call n s)

/-- The `for (image_id ...)` loop of the channel-last pipelines over explicit
pointer offsets. -/
def forImages {σ : Type} (call : Nat → σ → σ) : Nat → σ → σ
  | 0, s => s
  | n + 1, s => call n (forImages call n s)

/-- The unfold call in the body of the channel-first loops:
`if (kernel_.size() == 2) Im2col else Im2colNd`. `X_dims_device_` holds the dims
of `X` after the batch axis and `column_dims_device_` the column dims. -/
def unfoldCallNCHW (op : ConvPoolOpBase) (shape : ShapeParams) (column_stride : Nat)
    (X_ptr col_ptr : Buf) : Buf :=
  if op.kernel_.length = 2 then
    math.Im2col .NCHW X_ptr (shape.C / op.group_)
      (shape.input_image_dims.getD 0 0) (shape.input_image_dims.getD 1 0)
      op.kernel_h op.kernel_w op.dilation_h op.dilation_w
      op.pad_t op.pad_l op.pad_b op.pad_r op.stride_h op.stride_w col_ptr
  else
    math.Im2colNd X_ptr (shape.C :: shape.input_image_dims) (shape.column_dims.drop 1)
      (shape.C * shape.input_image_size) column_stride
      op.kernel_ op.stride_ op.dilation_ op.pads_ op.kernel_.length col_ptr

/-- The fold call in the body of the channel-first backward loop:
`if (kernel_.size() == 2) Col2im else Col2imNd`. -/
def foldCallNCHW (op : ConvPoolOpBase) (shape : ShapeParams) (column_stride : Nat)
    (col_ptr dX_ptr : Buf) : Buf :=
  if op.kernel_.length = 2 then
    math.Col2im .NCHW col_ptr (shape.C / op.group_)
      (shape.input_image_dims.getD 0 0) (shape.input_image_dims.getD 1 0)
      op.kernel_h op.kernel_w op.dilation_h op.dilation_w
      op.pad_t op.pad_l op.pad_b op.pad_r op.stride_h op.stride_w dX_ptr
  else
    math.Col2imNd col_ptr (shape.C :: shape.input_image_dims) (shape.column_dims.drop 1)
      (shape.C * shape.input_image_size) column_stride
      op.kernel_ op.stride_ op.dilation_ op.pads_ op.kernel_.length dX_ptr

/-- The local `input_stride` of LocallyConnectedOp::RunOnDeviceWithOrderNCHWImpl. -/
def LocallyConnectedOp.input_stride (op : ConvPoolOpBase) (shape : ShapeParams) : Nat :=
  shape.C / op.group_ * shape.input_image_size

/-- The local `input_stride` of LocallyConnectedGradientOp::RunOnDeviceWithOrderNCHWImpl. -/
def LocallyConnectedGradientOp.input_stride (shape : ShapeParams) : Nat :=
  shape.C * shape.input_image_size

/-- The local `column_stride` of every Impl. -/
def column_stride (shape : ShapeParams) : Nat :=
  shape.kernel_size * shape.output_image_size

/-- What a forward Impl leaves behind: the output data and the scratch buffers. -/
structure ForwardResult where
  Y_data : Buf
  scratch : Scratch

/-- LocallyConnectedOp::RunOnDeviceWithOrderNCHWImpl. -/
def LocallyConnectedOp.RunOnDeviceWithOrderNCHWImpl (op : ConvPoolOpBase) (shape : ShapeParams)
    (X_data filter_data : Buf) (bias_data : Option Buf) (Y_data : Buf) (scratch : Scratch) :
    ForwardResult :=
  let input_stride := LocallyConnectedOp.input_stride op shape
  let column_stride := column_stride shape
  let column_buffer := imageLoop op.group_ input_stride column_stride
    (fun x_off col_off col =>
      col.writeAt col_off (unfoldCallNCHW op shape column_stride (X_data.offset x_off)))
    shape.N scratch.column_buffer
  let column_transposed := math.Transpose shape.column_dims.prod shape.column_dims.length
    shape.column_dims shape.column_transposed_dims shape.column_axes
    column_buffer scratch.column_transposed_buffer
  let Y_transposed := math.GemmBatched false false (shape.output_image_size * op.group_)
    (shape.M / op.group_) shape.N shape.kernel_size 1 filter_data column_transposed 0
    scratch.Y_transposed_buffer
  let Y_transposed := match bias_data with
    | some bias_data =>
      math.Gemm false false (shape.output_image_size * shape.M) shape.N 1 1 bias_data
        scratch.bias_multiplier 1 Y_transposed
    | none => Y_transposed
  let Y := math.Transpose shape.Y_transposed_dims.prod shape.Y_transposed_dims.length
    shape.Y_transposed_dims shape.Y_dims shape.Y_axes Y_transposed Y_data
  { Y_data := Y,
    scratch := { scratch with column_buffer := column_buffer,
                              column_transposed_buffer := column_transposed,
                              Y_transposed_buffer := Y_transposed } }

/-- LocallyConnectedOp::RunOnDeviceWithOrderNHWCImpl. -/
def LocallyConnectedOp.RunOnDeviceWithOrderNHWCImpl (op : ConvPoolOpBase) (shape : ShapeParams)
    (X_data filter_data : Buf) (bias_data : Option Buf) (Y_data : Buf) (scratch : Scratch) :
    ForwardResult :=
  let input_stride := shape.C * shape.input_image_size
  let column_stride := column_stride shape
  let column_buffer := forImages
    (fun image_id col =>
      col.writeAt (image_id * column_stride) (fun col_ptr =>
        math.Im2col .NHWC (X_data.offset (image_id * input_stride)) shape.C
          (shape.input_image_dims.getD 0 0) (shape.input_image_dims.getD 1 0)
          op.kernel_h op.kernel_w op.dilation_h op.dilation_w
          op.pad_t op.pad_l op.pad_b op.pad_r op.stride_h op.stride_w col_ptr))
    shape.N scratch.column_buffer
  let column_transposed := math.Transpose shape.column_dims.prod shape.column_dims.length
    shape.column_dims shape.column_transposed_dims shape.column_axes
    column_buffer scratch.column_transposed_buffer
  let Y_transposed := math.GemmBatched false true shape.output_image_size
    shape.N shape.M shape.kernel_size 1 column_transposed filter_data 0
    scratch.Y_transposed_buffer
  let Y := math.Transpose shape.Y_transposed_dims.prod shape.Y_transposed_dims.length
    shape.Y_transposed_dims shape.Y_dims shape.Y_axes Y_transposed Y_data
  let Y := match bias_data with
    | some bias_data =>
      math.Gemm false false shape.N (shape.output_image_size * shape.M) 1 1
        scratch.bias_multiplier bias_data 1 Y
    | none => Y
  { Y_data := Y,
    scratch := { scratch with column_buffer := column_buffer,
                              column_transposed_buffer := column_transposed,
                              Y_transposed_buffer := Y_transposed } }

/-- What a completed forward call returns: the output tensor and the scratch. -/
structure ForwardOutput where
  Y : Tensor
  scratch : Scratch

/-- LocallyConnectedOp::RunOnDeviceWithOrderNCHW. -/
def LocallyConnectedOp.RunOnDeviceWithOrderNCHW (op : ConvPoolOpBase) (X filter : Tensor)
    (bias : Option Tensor) (Y : Tensor) (scratch : Scratch) :
    Except (Failure Tensor) ForwardOutput := do
  let s ← LocallyConnectedOp.setupNCHW op X filter bias Y scratch.bias_multiplier
  let r := LocallyConnectedOp.RunOnDeviceWithOrderNCHWImpl op s.shape X.data filter.data
    s.bias_data s.Y.data { scratch with bias_multiplier := s.bias_multiplier }
  pure { Y := { s.Y with data := r.Y_data }, scratch := r.scratch }

/-- LocallyConnectedOp::RunOnDeviceWithOrderNHWC. -/
def LocallyConnectedOp.RunOnDeviceWithOrderNHWC (op : ConvPoolOpBase) (X filter : Tensor)
    (bias : Option Tensor) (Y : Tensor) (scratch : Scratch) :
    Except (Failure Tensor) ForwardOutput := do
  let s ← LocallyConnectedOp.setupNHWC op X filter bias Y scratch.bias_multiplier
  let r := LocallyConnectedOp.RunOnDeviceWithOrderNHWCImpl op s.shape X.data filter.data
    s.bias_data s.Y.data { scratch with bias_multiplier := s.bias_multiplier }
  pure { Y := { s.Y with data := r.Y_data }, scratch := r.scratch }

/-- What a backward Impl leaves behind. -/
structure BackwardResult where
  dfilter_data : Buf
  dX_data : Buf
  dbias_data : Buf
  scratch : Scratch

/-- LocallyConnectedGradientOp::RunOnDeviceWithOrderNCHWImpl. `dX_data` and
`dbias_data` are `none` for a null pointer; `dX0` and `dbias0` are the storage
they would point to. -/
def LocallyConnectedGradientOp.RunOnDeviceWithOrderNCHWImpl (op : ConvPoolOpBase)
    (shape : ShapeParams) (X_data filter_data dY_data : Buf) (dfilter_data : Buf)
    (dX_data dbias_data : Option Buf) (dX0 dbias0 : Buf) (scratch : Scratch) : BackwardResult :=
  let input_stride := LocallyConnectedGradientOp.input_stride shape
  let column_stride := column_stride shape
  let column_buffer := imageLoop op.group_ input_stride column_stride
    (fun x_off col_off col =>
      col.writeAt col_off (unfoldCallNCHW op shape column_stride (X_data.offset x_off)))
    shape.N scratch.column_buffer
  let column_transposed := math.Transpose shape.column_dims.prod shape.column_dims.length
    shape.column_dims shape.column_transposed_dims shape.column_axes
    column_buffer scratch.column_transposed_buffer
  let dY_transposed := math.Transpose shape.Y_transposed_dims.prod shape.Y_dims.length
    shape.Y_dims shape.Y_transposed_dims shape.Y_axes dY_data scratch.Y_transposed_buffer
  let dfilter := math.GemmBatched false true (shape.output_image_size * op.group_)
    (shape.M / op.group_) shape.kernel_size shape.N 1 dY_transposed column_transposed 0
    dfilter_data
  let dbias := match dbias_data with
    | some dbias_data =>
      math.Gemv false (shape.output_image_size * shape.M) shape.N 1 dY_transposed
        scratch.bias_multiplier 0 dbias_data
    | none => dbias0
  match dX_data with
  | some dX_data =>
    let column_transposed := math.GemmBatched true false (shape.output_image_size * op.group_)
      shape.kernel_size shape.N (shape.M / op.group_) 1 filter_data dY_transposed 0
      column_transposed
    let column_buffer := math.Transpose shape.column_transposed_dims.prod
      shape.column_dims.length shape.column_transposed_dims shape.column_dims shape.column_axes
      column_transposed column_buffer
    let dX := imageLoop op.group_ input_stride column_stride
      (fun x_off col_off dX =>
        dX.writeAt x_off (foldCallNCHW op shape column_stride (column_buffer.offset col_off)))
      shape.N dX_data
    { dfilter_data := dfilter, dX_data := dX, dbias_data := dbias,
      scratch := { scratch with column_buffer := column_buffer,
                                column_transposed_buffer := column_transposed,
                                Y_transposed_buffer := dY_transposed } }
  | none =>
    { dfilter_data := dfilter, dX_data := dX0, dbias_data := dbias,
      scratch := { scratch with column_buffer := column_buffer,
                                column_transposed_buffer := column_transposed,
                                Y_transposed_buffer := dY_transposed } }

/-- LocallyConnectedGradientOp::RunOnDeviceWithOrderNHWCImpl. -/
def LocallyConnectedGradientOp.RunOnDeviceWithOrderNHWCImpl (op : ConvPoolOpBase)
    (shape : ShapeParams) (X_data filter_data dY_data : Buf) (dfilter_data : Buf)
    (dX_data dbias_data : Option Buf) (dX0 dbias0 : Buf) (scratch : Scratch) : BackwardResult :=
  let input_stride := shape.C * shape.input_image_size
  let column_stride := column_stride shape
  let column_buffer := forImages
    (fun image_id col =>
      col.writeAt (image_id * column_stride) (fun col_ptr =>
        math.Im2col .NHWC (X_data.offset (image_id * input_stride)) shape.C
          (shape.input_image_dims.getD 0 0) (shape.input_image_dims.getD 1 0)
          op.kernel_h op.kernel_w op.dilation_h op.dilation_w
          op.pad_t op.pad_l op.pad_b op.pad_r op.stride_h op.stride_w col_ptr))
    shape.N scratch.column_buffer
  let column_transposed := math.Transpose shape.column_dims.prod shape.column_dims.length
    shape.column_dims shape.column_transposed_dims shape.column_axes
    column_buffer scratch.column_transposed_buffer
  let dY_transposed := math.Transpose shape.Y_transposed_dims.prod shape.Y_dims.length
    shape.Y_dims shape.Y_transposed_dims shape.Y_axes dY_data scratch.Y_transposed_buffer
  let dfilter := math.GemmBatched true false shape.output_image_size
    shape.M shape.kernel_size shape.N 1 dY_transposed column_transposed 0 dfilter_data
  let dbias := match dbias_data with
    | some dbias_data =>
      math.Gemv true shape.N (shape.output_image_size * shape.M) 1 dY_data
        scratch.bias_multiplier 0 dbias_data
    | none => dbias0
  match dX_data with
  | some dX_data =>
    let column_transposed := math.GemmBatched false false shape.output_image_size
      shape.N shape.kernel_size shape.M 1 dY_transposed filter_data 0 column_transposed
    let column_buffer := math.Transpose shape.column_transposed_dims.prod
      shape.column_dims.length shape.column_transposed_dims shape.column_dims shape.column_axes
      column_transposed column_buffer
    let dX := forImages
      (fun image_id dX =>
        dX.writeAt (image_id * input_stride) (fun dX_ptr =>
          math.Col2im .NHWC (column_buffer.offset (image_id * column_stride)) shape.C
            (shape.input_image_dims.getD 0 0) (shape.input_image_dims.getD 1 0)
            op.kernel_h op.kernel_w op.dilation_h op.dilation_w
            op.pad_t op.pad_l op.pad_b op.pad_r op.stride_h op.stride_w dX_ptr))
      shape.N dX_data
    { dfilter_data := dfilter, dX_data := dX, dbias_data := dbias,
      scratch := { scratch with column_buffer := column_buffer,
                                column_transposed_buffer := column_transposed,
                                Y_transposed_buffer := dY_transposed } }
  | none =>
    { dfilter_data := dfilter, dX_data := dX0, dbias_data := dbias,
      scratch := { scratch with column_buffer := column_buffer,
                                column_transposed_buffer := column_transposed,
                                Y_transposed_buffer := dY_transposed } }

/-- What a completed backward call returns. -/
structure BackwardOutput where
  outputs : GradOutputs
  scratch : Scratch

/-- The Impl call at the end of a backward entry point, on the buffers the
setup has sized. -/
def runGradImpl
    (impl : ShapeParams → Buf → Buf → Buf → Buf → Option Buf → Option Buf → Buf → Buf →
      Scratch → BackwardResult)
    (s : BackwardSetup) (X filter dY : Tensor) (scratch : Scratch) : BackwardOutput :=
  let r := impl s.shape X.data filter.data dY.data s.outputs.dfilter.data
    (if s.want_dX then some s.outputs.dX.data else none)
    (if s.want_dbias then some s.outputs.dbias.data else none)
    s.outputs.dX.data s.outputs.dbias.data
    { scratch with bias_multiplier := s.bias_multiplier }
  { outputs := { dfilter := { s.outputs.dfilter with data := r.dfilter_data },
                 dbias := { s.outputs.dbias with data := r.dbias_data },
                 dX := { s.outputs.dX with data := r.dX_data } },
    scratch := r.scratch }

/-- LocallyConnectedGradientOp::RunOnDeviceWithOrderNCHW. -/
def LocallyConnectedGradientOp.RunOnDeviceWithOrderNCHW (op : ConvPoolOpBase)
    (X filter dY : Tensor) (OutputSize : Nat) (outs : GradOutputs) (scratch : Scratch) :
    Except (Failure GradOutputs) BackwardOutput := do
  let s ← LocallyConnectedGradientOp.setupNCHW op X filter dY OutputSize outs
    scratch.bias_multiplier
  pure (runGradImpl (LocallyConnectedGradientOp.RunOnDeviceWithOrderNCHWImpl op) s X filter dY
    scratch)

/-- LocallyConnectedGradientOp::RunOnDeviceWithOrderNHWC. -/
def LocallyConnectedGradientOp.RunOnDeviceWithOrderNHWC (op : ConvPoolOpBase)
    (X filter dY : Tensor) (OutputSize : Nat) (outs : GradOutputs) (scratch : Scratch) :
    Except (Failure GradOutputs) BackwardOutput := do
  let s ← LocallyConnectedGradientOp.setupNHWC op X filter dY OutputSize outs
    scratch.bias_multiplier
  pure (runGradImpl (LocallyConnectedGradientOp.RunOnDeviceWithOrderNHWCImpl op) s X filter dY
    scratch)

/-! ## Call traces of the channel-first loops -/

/-- One unfold or fold call of a channel-first loop: the image slice it touches
(start offset and length, relative to the tensor's first element) and the
column-buffer region it touches. -/
structure SliceCall where
  x_off : Nat
  x_len : Nat
  col_off : Nat
  col_len : Nat
  deriving DecidableEq, Repr

/-- The calls made by a channel-first loop with the given `input_stride`, in
order: each passes `shape.C / group_` channels, so it touches
`shape.C / group_ * input_image_size` image elements and `column_stride`
column elements. -/
def sliceCalls (op : ConvPoolOpBase) (shape : ShapeParams) (input_stride : Nat) :
    List SliceCall :=
  imageLoop op.group_ input_stride (column_stride shape)
    (fun x_off col_off calls =>
      calls ++ [{ x_off := x_off, x_len := shape.C / op.group_ * shape.input_image_size,
                  col_off := col_off, col_len := column_stride shape }])
    shape.N []

/-- The unfold calls of the forward channel-first Impl. -/
def LocallyConnectedOp.unfoldCalls (op : ConvPoolOpBase) (shape : ShapeParams) :
    List SliceCall :=
  sliceCalls op shape (LocallyConnectedOp.input_stride op shape)

/-- The unfold calls of the backward channel-first Impl; its fold loop makes the
same calls with the image side being `dX`. -/
def LocallyConnectedGradientOp.unfoldCalls (op : ConvPoolOpBase) (shape : ShapeParams) :
    List SliceCall :=
  sliceCalls op shape (LocallyConnectedGradientOp.input_stride shape)

/-- The shape a setup derived, when it succeeded. -/
def shapeOfForward (r : Except (Failure Tensor) ForwardSetup) : Option ShapeParams :=
  match r with
  | .ok s => some s.shape
  | .error _ => none

/-- The shape a backward setup derived, when it succeeded. -/
def shapeOfBackward (r : Except (Failure GradOutputs) BackwardSetup) : Option ShapeParams :=
  match r with
  | .ok s => some s.shape
  | .error _ => none

/-! ## Concrete inputs -/

/-- Storage holding the listed values, zero elsewhere. -/
def bufOf (l : List Int) : Buf := fun i => l.getD i 0

/-- Scratch buffers with all-zero storage. -/
def zeroScratch : Scratch :=
  { column_buffer := bufOf [], column_transposed_buffer := bufOf [],
    Y_transposed_buffer := bufOf [], bias_multiplier := bufOf [] }

/-- An empty tensor, as an output that has not been sized yet. -/
def emptyTensor : Tensor := { dims := [], data := bufOf [] }

/-- Gradient outputs that have not been sized yet. -/
def emptyGradOutputs : GradOutputs :=
  { dfilter := emptyTensor, dbias := emptyTensor, dX := emptyTensor }

/-- A 1-d configuration: kernel 2, stride 1, no padding, group 1. -/
def op1d : ConvPoolOpBase :=
  { group_ := 1, kernel_ := [2], stride_ := [1], dilation_ := [1], pads_ := [0, 0],
    no_bias_ := true }

/-- A 1x1 kernel with two groups. -/
def opGroup2 : ConvPoolOpBase :=
  { group_ := 2, kernel_ := [1, 1], stride_ := [1, 1], dilation_ := [1, 1],
    pads_ := [0, 0, 0, 0], no_bias_ := true }

/-- A channel-last input `[N, H, W, C] = [1, 1, 1, 1]`. -/
def xNHWC1 : Tensor := { dims := [1, 1, 1, 1], data := bufOf [3] }

/-- A channel-last filter `[out_h, out_w, M, kh, kw, C] = [1, 1, 1, 1, 1, 1]`. -/
def filterNHWC1 : Tensor := { dims := [1, 1, 1, 1, 1, 1], data := bufOf [5] }

/-- A channel-first input `[N, C, H, W] = [1, 2, 1, 1]` holding 3 and 5. -/
def xGroup2 : Tensor := { dims := [1, 2, 1, 1], data := bufOf [3, 5] }

/-- A channel-first filter `[out_h, out_w, M, C/G, kh, kw] = [1, 1, 2, 1, 1, 1]` holding 7 and 11. -/
def filterGroup2 : Tensor := { dims := [1, 1, 2, 1, 1, 1], data := bufOf [7, 11] }

/-- An output gradient `[N, M, out_h, out_w] = [1, 2, 1, 1]` holding 1 and 1. -/
def dYGroup2 : Tensor := { dims := [1, 2, 1, 1], data := bufOf [1, 1] }

/-- The `batch_size, M, N, K` arguments of a GemmBatched call: the number of
independent products, and the rows, columns and inner dimension of each. -/
structure GemmDims where
  batch_size : Nat
  M : Nat
  N : Nat
  K : Nat
  deriving DecidableEq, Repr

/-- The dimensions the forward Impl passes to GemmBatched. Channel-first:
`(output_image_size * group_, M / group_, N, kernel_size)` with the filter as
left operand; channel-last: `(output_image_size, N, M, kernel_size)` with the
transposed column buffer as left operand. -/
def LocallyConnectedOp.gemmDims (order : StorageOrder) (op : ConvPoolOpBase)
    (shape : ShapeParams) : GemmDims :=
  match order with
  | .NCHW => { batch_size := shape.output_image_size * op.group_, M := shape.M / op.group_,
               N := shape.N, K := shape.kernel_size }
  | .NHWC => { batch_size := shape.output_image_size, M := shape.N, N := shape.M,
               K := shape.kernel_size }

/-- The unfold calls of the channel-last Impls: image `image_id` is read at
`image_id * input_stride` and unfolded to `image_id * column_stride`. -/
def unfoldCallsNHWC (shape : ShapeParams) : List SliceCall :=
  forImages
    (fun image_id calls =>
      calls ++ [{ x_off := image_id * (shape.C * shape.input_image_size),
                  x_len := shape.C * shape.input_image_size,
                  col_off := image_id * column_stride shape, col_len := column_stride shape }])
    shape.N []

/-- Number of column-buffer elements a list of unfold calls writes. -/
def writtenCount (calls : List SliceCall) : Nat := (calls.map SliceCall.col_len).sum

/-- The forward setup of the given storage order. -/
def LocallyConnectedOp.setup (order : StorageOrder) (op : ConvPoolOpBase) (X filter : Tensor)
    (bias : Option Tensor) (Y : Tensor) (bias_multiplier_ : Buf) :
    Except (Failure Tensor) ForwardSetup :=
  match order with
  | .NCHW => LocallyConnectedOp.setupNCHW op X filter bias Y bias_multiplier_
  | .NHWC => LocallyConnectedOp.setupNHWC op X filter bias Y bias_multiplier_

/-- A channel-last input `[N, H, W, C] = [2, 1, 1, 1]`. -/
def xNHWC2 : Tensor := { dims := [2, 1, 1, 1], data := bufOf [3, 4] }

/-- A 1x1 kernel, group 1. -/
def opPoint : ConvPoolOpBase :=
  { group_ := 1, kernel_ := [1, 1], stride_ := [1, 1], dilation_ := [1, 1],
    pads_ := [0, 0, 0, 0], no_bias_ := true }

/-- Gradient outputs whose input-gradient storage holds stale values 100, 200, 300. -/
def staleGradOutputs : GradOutputs :=
  { dfilter := emptyTensor, dbias := emptyTensor,
    dX := { dims := [], data := bufOf [100, 200, 300] } }

/-- The dispatch on the storage order of ConvPoolOpBase::RunOnDevice, forward. -/
def LocallyConnectedOp.RunOnDevice (order : StorageOrder) (op : ConvPoolOpBase)
    (X filter : Tensor) (bias : Option Tensor) (Y : Tensor) (scratch : Scratch) :
    Except (Failure Tensor) ForwardOutput :=
  match order with
  | .NCHW => LocallyConnectedOp.RunOnDeviceWithOrderNCHW op X filter bias Y scratch
  | .NHWC => LocallyConnectedOp.RunOnDeviceWithOrderNHWC op X filter bias Y scratch

/-- Shape of the output for batch `N`, `M` output channels and output spatial dims `outs`. -/
def yDims (order : StorageOrder) (N M : Nat) (outs : List Nat) : List Nat :=
  match order with
  | .NCHW => N :: M :: outs
  | .NHWC => N :: (outs ++ [M])

/-- Flat offset of output element (image `n`, channel `m`, location `p`) when there are `M`
channels and `O` locations. -/
def yIndex (order : StorageOrder) (M O n m p : Nat) : Nat :=
  match order with
  | .NCHW => (n * M + m) * O + p
  | .NHWC => (n * O + p) * M + m

/-- A bias `[out_h, out_w, M] = [1, 1, 2]` holding 100 and 200. -/
def biasGroup2 : Tensor := { dims := [1, 1, 2], data := bufOf [100, 200] }

/-- An axis whose kernel spans the whole input: kernel extent equal to the input
extent, stride 1, dilation 1, no padding. -/
def Axis.full (a : Axis) : Prop :=
  a.kernel = a.size ∧ a.stride = 1 ∧ a.dilation = 1 ∧ a.pad_head = 0 ∧ a.pad_tail = 0

/-- A kernel as large as the 2x3 input, group 1. -/
def opFull23 : ConvPoolOpBase :=
  { group_ := 1, kernel_ := [2, 3], stride_ := [1, 1], dilation_ := [1, 1],
    pads_ := [0, 0, 0, 0], no_bias_ := true }

/-- A single-channel 2x3 input `[N, C, H, W] = [1, 1, 2, 3]` holding 1..6. -/
def xFull23 : Tensor := { dims := [1, 1, 2, 3], data := bufOf [1, 2, 3, 4, 5, 6] }

/-- A filter `[out_h, out_w, M, C, kh, kw] = [1, 1, 1, 1, 2, 3]` holding 10, 20, .., 60. -/
def filterFull23 : Tensor :=
  { dims := [1, 1, 1, 1, 2, 3], data := bufOf [10, 20, 30, 40, 50, 60] }

/-- Channels `[g * C/G, (g+1) * C/G)` of a channel-first input `[N, C, spatial...]`, as a
tensor `[N, C/G, spatial...]` of its own. -/
def Tensor.channelGroup (X : Tensor) (G g : Nat) : Tensor :=
  { dims := X.dims.getD 0 0 :: X.dims.getD 1 0 / G :: X.dims.drop 2,
    data := fun i =>
      X.data (i / (X.dims.getD 1 0 / G * (X.dims.drop 2).prod) *
                (X.dims.getD 1 0 * (X.dims.drop 2).prod)
              + g * (X.dims.getD 1 0 / G * (X.dims.drop 2).prod)
              + i % (X.dims.getD 1 0 / G * (X.dims.drop 2).prod)) }

/-- Output channels `[g * M/G, (g+1) * M/G)` of a channel-first filter
`[out..., M, C/G, kernel...]` with `image_ndim` leading location dims, as a filter
`[out..., M/G, C/G, kernel...]` of its own. -/
def Tensor.outputGroup (filter : Tensor) (image_ndim G g : Nat) : Tensor :=
  { dims := filter.dims.take image_ndim ++
      filter.dims.getD image_ndim 0 / G :: filter.dims.drop (image_ndim + 1),
    data := fun i =>
      filter.data
        (i / (filter.dims.getD image_ndim 0 / G * (filter.dims.drop (image_ndim + 1)).prod) *
            (filter.dims.getD image_ndim 0 * (filter.dims.drop (image_ndim + 1)).prod)
          + g * (filter.dims.getD image_ndim 0 / G * (filter.dims.drop (image_ndim + 1)).prod)
          + i % (filter.dims.getD image_ndim 0 / G * (filter.dims.drop (image_ndim + 1)).prod)) }

/-- The same configuration with a single group. -/
def ConvPoolOpBase.singleGroup (op : ConvPoolOpBase) : ConvPoolOpBase := { op with group_ := 1 }

/-! ## The gradient check and the stated input gradient -/

/-- Dot product of the first `n` elements of two buffers. -/
def dotTo (n : Nat) (a b : Buf) : Int := sumTo n fun i => a i * b i

/-- The buffer with `eps` added to element `i`. -/
def Buf.perturb (b : Buf) (i : Nat) (eps : Int) : Buf :=
  fun j => if j = i then b j + eps else b j

/-- The tensor with `eps` added to element `i`. -/
def Tensor.perturb (t : Tensor) (i : Nat) (eps : Int) : Tensor :=
  { t with data := t.data.perturb i eps }

/-- The objective of the gradient check, `L = sum over all output elements of
dY * forward(X, filter, bias)`; `none` when the forward call is rejected. -/
def lossOf (order : StorageOrder) (op : ConvPoolOpBase) (X filter : Tensor)
    (bias : Option Tensor) (dY : Tensor) : Option Int :=
  (LocallyConnectedOp.RunOnDevice order op X filter bias emptyTensor zeroScratch).toOption.map
    fun out => dotTo out.Y.size dY.data out.Y.data

/-- The channel-first input gradient as the claim states it: element `(n, c, s)` is the
sum, over the output channels `m` of the group of `c` and over every (output location `p`,
kernel offset `k`) pair that reads input location `s`, of filter weight times `dY`. -/
def inputGradStatedNCHW (axes : List Axis) (G C M : Nat) (filter dY : Buf) (n c s : Nat) : Int :=
  sumTo (M / G) fun m => sumTo (outProd axes) fun p => sumTo (kernelProd axes) fun k =>
    if spatialTap axes k p = some s then
      filter (((((p * G + c / (C / G)) * (M / G) + m) * (C / G) + c % (C / G)) * kernelProd axes
        + k)) * dY ((n * M + (c / (C / G) * (M / G) + m)) * outProd axes + p)
    else 0

/-- A 1-d input `[N, C, L] = [1, 1, 3]`. -/
def x1d : Tensor := { dims := [1, 1, 3], data := bufOf [1, 2, 3] }

/-- A 1-d filter `[out, M, C, k] = [2, 1, 1, 2]` holding the weights `W[p][k]`. -/
def filter1d (w00 w01 w10 w11 : Int) : Tensor :=
  { dims := [2, 1, 1, 2], data := bufOf [w00, w01, w10, w11] }

/-- A 1-d output gradient `[N, M, out] = [1, 1, 2]`. -/
def dY1d (dy0 dy1 : Int) : Tensor := { dims := [1, 1, 2], data := bufOf [dy0, dy1] }

/-! ## Backward dispatch, stated formulas and further concrete inputs -/

/-- The backward setup of the given storage order. -/
def LocallyConnectedGradientOp.setup (order : StorageOrder) (op : ConvPoolOpBase)
    (X filter dY : Tensor) (OutputSize : Nat) (outs : GradOutputs) (bias_multiplier_ : Buf) :
    Except (Failure GradOutputs) BackwardSetup :=
  match order with
  | .NCHW => LocallyConnectedGradientOp.setupNCHW op X filter dY OutputSize outs bias_multiplier_
  | .NHWC => LocallyConnectedGradientOp.setupNHWC op X filter dY OutputSize outs bias_multiplier_

/-- The dispatch on the storage order of ConvPoolOpBase::RunOnDevice, backward. -/
def LocallyConnectedGradientOp.RunOnDevice (order : StorageOrder) (op : ConvPoolOpBase)
    (X filter dY : Tensor) (OutputSize : Nat) (outs : GradOutputs) (scratch : Scratch) :
    Except (Failure GradOutputs) BackwardOutput :=
  match order with
  | .NCHW => LocallyConnectedGradientOp.RunOnDeviceWithOrderNCHW op X filter dY OutputSize outs
      scratch
  | .NHWC => LocallyConnectedGradientOp.RunOnDeviceWithOrderNHWC op X filter dY OutputSize outs
      scratch

/-- The channel count an entry point reads from `X`: `X.dim32(1)` in the channel-first
order, `X.dim32(3)` in the channel-last order. -/
def channelsOf (order : StorageOrder) (X : Tensor) : Nat :=
  match order with
  | .NCHW => X.dims.getD 1 0
  | .NHWC => X.dims.getD 3 0

/-- The per-group unfolded kernel size as the spec states it: `(C/G)` times the product of
the kernel dims. -/
def kernelSizeStated (C G : Nat) (kernel : List Nat) : Nat := C / G * kernel.prod

/-- The group count an entry point divides the channels by when it derives the kernel
size: `group_` in the channel-first order; the channel-last order never reads `group_`. -/
def groupsUsed (order : StorageOrder) (op : ConvPoolOpBase) : Nat :=
  match order with
  | .NCHW => op.group_
  | .NHWC => 1

/-- The bias gradient as the claim states it, on `dY` in channel-first layout `[N, M, O]`:
`dbias[p, m]` is the sum over the images `n` of `dY[n, m, p]`. -/
def biasGradStated (N M O : Nat) (dY : Buf) (p m : Nat) : Int :=
  sumTo N fun n => dY ((n * M + m) * O + p)

/-- A 1-d filter `[out, M, C, k] = [1, 1, 1, 2]`: one output location. -/
def filterShort : Tensor := { dims := [1, 1, 1, 2], data := bufOf [7, 11] }

/-- A 1-d output gradient `[N, M, out] = [1, 1, 1]`: one output location. -/
def dYShort : Tensor := { dims := [1, 1, 1], data := bufOf [1] }

/-- A channel-last input `[N, H, W, C] = [1, 1, 1, 2]`. -/
def xNHWCc2 : Tensor := { dims := [1, 1, 1, 2], data := bufOf [3, 5] }

/-- A channel-last filter `[out_h, out_w, M, kh, kw, C] = [1, 1, 1, 1, 1, 2]`. -/
def filterNHWCc2 : Tensor := { dims := [1, 1, 1, 1, 1, 2], data := bufOf [7, 11] }

/-- A 1x1 kernel, group 1, with bias. -/
def opPointBias : ConvPoolOpBase :=
  { group_ := 1, kernel_ := [1, 1], stride_ := [1, 1], dilation_ := [1, 1],
    pads_ := [0, 0, 0, 0], no_bias_ := false }

/-- Two single-channel images of 1x2 elements in channel-first layout `[N, C, H, W]`. -/
def xPairNCHW : Tensor := { dims := [2, 1, 1, 2], data := bufOf [1, 2, 3, 4] }

/-- The same two images in channel-last layout `[N, H, W, C]`. -/
def xPairNHWC : Tensor := { dims := [2, 1, 2, 1], data := bufOf [1, 2, 3, 4] }

/-- A filter with 1x2 output locations, two output channels, one input channel and a 1x1
kernel; its dims `[1, 2, 2, 1, 1, 1]` read the same in both storage orders. -/
def filterPair : Tensor := { dims := [1, 2, 2, 1, 1, 1], data := bufOf [1, 1, 1, 1] }

/-- An output gradient in channel-first layout `[N, M, out_h, out_w] = [2, 2, 1, 2]`. -/
def dYPairNCHW : Tensor := { dims := [2, 2, 1, 2], data := bufOf [1, 2, 3, 4, 5, 6, 7, 8] }

/-- The same output gradient rearranged to channel-last layout
`[N, out_h, out_w, M] = [2, 1, 2, 2]`. -/
def dYPairNHWC : Tensor := { dims := [2, 1, 2, 2], data := bufOf [1, 3, 2, 4, 5, 7, 6, 8] }

/-- Gradient outputs whose bias-gradient storage holds stale values. -/
def staleBiasOutputs : GradOutputs :=
  { dfilter := emptyTensor, dbias := { dims := [], data := bufOf [100, 100, 100, 100] }, dX := emptyTensor }

/-- The output `Y` resized to the shape SetOutputSize computes for it. -/
def resizedOutput (order : StorageOrder) (op : ConvPoolOpBase) (X filter Y : Tensor) : Tensor :=
  Y.Resize (outputDims op order X (filter.dims.getD (X.dims.length - 2) 0))

/-- What a failed forward call leaves of the output `Y`, by the enforce that failed: `Y`
is as it was passed in when the failure precedes SetOutputSize, and is `Y` resized to the
computed output shape when it follows. The enforce on the filter's kernel dims follows
SetOutputSize in the channel-first entry point and precedes it in the channel-last one. -/
def failedForwardState (order : StorageOrder) (op : ConvPoolOpBase) (X filter Y : Tensor)
    (f : Failure Tensor) : Prop :=
  (f.state = Y ∨ f.state = resizedOutput order op X filter Y) ∧
  (f.err = .filterRank ∨ f.err = .inputChannels ∨ f.err = .outputChannelsGroup ∨
    f.err = .kernelRank ∨ f.err = .outputSize → f.state = Y) ∧
  (f.err = .filterImageDims ∨ f.err = .biasShape → f.state = resizedOutput order op X filter Y) ∧
  (f.err = .filterKernelDims →
    f.state = match order with
      | .NCHW => resizedOutput order op X filter Y
      | .NHWC => Y)

/-- The two transposes the pipelines apply to one buffer, with the arguments of the call
sites: `Transpose(size, ndim, dims, transposed_dims, axes, buf, tmp)` on the way in and
`Transpose(size, ndim, transposed_dims, dims, axes, tmp, out)` on the way back, the same
`axes` both times. `tmp0` and `out0` are the previous contents of the two destinations. -/
def transposeThereAndBack (dims transposed_dims axes : List Nat) (buf tmp0 out0 : Buf) : Buf :=
  math.Transpose transposed_dims.prod dims.length transposed_dims dims axes
    (math.Transpose dims.prod dims.length dims transposed_dims axes buf tmp0) out0

/-! ## Validation: what an accepted call guarantees -/

theorem enforce_bind_ok {σ α : Type} (c : Prop) [Decidable c] (e : EnforceError) (st : σ)
    (f : Unit → Except (Failure σ) α) (r : α) :
    (enforce c e st >>= f) = .ok r ↔ c ∧ f () = .ok r := by
  unfold enforce
  by_cases h : c
  · simp [h, bind, Except.bind]
  · simp [h, bind, Except.bind]

theorem dim32_bind_ok {σ α : Type} (t : Tensor) (i : Int) (st : σ)
    (f : Nat → Except (Failure σ) α) (r : α) :
    (t.dim32 i st >>= f) = .ok r ↔ (0 ≤ i ∧ i < t.ndim) ∧ f (t.dims.getD i.toNat 0) = .ok r := by
  unfold Tensor.dim32
  by_cases h : 0 ≤ i ∧ i < t.ndim
  · simp [h, bind, Except.bind]
  · simp [h, bind, Except.bind]

theorem SetOutputSize_bind_ok {α : Type} (op : ConvPoolOpBase) (order : StorageOrder)
    (X Y : Tensor) (M : Nat) (f : Tensor → Except (Failure Tensor) α) (r : α) :
    (op.SetOutputSize order X Y M >>= f) = .ok r ↔
      (op.kernel_.length = (GetDims order X).length ∧ 1 ≤ X.dims.length ∧
        ∀ a ∈ op.axes (GetDims order X), a.dkernel ≤ a.size + a.pad_head + a.pad_tail) ∧
      f (Y.Resize (outputDims op order X M)) = .ok r := by
  unfold ConvPoolOpBase.SetOutputSize
  split_ifs with h
  · exact ⟨fun hf => ⟨h, hf⟩, fun hf => hf.2⟩
  · exact ⟨fun hf => (by cases hf), fun hf => absurd hf.1 h⟩

theorem checkBias_bind_ok {α : Type} (bias : Tensor) (image_ndim : Int) (dims : List Nat) (M : Nat)
    (Y : Tensor) (f : Unit → Except (Failure Tensor) α) (r : α) :
    (checkBias bias image_ndim dims M Y >>= f) = .ok r ↔
      (bias.ndim = image_ndim + 1 ∧ (∀ i < image_ndim.toNat, dimIs bias i (dims.getD i 0)) ∧
        (0 ≤ image_ndim ∧ image_ndim < bias.ndim) ∧ bias.dims.getD image_ndim.toNat 0 = M) ∧
      f () = .ok r := by
  unfold checkBias
  simp only [bind_assoc, enforce_bind_ok, dim32_bind_ok]
  simp [and_assoc]

theorem list_eq_of_getD (l1 l2 : List Nat) (hlen : l1.length = l2.length)
    (h : ∀ i < l1.length, l1.getD i 0 = l2.getD i 0) : l1 = l2 := by
  apply List.ext_getElem hlen
  intro i h1 h2
  have := h i h1
  rw [List.getD_eq_getElem _ _ h1, List.getD_eq_getElem _ _ h2] at this
  exact this

theorem mkAxes_length (dims kernel stride dilation pads : List Nat) :
    (mkAxes dims kernel stride dilation pads).length = dims.length := by
  simp [mkAxes]

/-- The filter shape of an accepted channel-first call. -/
theorem filter_dims_of_checks (filter : List Nat) (outs kernel : List Nat) (d : Nat)
    (houts : outs.length = d) (hk : kernel.length = d) (hlen : filter.length = d + d + 2)
    (h9 : ∀ i < d, outs.getD i 0 = filter.getD i 0)
    (h10 : ∀ i < d, filter.getD (i + d + 2) 0 = kernel.getD i 0) :
    filter = outs ++ filter.getD d 0 :: filter.getD (d + 1) 0 :: kernel := by
  apply list_eq_of_getD
  · simp [houts, hk, hlen]; omega
  · intro i hi
    by_cases h1 : i < d
    · rw [List.getD_append _ _ _ _ (by omega)]
      exact (h9 i h1).symm
    · rw [List.getD_append_right _ _ _ _ (by omega)]
      rw [houts]
      by_cases h2 : i = d
      · subst h2; simp
      · by_cases h3 : i = d + 1
        · subst h3; simp
        · obtain ⟨j, rfl⟩ : ∃ j, i = j + d + 2 := ⟨i - d - 2, by omega⟩
          have : j + d + 2 - d = j + 2 := by omega
          rw [this]
          simp only [List.getD_cons_succ]
          exact h10 j (by omega)


theorem setupNCHW_ok (op : ConvPoolOpBase) (X filter : Tensor) (bias : Option Tensor) (Y : Tensor)
    (bm : Buf) (s : ForwardSetup) (h : LocallyConnectedOp.setupNCHW op X filter bias Y bm = .ok s) :
    ∃ N C M fc dims, X.dims = N :: C :: dims ∧
      filter.dims = (op.axes dims).map Axis.out ++ M :: fc :: op.kernel_ ∧
      C = fc * op.group_ ∧ M % op.group_ = 0 ∧ op.kernel_.length = dims.length ∧
      (∀ a ∈ op.axes dims, a.dkernel ≤ a.size + a.pad_head + a.pad_tail) ∧
      s.shape = planShape .NCHW op.group_ N C M dims.prod (outProd (op.axes dims))
        (C / op.group_ * op.kernel_.prod) dims ∧
      s.Y = Y.Resize (N :: M :: (op.axes dims).map Axis.out) ∧
      s.bias_data = bias.map Tensor.data ∧
      s.bias_multiplier = (if bias.isSome then SetBiasMultiplier N else bm) := by
  unfold LocallyConnectedOp.setupNCHW at h
  simp only [enforce_bind_ok, dim32_bind_ok, SetOutputSize_bind_ok] at h
  obtain ⟨h1, -, h3, -, -, h6, h7, h8, h9, h10, h11⟩ := h
  obtain ⟨Xd, Xdata⟩ := X
  obtain ⟨Fd, Fdata⟩ := filter
  simp only [Tensor.ndim] at *
  match Xd, h3 with
  | N :: C :: dims, _ =>
    have e1 : ((↑(N :: C :: dims).length : Int) - 2).toNat = dims.length := by
      simp only [List.length_cons]; push_cast; omega
    have e2 : ((↑(N :: C :: dims).length : Int) - 2 + 1).toNat = dims.length + 1 := by
      simp only [List.length_cons]; push_cast; omega
    have e3 : ((↑(N :: C :: dims).length : Int) - 2) = dims.length := by
      simp only [List.length_cons]; push_cast; omega
    rw [e1] at h7 h9 h11
    rw [e2] at h6
    rw [e3] at h10 h1
    simp only [GetDims, List.drop_succ_cons, List.drop_zero, outputDims, Tensor.Resize,
      GetDimsSize] at h8 h9 h11
    simp only [Int.toNat_one, Int.toNat_zero, List.getD_cons_zero, List.getD_cons_succ] at h6 h11
    have hlen : Fd.length = dims.length + dims.length + 2 := by
      simp only [List.length_cons] at h1; push_cast at h1; omega
    have hF := filter_dims_of_checks Fd ((op.axes dims).map Axis.out) op.kernel_ dims.length
      (by simp [ConvPoolOpBase.axes, mkAxes_length]) h8.1 hlen h9
      (by
        intro i hi
        have := h10 i (by omega)
        simp only [dimIs] at this
        have e : ((i : Int) + (dims.length : Int) + 2).toNat = i + dims.length + 2 := by omega
        rw [e] at this
        exact this.2.2)
    refine ⟨N, C, Fd.getD dims.length 0, Fd.getD (dims.length + 1) 0, dims, rfl, hF, h6, h7,
      h8.1, h8.2.2, ?_⟩
    cases bias with
    | none =>
      simp only [pure, Except.pure, Except.ok.injEq] at h11
      subst h11
      simp [outProd, Tensor.Resize]
    | some b =>
      simp only [checkBias_bind_ok, pure, Except.pure, Except.ok.injEq] at h11
      obtain ⟨-, h11⟩ := h11
      subst h11
      simp [outProd, Tensor.Resize]


theorem axes_pair (op : ConvPoolOpBase) (H W : Nat) :
    op.axes [H, W] =
      [{ size := H, kernel := op.kernel_h, stride := op.stride_h, dilation := op.dilation_h,
         pad_head := op.pad_t, pad_tail := op.pad_b },
       { size := W, kernel := op.kernel_w, stride := op.stride_w, dilation := op.dilation_w,
         pad_head := op.pad_l, pad_tail := op.pad_r }] := by
  simp [ConvPoolOpBase.axes, mkAxes, List.range_succ, ConvPoolOpBase.kernel_h,
    ConvPoolOpBase.kernel_w, ConvPoolOpBase.stride_h, ConvPoolOpBase.stride_w,
    ConvPoolOpBase.dilation_h, ConvPoolOpBase.dilation_w, ConvPoolOpBase.pad_t,
    ConvPoolOpBase.pad_l, ConvPoolOpBase.pad_b, ConvPoolOpBase.pad_r]

theorem setupNHWC_ok (op : ConvPoolOpBase) (X filter : Tensor) (bias : Option Tensor) (Y : Tensor)
    (bm : Buf) (s : ForwardSetup) (h : LocallyConnectedOp.setupNHWC op X filter bias Y bm = .ok s) :
    ∃ N H W C M, X.dims = [N, H, W, C] ∧ op.kernel_.length = 2 ∧
      filter.dims = (op.axes [H, W]).map Axis.out ++ [M, op.kernel_h, op.kernel_w, C] ∧
      (∀ a ∈ op.axes [H, W], a.dkernel ≤ a.size + a.pad_head + a.pad_tail) ∧
      s.shape = planShape .NHWC op.group_ N C M (H * W) (outProd (op.axes [H, W]))
        (op.kernel_h * op.kernel_w * C) [H, W] ∧
      s.Y = Y.Resize (N :: ((op.axes [H, W]).map Axis.out ++ [M])) ∧
      s.bias_data = bias.map Tensor.data ∧
      s.bias_multiplier = (if bias.isSome then SetBiasMultiplier N else bm) := by
  unfold LocallyConnectedOp.setupNHWC at h
  simp only [enforce_bind_ok, dim32_bind_ok, SetOutputSize_bind_ok] at h
  obtain ⟨hk, h1, -, h3, -, -, -, -, h6, -, h7, -, h8, h9, h10, h11⟩ := h
  obtain ⟨Xd, Xdata⟩ := X
  obtain ⟨Fd, Fdata⟩ := filter
  simp only [Tensor.ndim] at *
  obtain ⟨N, H, W, C, rfl⟩ : ∃ N H W C, Xd = [N, H, W, C] := by
    have hl : Xd.length = 4 := by
      have := h9.1
      simp only [GetDims, List.length_dropLast, List.length_drop] at this
      omega
    match Xd, hl with
    | [a, b, c, d], _ => exact ⟨a, b, c, d, rfl⟩
  obtain ⟨o1, o2, M, f1, f2, f3, rfl⟩ : ∃ a b c d e f, Fd = [a, b, c, d, e, f] := by
    have hl : Fd.length = 6 := by
      simp only [List.length_cons, List.length_nil] at h1; push_cast at h1; omega
    match Fd, hl with
    | [a, b, c, d, e, f], _ => exact ⟨a, b, c, d, e, f, rfl⟩
  have hl4 : (([N, H, W, C] : List Nat).length : Int) = 4 := rfl
  have t0 : Int.toNat 0 = 0 := rfl
  have t1 : Int.toNat 1 = 1 := rfl
  have t2 : Int.toNat 2 = 2 := rfl
  have t3 : Int.toNat 3 = 3 := rfl
  have u0 : ((4 : Int) - 2).toNat = 2 := rfl
  have u1 : ((4 : Int) - 2 + 1).toNat = 3 := rfl
  have u2 : ((4 : Int) - 2 + 2).toNat = 4 := rfl
  have u3 : ((4 : Int) - 2 + 3).toNat = 5 := rfl
  have d2 : ∀ a b c : Nat, [a, b, c].dropLast = [a, b] := fun _ _ _ => rfl
  simp only [hl4, t0, t1, t2, t3, u0, u1, u2, u3, GetDims, GetDimsSize, outputDims,
    Tensor.Resize, List.drop_succ_cons, List.drop_zero, d2, axes_pair, List.map_cons,
    List.map_nil, List.cons_append, List.nil_append, List.getD_cons_zero, List.getD_cons_succ,
    List.prod_cons, List.prod_nil, mul_one]
    at h6 h7 h8 h9 h10 h11
  have h10a := h10 0 (by norm_num)
  have h10b := h10 1 (by norm_num)
  simp only [List.getD_cons_zero, List.getD_cons_succ] at h10a h10b
  refine ⟨N, H, W, C, M, rfl, hk, ?_, ?_, ?_⟩
  · simp only [axes_pair, List.map_cons, List.map_nil, List.cons_append, List.nil_append,
      h6, h7, h8, h10a, h10b]
  · simpa only [axes_pair] using h9.2.2
  · cases bias with
    | none =>
      simp only [pure, Except.pure, Except.ok.injEq] at h11
      subst h11
      simp [outProd, Tensor.Resize, axes_pair]
    | some b =>
      simp only [checkBias_bind_ok, pure, Except.pure, Except.ok.injEq] at h11
      obtain ⟨-, h11⟩ := h11
      subst h11
      simp [outProd, Tensor.Resize, axes_pair]

theorem gradSetupNCHW_ok (op : ConvPoolOpBase) (X filter dY : Tensor) (OutputSize : Nat)
    (outs : GradOutputs) (bm : Buf) (s : BackwardSetup)
    (h : LocallyConnectedGradientOp.setupNCHW op X filter dY OutputSize outs bm = .ok s) :
    ∃ N C dims, X.dims = N :: C :: dims ∧
      filter.dims.length = dims.length + dims.length + 2 ∧
      C = filter.dims.getD (dims.length + 1) 0 * op.group_ ∧
      filter.dims.getD dims.length 0 % op.group_ = 0 ∧
      (∀ i < dims.length, (GetDims .NCHW dY).getD i 0 = filter.dims.getD i 0) ∧
      (∀ i < op.kernel_.length, i < dims.length ∧
        filter.dims.getD (i + dims.length + 2) 0 = op.kernel_.getD i 0) ∧
      s = resizeGradOutputs op
        (planShape .NCHW op.group_ N C (filter.dims.getD dims.length 0) dims.prod
          (GetDims .NCHW dY).prod (C / op.group_ * op.kernel_.prod) dims)
        X filter (GetDims .NCHW dY) OutputSize outs bm := by
  unfold LocallyConnectedGradientOp.setupNCHW at h
  simp only [enforce_bind_ok, dim32_bind_ok] at h
  obtain ⟨h1, -, h3, -, -, h6, h7, h9, h10, h11⟩ := h
  obtain ⟨Xd, Xdata⟩ := X
  obtain ⟨Fd, Fdata⟩ := filter
  simp only [Tensor.ndim] at *
  match Xd, h3 with
  | N :: C :: dims, _ =>
    have e1 : ((↑(N :: C :: dims).length : Int) - 2).toNat = dims.length := by
      simp only [List.length_cons]; push_cast; omega
    have e2 : ((↑(N :: C :: dims).length : Int) - 2 + 1).toNat = dims.length + 1 := by
      simp only [List.length_cons]; push_cast; omega
    have e3 : ((↑(N :: C :: dims).length : Int) - 2) = dims.length := by
      simp only [List.length_cons]; push_cast; omega
    have t0 : Int.toNat 0 = 0 := rfl
    have t1 : Int.toNat 1 = 1 := rfl
    rw [e1] at h7 h9 h11
    rw [e2] at h6
    rw [e3] at h10 h1
    simp only [t0, t1, List.getD_cons_zero, List.getD_cons_succ, GetDimsSize, pure, Except.pure,
      Except.ok.injEq] at h6 h11
    have hlen : Fd.length = dims.length + dims.length + 2 := by
      simp only [List.length_cons] at h1; push_cast at h1; omega
    refine ⟨N, C, dims, rfl, hlen, h6.symm, h7, h9, ?_, ?_⟩
    · intro i hi
      have := h10 i hi
      simp only [dimIs] at this
      have e : ((i : Int) + (dims.length : Int) + 2).toNat = i + dims.length + 2 := by omega
      rw [e] at this
      have hb := this.2.1
      simp only [Tensor.ndim] at hb
      exact ⟨by omega, this.2.2⟩
    · rw [← h11]
      simp [GetDims]

/-! ## Validation claims -/

theorem except_bind_ok {ε α β : Type} (x : Except ε α) (f : α → Except ε β) (r : β)
    (h : (x >>= f) = .ok r) : ∃ a, x = .ok a ∧ f a = .ok r := by
  cases x with
  | error e => cases h
  | ok a => exact ⟨a, rfl, h⟩

theorem forwardNCHW_ok_setup {op : ConvPoolOpBase} {X filter : Tensor} {bias : Option Tensor}
    {Y : Tensor} {scratch : Scratch} {out : ForwardOutput}
    (h : LocallyConnectedOp.RunOnDeviceWithOrderNCHW op X filter bias Y scratch = .ok out) :
    ∃ s, LocallyConnectedOp.setupNCHW op X filter bias Y scratch.bias_multiplier = .ok s ∧
      out.Y.dims = s.Y.dims ∧
      out.Y.data = (LocallyConnectedOp.RunOnDeviceWithOrderNCHWImpl op s.shape X.data filter.data
        s.bias_data s.Y.data { scratch with bias_multiplier := s.bias_multiplier }).Y_data := by
  obtain ⟨s, hs, hr⟩ := except_bind_ok _ _ _ h
  simp only [pure, Except.pure, Except.ok.injEq] at hr
  subst hr
  exact ⟨s, hs, rfl, rfl⟩

theorem forwardNHWC_ok_setup {op : ConvPoolOpBase} {X filter : Tensor} {bias : Option Tensor}
    {Y : Tensor} {scratch : Scratch} {out : ForwardOutput}
    (h : LocallyConnectedOp.RunOnDeviceWithOrderNHWC op X filter bias Y scratch = .ok out) :
    ∃ s, LocallyConnectedOp.setupNHWC op X filter bias Y scratch.bias_multiplier = .ok s ∧
      out.Y.dims = s.Y.dims ∧
      out.Y.data = (LocallyConnectedOp.RunOnDeviceWithOrderNHWCImpl op s.shape X.data filter.data
        s.bias_data s.Y.data { scratch with bias_multiplier := s.bias_multiplier }).Y_data := by
  obtain ⟨s, hs, hr⟩ := except_bind_ok _ _ _ h
  simp only [pure, Except.pure, Except.ok.injEq] at hr
  subst hr
  exact ⟨s, hs, rfl, rfl⟩

theorem backwardNCHW_ok_setup {op : ConvPoolOpBase} {X filter dY : Tensor} {OutputSize : Nat}
    {outs : GradOutputs} {scratch : Scratch} {out : BackwardOutput}
    (h : LocallyConnectedGradientOp.RunOnDeviceWithOrderNCHW op X filter dY OutputSize outs scratch
      = .ok out) :
    ∃ s, LocallyConnectedGradientOp.setupNCHW op X filter dY OutputSize outs
        scratch.bias_multiplier = .ok s ∧
      out = runGradImpl (LocallyConnectedGradientOp.RunOnDeviceWithOrderNCHWImpl op) s X filter dY
        scratch := by
  obtain ⟨s, hs, hr⟩ := except_bind_ok _ _ _ h
  simp only [pure, Except.pure, Except.ok.injEq] at hr
  exact ⟨s, hs, hr.symm⟩

/-- C9: in the channel-last layout a kernel rank other than 2 makes both the forward and
the backward entry point fail with the kernel-rank enforce, whatever the input, filter,
bias and output gradient are; the failure leaves the outputs exactly as they were passed
in, so the check precedes every shape derivation and every resize or write. -/
theorem C9_nhwc_kernel_rank_checked_first (op : ConvPoolOpBase) (X filter : Tensor)
    (bias : Option Tensor) (Y : Tensor) (dY : Tensor) (OutputSize : Nat) (outs : GradOutputs)
    (scratch : Scratch) (h : op.kernel_.length ≠ 2) :
    LocallyConnectedOp.RunOnDeviceWithOrderNHWC op X filter bias Y scratch
        = .error ⟨.kernelRank, Y⟩ ∧
      LocallyConnectedGradientOp.RunOnDeviceWithOrderNHWC op X filter dY OutputSize outs scratch
        = .error ⟨.kernelRank, outs⟩ := by
  constructor
  · simp [LocallyConnectedOp.RunOnDeviceWithOrderNHWC, LocallyConnectedOp.setupNHWC, enforce, h,
      bind, Except.bind]
  · simp [LocallyConnectedGradientOp.RunOnDeviceWithOrderNHWC,
      LocallyConnectedGradientOp.setupNHWC, enforce, h, bind, Except.bind]

/-- C9 at a concrete input: a rank-1 kernel in the channel-last layout. -/
theorem C9_nhwc_kernel_rank_checked_first_witness :
    op1d.kernel_.length ≠ 2 ∧
      LocallyConnectedOp.RunOnDeviceWithOrderNHWC op1d xNHWC1 filterNHWC1 none emptyTensor
          zeroScratch = .error ⟨.kernelRank, emptyTensor⟩ ∧
      LocallyConnectedGradientOp.RunOnDeviceWithOrderNHWC op1d xNHWC1 filterNHWC1 xNHWC1 2
          emptyGradOutputs zeroScratch = .error ⟨.kernelRank, emptyGradOutputs⟩ :=
  ⟨by decide, C9_nhwc_kernel_rank_checked_first op1d xNHWC1 filterNHWC1 none emptyTensor xNHWC1 2
    emptyGradOutputs zeroScratch (by decide)⟩

/-- C10 as stated fails in the channel-last order: with group 2, one input channel and one
output channel the forward call is accepted although neither count is divisible by the
group count. -/
theorem C10_counterexample_nhwc_ignores_group :
    (∃ out, LocallyConnectedOp.RunOnDeviceWithOrderNHWC opGroup2 xNHWC1 filterNHWC1 none
        emptyTensor zeroScratch = .ok out) ∧
      xNHWC1.dims.getD 3 0 % opGroup2.group_ ≠ 0 ∧
      filterNHWC1.dims.getD 2 0 % opGroup2.group_ ≠ 0 :=
  ⟨⟨_, rfl⟩, by decide, by decide⟩

/-- C10 (amended): in the channel-first order, a call accepted by the forward or by the
backward entry point has `C` equal to the filter's channel dimension times the group
count, hence `C` divisible by the group count, and `M` divisible by the group count. -/
theorem C10_nchw_accepted_divisible_by_group (op : ConvPoolOpBase) (X filter : Tensor)
    (h : (∃ bias Y scratch out,
            LocallyConnectedOp.RunOnDeviceWithOrderNCHW op X filter bias Y scratch = .ok out) ∨
         (∃ dY OutputSize outs scratch out,
            LocallyConnectedGradientOp.RunOnDeviceWithOrderNCHW op X filter dY OutputSize outs
              scratch = .ok out)) :
    X.dims.getD 1 0 = filter.dims.getD (X.dims.length - 1) 0 * op.group_ ∧
      X.dims.getD 1 0 % op.group_ = 0 ∧
      filter.dims.getD (X.dims.length - 2) 0 % op.group_ = 0 := by
  have key : ∃ N C dims, X.dims = N :: C :: dims ∧
      C = filter.dims.getD (dims.length + 1) 0 * op.group_ ∧
      filter.dims.getD dims.length 0 % op.group_ = 0 := by
    rcases h with ⟨bias, Y, scratch, out, h⟩ | ⟨dY, OutputSize, outs, scratch, out, h⟩
    · obtain ⟨s, hs, -⟩ := forwardNCHW_ok_setup h
      obtain ⟨N, C, M, fc, dims, hX, hF, hC, hM, -⟩ := setupNCHW_ok _ _ _ _ _ _ _ hs
      refine ⟨N, C, dims, hX, ?_, ?_⟩
      · have hl : ((op.axes dims).map Axis.out).length = dims.length := by
          simp [ConvPoolOpBase.axes, mkAxes_length]
        rw [hF, List.getD_append_right _ _ _ _ (by omega), hl]
        simpa using hC
      · have hl : ((op.axes dims).map Axis.out).length = dims.length := by
          simp [ConvPoolOpBase.axes, mkAxes_length]
        rw [hF, List.getD_append_right _ _ _ _ (by omega), hl]
        simpa using hM
    · obtain ⟨s, hs, -⟩ := backwardNCHW_ok_setup h
      obtain ⟨N, C, dims, hX, -, hC, hM, -⟩ := gradSetupNCHW_ok _ _ _ _ _ _ _ _ hs
      exact ⟨N, C, dims, hX, hC, hM⟩
  obtain ⟨N, C, dims, hX, hC, hM⟩ := key
  rw [hX]
  simp only [List.length_cons, List.getD_cons_succ, List.getD_cons_zero,
    Nat.add_sub_cancel]
  refine ⟨hC, ?_, hM⟩
  rw [hC]; exact Nat.mul_mod_left _ _

/-- C10 (amended) at a concrete input: two channels in two groups. -/
theorem C10_nchw_accepted_divisible_by_group_witness :
    (∃ out, LocallyConnectedOp.RunOnDeviceWithOrderNCHW opGroup2 xGroup2 filterGroup2 none
        emptyTensor zeroScratch = .ok out) ∧
      xGroup2.dims.getD 1 0 = filterGroup2.dims.getD (xGroup2.dims.length - 1) 0 * opGroup2.group_ ∧
      xGroup2.dims.getD 1 0 % opGroup2.group_ = 0 ∧
      filterGroup2.dims.getD (xGroup2.dims.length - 2) 0 % opGroup2.group_ = 0 :=
  ⟨⟨_, rfl⟩, C10_nchw_accepted_divisible_by_group opGroup2 xGroup2 filterGroup2
    (Or.inl ⟨none, emptyTensor, zeroScratch, _, rfl⟩)⟩

/-! ## Buffer sizes and call traces -/

theorem writtenCount_append (l : List SliceCall) (c : SliceCall) :
    writtenCount (l ++ [c]) = writtenCount l + c.col_len := by
  simp [writtenCount]

theorem writtenCount_groupLoop (is cs xb cb x_len col_len : Nat) (g : Nat) (l : List SliceCall) :
    writtenCount (groupLoop is cs xb cb
      (fun x_off col_off calls =>
        calls ++ [{ x_off := x_off, x_len := x_len, col_off := col_off, col_len := col_len }])
      g l) = writtenCount l + g * col_len := by
  induction g with
  | zero => simp [groupLoop]
  | succ g ih => simp only [groupLoop, writtenCount_append, ih]; ring

theorem writtenCount_imageLoop (G is cs x_len col_len : Nat) (n : Nat) (l : List SliceCall) :
    writtenCount (imageLoop G is cs
      (fun x_off col_off calls =>
        calls ++ [{ x_off := x_off, x_len := x_len, col_off := col_off, col_len := col_len }])
      n l) = writtenCount l + n * (G * col_len) := by
  induction n with
  | zero => simp [imageLoop]
  | succ n ih => simp only [imageLoop, writtenCount_groupLoop, ih]; ring

theorem writtenCount_unfoldCalls (op : ConvPoolOpBase) (shape : ShapeParams) :
    writtenCount (LocallyConnectedOp.unfoldCalls op shape) =
      shape.N * op.group_ * shape.kernel_size * shape.output_image_size := by
  simp only [LocallyConnectedOp.unfoldCalls, sliceCalls, writtenCount_imageLoop, column_stride]
  simp [writtenCount]; ring

theorem writtenCount_unfoldCallsNHWC (shape : ShapeParams) :
    writtenCount (unfoldCallsNHWC shape) =
      shape.N * shape.kernel_size * shape.output_image_size := by
  unfold unfoldCallsNHWC
  generalize shape.N = n
  have : ∀ l : List SliceCall, writtenCount (forImages
      (fun image_id calls =>
        calls ++ [{ x_off := image_id * (shape.C * shape.input_image_size),
                    x_len := shape.C * shape.input_image_size,
                    col_off := image_id * column_stride shape, col_len := column_stride shape }])
      n l) = writtenCount l + n * column_stride shape := by
    induction n with
    | zero => simp [forImages]
    | succ n ih => intro l; simp only [forImages, writtenCount_append, ih]; ring
  rw [this]; simp [writtenCount, column_stride]; ring

/-- C8 as stated fails in the channel-last order: for a batch of two images and one output
channel the call is accepted, `batch_count * rows * inner` is 2 while the filter has one
element, and `batch_count * inner * cols` is 1 while the unfold loop wrote two elements. -/
theorem C8_counterexample_nhwc_operands_swapped :
    (shapeOfForward (LocallyConnectedOp.setup .NHWC opPoint xNHWC2 filterNHWC1 none emptyTensor
        (bufOf []))).map
      (fun shape =>
        let d := LocallyConnectedOp.gemmDims .NHWC opPoint shape
        (d.batch_size * d.M * d.K, d.batch_size * d.K * d.N, writtenCount (unfoldCallsNHWC shape)))
      = some (2, 1, 2) ∧ filterNHWC1.size = 1 := by
  decide

/-- C8 (amended): for every call the forward validation accepts, the dimensions passed to
the batched multiply match the buffers. Channel-first (filter on the left):
`batch * rows * inner` is the filter's element count, `batch * inner * cols` is the
`N * G * kernel_size * output_image_size` elements the unfold loop wrote, and
`batch * rows * cols` is the output's `N * M * output_image_size` elements. Channel-last
(column buffer on the left, filter on the right): `batch * rows * inner` is the
`N * kernel_size * output_image_size` elements the unfold loop wrote, `batch * inner * cols`
is the filter's element count, and `batch * rows * cols` is the output's element count. -/
theorem C8_gemm_dims_match_buffers (order : StorageOrder) (op : ConvPoolOpBase)
    (X filter : Tensor) (bias : Option Tensor) (Y : Tensor) (bm : Buf) (s : ForwardSetup)
    (h : LocallyConnectedOp.setup order op X filter bias Y bm = .ok s) :
    (order = .NCHW →
      (LocallyConnectedOp.gemmDims .NCHW op s.shape).batch_size *
          (LocallyConnectedOp.gemmDims .NCHW op s.shape).M *
          (LocallyConnectedOp.gemmDims .NCHW op s.shape).K = filter.size ∧
      (LocallyConnectedOp.gemmDims .NCHW op s.shape).batch_size *
          (LocallyConnectedOp.gemmDims .NCHW op s.shape).K *
          (LocallyConnectedOp.gemmDims .NCHW op s.shape).N
        = writtenCount (LocallyConnectedOp.unfoldCalls op s.shape) ∧
      writtenCount (LocallyConnectedOp.unfoldCalls op s.shape)
        = s.shape.N * op.group_ * s.shape.kernel_size * s.shape.output_image_size) ∧
    (order = .NHWC →
      (LocallyConnectedOp.gemmDims .NHWC op s.shape).batch_size *
          (LocallyConnectedOp.gemmDims .NHWC op s.shape).M *
          (LocallyConnectedOp.gemmDims .NHWC op s.shape).K
        = writtenCount (unfoldCallsNHWC s.shape) ∧
      writtenCount (unfoldCallsNHWC s.shape)
        = s.shape.N * s.shape.kernel_size * s.shape.output_image_size ∧
      (LocallyConnectedOp.gemmDims .NHWC op s.shape).batch_size *
          (LocallyConnectedOp.gemmDims .NHWC op s.shape).K *
          (LocallyConnectedOp.gemmDims .NHWC op s.shape).N = filter.size) ∧
    (LocallyConnectedOp.gemmDims order op s.shape).batch_size *
        (LocallyConnectedOp.gemmDims order op s.shape).M *
        (LocallyConnectedOp.gemmDims order op s.shape).N = s.Y.size ∧
    s.Y.size = s.shape.N * s.shape.M * s.shape.output_image_size := by
  cases order with
  | NCHW =>
    obtain ⟨N, C, M, fc, dims, hX, hF, hC, hM, hk, hfit, hshape, hY, -⟩ :=
      setupNCHW_ok _ _ _ _ _ _ _ h
    have hMG : op.group_ * (M / op.group_) = M := Nat.mul_div_cancel' (Nat.dvd_of_mod_eq_zero hM)
    have hK : M * (C / op.group_ * op.kernel_.prod) = M * (fc * op.kernel_.prod) := by
      rcases Nat.eq_zero_or_pos op.group_ with h0 | hpos
      · have : M = 0 := by rw [h0] at hM; simpa using hM
        simp [this]
      · rw [hC, Nat.mul_div_cancel _ hpos]
    refine ⟨fun _ => ⟨?_, ?_, writtenCount_unfoldCalls _ _⟩, (fun hne => by cases hne), ?_, ?_⟩
    · simp only [LocallyConnectedOp.gemmDims, hshape, planShape, Tensor.size, hF, List.prod_append,
        List.prod_cons, outProd]
      calc (op.axes dims |>.map Axis.out).prod * op.group_ * (M / op.group_) *
            (C / op.group_ * op.kernel_.prod)
          = (op.axes dims |>.map Axis.out).prod * (op.group_ * (M / op.group_)) *
            (C / op.group_ * op.kernel_.prod) := by ring
        _ = (op.axes dims |>.map Axis.out).prod * (M * (C / op.group_ * op.kernel_.prod)) := by
            rw [hMG]; ring
        _ = (op.axes dims |>.map Axis.out).prod * (M * (fc * op.kernel_.prod)) := by rw [hK]
    · rw [writtenCount_unfoldCalls]
      simp only [LocallyConnectedOp.gemmDims]
      ring
    · simp only [LocallyConnectedOp.gemmDims, hshape, planShape, hY, Tensor.size, Tensor.Resize,
        List.prod_cons, outProd]
      calc (op.axes dims |>.map Axis.out).prod * op.group_ * (M / op.group_) * N
          = N * ((op.group_ * (M / op.group_)) * (op.axes dims |>.map Axis.out).prod) := by ring
        _ = N * (M * (op.axes dims |>.map Axis.out).prod) := by rw [hMG]
    · simp only [hshape, planShape, hY, Tensor.size, Tensor.Resize, List.prod_cons, outProd]
      ring
  | NHWC =>
    obtain ⟨N, H, W, C, M, hX, hk, hF, hfit, hshape, hY, -⟩ := setupNHWC_ok _ _ _ _ _ _ _ h
    refine ⟨(fun hne => by cases hne), fun _ => ⟨?_, writtenCount_unfoldCallsNHWC _, ?_⟩, ?_, ?_⟩
    · rw [writtenCount_unfoldCallsNHWC]
      simp only [LocallyConnectedOp.gemmDims]
      ring
    · simp only [LocallyConnectedOp.gemmDims, hshape, planShape, Tensor.size, hF, List.prod_append,
        List.prod_cons, List.prod_nil, outProd]
      ring
    · simp only [LocallyConnectedOp.gemmDims, hshape, planShape, hY, Tensor.size, Tensor.Resize,
        List.prod_cons, List.prod_append, List.prod_nil, outProd]
      ring
    · simp only [hshape, planShape, hY, Tensor.size, Tensor.Resize, List.prod_cons,
        List.prod_append, List.prod_nil, outProd]
      ring

/-- C8 (amended) at a concrete channel-first input with two groups. -/
theorem C8_gemm_dims_match_buffers_witness :
    ∃ s, LocallyConnectedOp.setup .NCHW opGroup2 xGroup2 filterGroup2 none emptyTensor (bufOf [])
        = .ok s ∧
      (LocallyConnectedOp.gemmDims .NCHW opGroup2 s.shape).batch_size *
          (LocallyConnectedOp.gemmDims .NCHW opGroup2 s.shape).M *
          (LocallyConnectedOp.gemmDims .NCHW opGroup2 s.shape).K = filterGroup2.size :=
  ⟨_, rfl, ((C8_gemm_dims_match_buffers .NCHW opGroup2 xGroup2 filterGroup2 none emptyTensor
    (bufOf []) _ rfl).1 rfl).1⟩

/-- With a single group the backward loop makes the same unfold calls as the forward loop. -/
theorem unfoldCalls_backward_eq_forward_of_group_one (op : ConvPoolOpBase) (shape : ShapeParams)
    (h : op.group_ = 1) :
    LocallyConnectedGradientOp.unfoldCalls op shape = LocallyConnectedOp.unfoldCalls op shape := by
  simp [LocallyConnectedGradientOp.unfoldCalls, LocallyConnectedOp.unfoldCalls,
    LocallyConnectedGradientOp.input_stride, LocallyConnectedOp.input_stride, h]

/-- C1 at the failing input (one image, two channels in two groups, 1x1 image and kernel):
forward unfolds group 1 from offset 1 of `X`, backward from offset 2, which lies past the
two elements of `X`; the column buffers differ: forward holds `X[0], X[1]`, backward holds
`X[0]` and whatever follows `X` in memory. -/
theorem C1_backward_unfolds_other_slice_with_two_groups :
    (shapeOfForward (LocallyConnectedOp.setupNCHW opGroup2 xGroup2 filterGroup2 none emptyTensor
        (bufOf []))).map (LocallyConnectedOp.unfoldCalls opGroup2)
      = some [⟨0, 1, 0, 1⟩, ⟨1, 1, 1, 1⟩] ∧
    (shapeOfBackward (LocallyConnectedGradientOp.setupNCHW opGroup2 xGroup2 filterGroup2 dYGroup2 1
        emptyGradOutputs (bufOf []))).map (LocallyConnectedGradientOp.unfoldCalls opGroup2)
      = some [⟨0, 1, 0, 1⟩, ⟨2, 1, 1, 1⟩] ∧
    xGroup2.size = 2 ∧
    (LocallyConnectedOp.RunOnDeviceWithOrderNCHW opGroup2 xGroup2 filterGroup2 none emptyTensor
        zeroScratch).toOption.map (fun out => (List.range 2).map out.scratch.column_buffer)
      = some [3, 5] ∧
    (LocallyConnectedGradientOp.RunOnDeviceWithOrderNCHW opGroup2 xGroup2 filterGroup2 dYGroup2 1
        emptyGradOutputs zeroScratch).toOption.map
        (fun out => (List.range 2).map out.scratch.column_buffer)
      = some [3, 0] := by
  decide

/-- C7 at the failing input (one image, two channels in two groups, 1x1 image and kernel):
the gradients get the shapes of the filter and of `X`, but the fold calls write the slices
starting at offsets 0 and 2 of the input gradient, which has two elements: element 1 keeps
its stale value and the value for channel 1 lands past the end. -/
theorem C7_fold_writes_miss_input_gradient_with_two_groups :
    (LocallyConnectedGradientOp.RunOnDeviceWithOrderNCHW opGroup2 xGroup2 filterGroup2 dYGroup2 2
        staleGradOutputs zeroScratch).toOption.map
        (fun out => (out.outputs.dfilter.dims, out.outputs.dX.dims,
          (List.range 3).map out.outputs.dX.data))
      = some (filterGroup2.dims, xGroup2.dims, [7, 200, 11]) ∧
    (shapeOfBackward (LocallyConnectedGradientOp.setupNCHW opGroup2 xGroup2 filterGroup2 dYGroup2 2
        staleGradOutputs (bufOf []))).map
        (fun shape => (LocallyConnectedGradientOp.unfoldCalls opGroup2 shape).map
          (fun c => (c.x_off, c.x_len)))
      = some [(0, 1), (2, 1)] ∧
    xGroup2.size = 2 := by
  decide

/-! ## Index arithmetic and the primitives -/

/-! ## Index arithmetic -/

theorem idx_div (a b n : Nat) (hb : b < n) : (a * n + b) / n = a := by
  have hn : 0 < n := by omega
  rw [Nat.add_comm, Nat.add_mul_div_right _ _ hn, Nat.div_eq_of_lt hb, Nat.zero_add]

theorem idx_mod (a b n : Nat) (hb : b < n) : (a * n + b) % n = b := by
  rw [Nat.add_comm, Nat.add_mul_mod_self_right, Nat.mod_eq_of_lt hb]

theorem idx_lt (a b m n : Nat) (ha : a < m) (hb : b < n) : a * n + b < m * n := by
  calc a * n + b < a * n + n := by omega
    _ = (a + 1) * n := by ring
    _ ≤ m * n := Nat.mul_le_mul_right n (by omega)

/-! ## Closed forms of the primitives -/

theorem sumTo_congr (n : Nat) (f g : Nat → Int) (h : ∀ i < n, f i = g i) :
    sumTo n f = sumTo n g := by
  induction n with
  | zero => rfl
  | succ n ih =>
    simp only [sumTo]
    rw [ih (fun i hi => h i (by omega)), h n (by omega)]

theorem sumTo_add (n : Nat) (f g : Nat → Int) :
    sumTo n (fun i => f i + g i) = sumTo n f + sumTo n g := by
  induction n with
  | zero => rfl
  | succ n ih => simp only [sumTo, ih]; ring

theorem sumTo_mul_left (n : Nat) (c : Int) (f : Nat → Int) :
    sumTo n (fun i => c * f i) = c * sumTo n f := by
  induction n with
  | zero => simp [sumTo]
  | succ n ih => simp only [sumTo, ih]; ring

theorem sumTo_zero (n : Nat) : sumTo n (fun _ => 0) = 0 := by
  induction n with
  | zero => rfl
  | succ n ih => simp only [sumTo, ih]; ring

/-- The batched multiply at row `r`, column `c` of batch `b`. -/
theorem GemmBatched_apply (TransA TransB : Bool) (batch M N K : Nat) (alpha beta : Int)
    (A B C : Buf) (b r c : Nat) (hb : b < batch) (hr : r < M) (hc : c < N) :
    math.GemmBatched TransA TransB batch M N K alpha A B beta C ((b * M + r) * N + c) =
      alpha * (sumTo K fun k =>
        A (b * (M * K) + (if TransA then k * M + r else r * K + k)) *
        B (b * (K * N) + (if TransB then c * K + k else k * N + c)))
      + beta * C ((b * M + r) * N + c) := by
  have hlt : (b * M + r) * N + c < batch * (M * N) := by
    have := idx_lt (b * M + r) c (batch * M) N (idx_lt b r batch M hb hr) hc
    calc (b * M + r) * N + c < batch * M * N := this
      _ = batch * (M * N) := by ring
  have e1 : (b * M + r) * N + c = b * (M * N) + (r * N + c) := by ring
  have hrc : r * N + c < M * N := idx_lt r c M N hr hc
  have hdiv : ((b * M + r) * N + c) / (M * N) = b := by rw [e1]; exact idx_div b _ _ hrc
  have hmod : ((b * M + r) * N + c) % (M * N) = r * N + c := by rw [e1]; exact idx_mod b _ _ hrc
  have hmodN : ((b * M + r) * N + c) % N = c := idx_mod _ _ _ hc
  unfold math.GemmBatched
  simp only [hlt, if_true, hdiv, hmod, hmodN, idx_div r c N hc]

/-- The multiply leaves everything past its result untouched. -/
theorem GemmBatched_outside (TransA TransB : Bool) (batch M N K : Nat) (alpha beta : Int)
    (A B C : Buf) (i : Nat) (h : batch * (M * N) ≤ i) :
    math.GemmBatched TransA TransB batch M N K alpha A B beta C i = C i := by
  unfold math.GemmBatched
  simp [Nat.not_lt.mpr h]

/-- Transposing `[a, b, c]` to `[c, b, a]` with axes `[2, 1, 0]`. -/
theorem Transpose_210 (a b c : Nat) (X Y : Buf) (i j k : Nat) (hi : i < c) (hj : j < b)
    (hk : k < a) :
    math.Transpose [a, b, c].prod 3 [a, b, c] [c, b, a] [2, 1, 0] X Y ((i * b + j) * a + k) =
      X ((k * b + j) * c + i) := by
  have hlt : (i * b + j) * a + k < [a, b, c].prod := by
    have := idx_lt (i * b + j) k (c * b) a (idx_lt i j c b hi hj) hk
    simp only [List.prod_cons, List.prod_nil, mul_one]
    calc (i * b + j) * a + k < c * b * a := this
      _ = a * (b * c) := by ring
  unfold math.Transpose
  rw [if_pos hlt]
  congr 1
  have e1 : (i * b + j) * a + k = i * (b * a) + (j * a + k) := by ring
  have hjk : j * a + k < b * a := idx_lt j k b a hj hk
  simp only [List.range_succ, List.range_zero, List.nil_append, List.cons_append, List.map_cons,
    List.map_nil, List.sum_cons, List.sum_nil, strideOf, List.getD_cons_zero, List.getD_cons_succ,
    List.drop_succ_cons, List.drop_zero, List.drop_nil, List.prod_cons, List.prod_nil, mul_one,
    add_zero, Nat.div_one, zero_add]
  rw [idx_mod _ _ _ hk, idx_div _ _ _ hk, idx_mod _ _ _ hj]
  rw [e1, idx_div _ _ _ hjk, Nat.mod_eq_of_lt hi]
  ring

/-- Transposing `[a, b, c, d]` to `[d, b, c, a]` with axes `[3, 1, 2, 0]`. -/
theorem Transpose_3120 (a b c d : Nat) (X Y : Buf) (i j k l : Nat) (hi : i < d) (hj : j < b)
    (hk : k < c) (hl : l < a) :
    math.Transpose [a, b, c, d].prod 4 [a, b, c, d] [d, b, c, a] [3, 1, 2, 0] X Y
        (((i * b + j) * c + k) * a + l) =
      X (((l * b + j) * c + k) * d + i) := by
  have hlt : ((i * b + j) * c + k) * a + l < [a, b, c, d].prod := by
    have := idx_lt ((i * b + j) * c + k) l (d * b * c) a
      (idx_lt (i * b + j) k (d * b) c (idx_lt i j d b hi hj) hk) hl
    simp only [List.prod_cons, List.prod_nil, mul_one]
    calc ((i * b + j) * c + k) * a + l < d * b * c * a := this
      _ = a * (b * (c * d)) := by ring
  unfold math.Transpose
  rw [if_pos hlt]
  congr 1
  have e1 : ((i * b + j) * c + k) * a + l = (i * b + j) * (c * a) + (k * a + l) := by ring
  have e2 : ((i * b + j) * c + k) * a + l = i * (b * (c * a)) + ((j * c + k) * a + l) := by ring
  have hkl : k * a + l < c * a := idx_lt k l c a hk hl
  have hjkl : (j * c + k) * a + l < b * (c * a) := by
    have := idx_lt (j * c + k) l (b * c) a (idx_lt j k b c hj hk) hl
    calc (j * c + k) * a + l < b * c * a := this
      _ = b * (c * a) := by ring
  simp only [List.range_succ, List.range_zero, List.nil_append, List.cons_append, List.map_cons,
    List.map_nil, List.sum_cons, List.sum_nil, strideOf, List.getD_cons_zero, List.getD_cons_succ,
    List.drop_succ_cons, List.drop_zero, List.drop_nil, List.prod_cons, List.prod_nil, mul_one,
    add_zero, Nat.div_one, zero_add]
  rw [idx_mod _ _ _ hl, idx_div _ _ _ hl, idx_mod _ _ _ hk]
  rw [e1, idx_div _ _ _ hkl, idx_mod _ _ _ hj]
  rw [← e1, e2, idx_div _ _ _ hjkl, Nat.mod_eq_of_lt hi]
  ring

/-! ## The loops as sequences of block writes -/

/-- Both pointers of the channel-first loop advance linearly, so the nested loop is one
loop over `t = image_id * group + group_id`. -/
theorem groupLoop_eq_forImages {σ : Type} (is cs xb cb : Nat) (call : Nat → Nat → σ → σ)
    (g : Nat) (s : σ) :
    groupLoop is cs xb cb call g s =
      forImages (fun t s => call (xb + t * is) (cb + t * cs) s) g s := by
  induction g with
  | zero => rfl
  | succ g ih => simp only [groupLoop, forImages, ih]

theorem forImages_add {σ : Type} (call : Nat → σ → σ) (a b : Nat) (s : σ) :
    forImages call (a + b) s = forImages (fun t s => call (a + t) s) b (forImages call a s) := by
  induction b with
  | zero => rfl
  | succ b ih =>
    have : a + (b + 1) = (a + b) + 1 := by ring
    rw [this]
    simp only [forImages, ih]

theorem imageLoop_eq_forImages {σ : Type} (G is cs : Nat) (call : Nat → Nat → σ → σ)
    (n : Nat) (s : σ) :
    imageLoop G is cs call n s = forImages (fun t s => call (t * is) (t * cs) s) (n * G) s := by
  induction n with
  | zero => simp [imageLoop, forImages]
  | succ n ih =>
    have : (n + 1) * G = n * G + G := by ring
    rw [this, forImages_add, ← ih]
    simp only [imageLoop, groupLoop_eq_forImages]
    congr 1
    funext t s
    congr 1 <;> ring

/-- A loop of block writes: when the primitive of step `t` changes exactly the first `cs`
elements behind its pointer, to values `V t` that do not depend on what was there before,
then after `T` steps block `t` holds `V t` and everything past the blocks is untouched. -/
theorem forImages_writeAt (cs : Nat) (W : Nat → Buf → Buf) (V : Nat → Nat → Int)
    (hext : ∀ t col i, cs ≤ i → W t col i = col i)
    (hval : ∀ t col i, i < cs → W t col i = V t i)
    (T : Nat) (col : Buf) :
    (∀ t j, t < T → j < cs →
      forImages (fun t col => col.writeAt (t * cs) (W t)) T col (t * cs + j) = V t j) ∧
    (∀ i, T * cs ≤ i → forImages (fun t col => col.writeAt (t * cs) (W t)) T col i = col i) := by
  induction T with
  | zero =>
    exact ⟨fun t j ht _ => absurd ht (Nat.not_lt_zero t), fun i _ => rfl⟩
  | succ T ih =>
    obtain ⟨ih1, ih2⟩ := ih
    constructor
    · intro t j ht hj
      simp only [forImages, Buf.writeAt]
      by_cases htT : t = T
      · subst htT
        rw [if_pos (by omega)]
        have : t * cs + j - t * cs = j := by omega
        rw [this]
        exact hval _ _ _ hj
      · have hlt : t < T := by omega
        have hidx : t * cs + j < T * cs := idx_lt t j T cs hlt hj
        rw [if_neg (by omega)]
        exact ih1 t j hlt hj
    · intro i hi
      have hTi : T * cs ≤ i := by
        have : T * cs ≤ (T + 1) * cs := Nat.mul_le_mul_right cs (by omega)
        omega
      simp only [forImages, Buf.writeAt]
      rw [if_pos hTi]
      rw [hext _ _ _ (by
        have : (T + 1) * cs = T * cs + cs := by ring
        omega)]
      simp only [Buf.offset]
      have : T * cs + (i - T * cs) = i := by omega
      rw [this]
      exact ih2 i hTi

/-! ## The unfold call of the channel-first loops -/

theorem unfoldNCHW_channels_irrelevant (axes : List Axis) (c1 c2 : Nat)
    (h : kernelProd axes = 0) (data_im data_col : Buf) :
    unfoldNCHW axes c1 data_im data_col = unfoldNCHW axes c2 data_im data_col := by
  funext i
  simp [unfoldNCHW, h]

theorem outProd_pos (axes : List Axis) : 0 < outProd axes := by
  unfold outProd
  induction axes with
  | nil => simp
  | cons a rest ih =>
    simp only [List.map_cons, List.prod_cons]
    exact Nat.mul_pos (by unfold Axis.out; exact Nat.succ_pos _) ih

theorem list_pair_of_length_two (l : List Nat) (h : l.length = 2) :
    l = [l.getD 0 0, l.getD 1 0] := by
  match l, h with
  | [a, b], _ => rfl

theorem range_map_getD (l : List Nat) (d : Nat) :
    (List.range l.length).map (fun i => l.getD i d) = l := by
  apply List.ext_getElem
  · simp
  · intro i h1 h2
    rw [List.getElem_map, List.getElem_range, List.getD_eq_getElem _ _ h2]

theorem kernelProd_axes (op : ConvPoolOpBase) (dims : List Nat)
    (hk : op.kernel_.length = dims.length) : kernelProd (op.axes dims) = op.kernel_.prod := by
  unfold kernelProd ConvPoolOpBase.axes mkAxes
  rw [List.map_map]
  have : (Axis.kernel ∘ fun i =>
      ({ size := dims.getD i 0, kernel := op.kernel_.getD i 0, stride := op.stride_.getD i 1,
         dilation := op.dilation_.getD i 1, pad_head := op.pads_.getD i 0,
         pad_tail := op.pads_.getD (dims.length + i) 0 } : Axis)) =
      fun i => op.kernel_.getD i 0 := rfl
  rw [this, ← hk, range_map_getD]

theorem sizeProd_axes (op : ConvPoolOpBase) (dims : List Nat) :
    sizeProd (op.axes dims) = dims.prod := by
  unfold sizeProd ConvPoolOpBase.axes mkAxes
  rw [List.map_map]
  have : (Axis.size ∘ fun i =>
      ({ size := dims.getD i 0, kernel := op.kernel_.getD i 0, stride := op.stride_.getD i 1,
         dilation := op.dilation_.getD i 1, pad_head := op.pads_.getD i 0,
         pad_tail := op.pads_.getD (dims.length + i) 0 } : Axis)) =
      fun i => dims.getD i 0 := rfl
  rw [this, range_map_getD]

theorem axes_of_length_two (op : ConvPoolOpBase) (dims : List Nat) (h : dims.length = 2) :
    op.axes dims = axes2d (dims.getD 0 0) (dims.getD 1 0) op.kernel_h op.kernel_w op.dilation_h
      op.dilation_w op.pad_t op.pad_l op.pad_b op.pad_r op.stride_h op.stride_w := by
  match dims, h with
  | [H, W], _ => exact axes_pair op H W

theorem axesNd_eq (op : ConvPoolOpBase) (C : Nat) (dims : List Nat)
    (hk : op.kernel_.length = dims.length) :
    axesNd (C :: dims) op.kernel_ op.stride_ op.dilation_ op.pads_ op.kernel_.length =
      op.axes dims := by
  unfold axesNd ConvPoolOpBase.axes
  rw [List.drop_succ_cons, List.drop_zero, hk, List.take_length]

/-- Both arms of the unfold call compute the channel-first unfold of a `C / group_`
channel slice over the operator's axes. -/
theorem unfoldCallNCHW_eq (op : ConvPoolOpBase) (shape : ShapeParams)
    (hk : op.kernel_.length = shape.input_image_dims.length)
    (hK : shape.kernel_size = shape.C / op.group_ * op.kernel_.prod)
    (hO : shape.output_image_size = outProd (op.axes shape.input_image_dims))
    (X_ptr col_ptr : Buf) :
    unfoldCallNCHW op shape (column_stride shape) X_ptr col_ptr =
      unfoldNCHW (op.axes shape.input_image_dims) (shape.C / op.group_) X_ptr col_ptr := by
  unfold unfoldCallNCHW
  split_ifs with h2
  · unfold math.Im2col
    simp only []
    rw [← axes_of_length_two op shape.input_image_dims (by omega)]
  · unfold math.Im2colNd
    simp only []
    rw [axesNd_eq op shape.C shape.input_image_dims hk]
    rcases Nat.eq_zero_or_pos (kernelProd (op.axes shape.input_image_dims)) with h0 | hpos
    · exact unfoldNCHW_channels_irrelevant _ _ _ h0 _ _
    · have hO' := outProd_pos (op.axes shape.input_image_dims)
      have : column_stride shape /
          (kernelProd (op.axes shape.input_image_dims) * outProd (op.axes shape.input_image_dims))
          = shape.C / op.group_ := by
        unfold column_stride
        rw [hK, hO, kernelProd_axes op _ hk, Nat.mul_assoc]
        rw [kernelProd_axes op _ hk] at hpos
        exact Nat.mul_div_cancel _ (Nat.mul_pos hpos hO')
      rw [this]

/-- The fold call likewise. -/
theorem foldCallNCHW_eq (op : ConvPoolOpBase) (shape : ShapeParams)
    (hk : op.kernel_.length = shape.input_image_dims.length)
    (hK : shape.kernel_size = shape.C / op.group_ * op.kernel_.prod)
    (hO : shape.output_image_size = outProd (op.axes shape.input_image_dims))
    (hkp : 0 < op.kernel_.prod)
    (col_ptr dX_ptr : Buf) :
    foldCallNCHW op shape (column_stride shape) col_ptr dX_ptr =
      foldNCHW (op.axes shape.input_image_dims) (shape.C / op.group_) col_ptr dX_ptr := by
  unfold foldCallNCHW
  split_ifs with h2
  · unfold math.Col2im
    simp only []
    rw [← axes_of_length_two op shape.input_image_dims (by omega)]
  · unfold math.Col2imNd
    simp only []
    rw [axesNd_eq op shape.C shape.input_image_dims hk]
    have hO' := outProd_pos (op.axes shape.input_image_dims)
    have : column_stride shape /
        (kernelProd (op.axes shape.input_image_dims) * outProd (op.axes shape.input_image_dims))
        = shape.C / op.group_ := by
      unfold column_stride
      rw [hK, hO, kernelProd_axes op _ hk, Nat.mul_assoc]
      exact Nat.mul_div_cancel _ (Nat.mul_pos hkp hO')
    rw [this]

/-! ## Closed form of the channel-first forward pipeline -/

/-- The column buffer after a channel-first unfold loop with input stride `is`: block
`(n, g)` holds the unfold of the slice at `X + (n * G + g) * is`. -/
theorem columnBuffer_NCHW (op : ConvPoolOpBase) (shape : ShapeParams)
    (hk : op.kernel_.length = shape.input_image_dims.length)
    (hK : shape.kernel_size = shape.C / op.group_ * op.kernel_.prod)
    (hO : shape.output_image_size = outProd (op.axes shape.input_image_dims))
    (is : Nat) (X col0 : Buf) (n g j : Nat) (hn : n < shape.N) (hg : g < op.group_)
    (hj : j < column_stride shape) :
    imageLoop op.group_ is (column_stride shape)
        (fun x_off col_off col =>
          col.writeAt col_off (unfoldCallNCHW op shape (column_stride shape) (X.offset x_off)))
        shape.N col0 ((n * op.group_ + g) * column_stride shape + j) =
      unfoldAtNCHW (op.axes shape.input_image_dims) (X.offset ((n * op.group_ + g) * is)) j := by
  rw [imageLoop_eq_forImages]
  have hcs : column_stride shape = shape.C / op.group_ *
      kernelProd (op.axes shape.input_image_dims) * outProd (op.axes shape.input_image_dims) := by
    unfold column_stride
    rw [hK, hO, kernelProd_axes op _ hk]
  have key := (forImages_writeAt (column_stride shape)
    (fun t => unfoldCallNCHW op shape (column_stride shape) (X.offset (t * is)))
    (fun t i => unfoldAtNCHW (op.axes shape.input_image_dims) (X.offset (t * is)) i)
    (by
      intro t col i hi
      beta_reduce
      rw [unfoldCallNCHW_eq op shape hk hK hO]
      unfold unfoldNCHW
      rw [if_neg (by rw [← hcs]; omega)])
    (by
      intro t col i hi
      beta_reduce
      rw [unfoldCallNCHW_eq op shape hk hK hO]
      unfold unfoldNCHW
      rw [if_pos (by rw [← hcs]; omega)])
    (shape.N * op.group_) col0).1
  exact key (n * op.group_ + g) j (idx_lt n g shape.N op.group_ hn hg) hj

/-- The channel-first multiply of the filter with the transposed column buffer. -/
theorem forwardNCHW_gemm (G Mg N K O : Nat) (F colT Yt0 : Buf) (p g m n : Nat) (hp : p < O)
    (hg : g < G) (hm : m < Mg) (hn : n < N) :
    math.GemmBatched false false (O * G) Mg N K 1 F colT 0 Yt0
        (((p * G + g) * Mg + m) * N + n) =
      sumTo K fun k => F (((p * G + g) * Mg + m) * K + k) * colT (((p * G + g) * K + k) * N + n) := by
  rw [GemmBatched_apply _ _ _ _ _ _ _ _ _ _ _ _ _ _ (idx_lt p g O G hp hg) hm hn]
  simp only [Bool.false_eq_true, if_false, one_mul, zero_mul, add_zero]
  apply sumTo_congr
  intro k _
  congr 2 <;> ring

/-- The channel-first forward output, element by element: output channel `g * (M/G) + m`
of image `n` at location `p` is the product of the filter row of `(p, g, m)` with column
`p` of the unfold of channel group `g` of image `n`, plus the bias term. -/
theorem forwardNCHW_formula (op : ConvPoolOpBase) (N C M size O K : Nat) (dims : List Nat)
    (hk : op.kernel_.length = dims.length)
    (hK : K = C / op.group_ * op.kernel_.prod)
    (hO : O = outProd (op.axes dims))
    (hM : M % op.group_ = 0)
    (X F : Buf) (bias : Option Buf) (Yd : Buf) (scratch : Scratch)
    (n g m p : Nat) (hn : n < N) (hg : g < op.group_) (hm : m < M / op.group_) (hp : p < O) :
    (LocallyConnectedOp.RunOnDeviceWithOrderNCHWImpl op
        (planShape .NCHW op.group_ N C M size O K dims) X F bias Yd scratch).Y_data
        ((n * M + (g * (M / op.group_) + m)) * O + p) =
      (sumTo K fun k =>
        F (((p * op.group_ + g) * (M / op.group_) + m) * K + k) *
        unfoldAtNCHW (op.axes dims) (X.offset ((n * op.group_ + g) * (C / op.group_ * size)))
          (k * O + p))
      + (match bias with
         | some b => b (p * M + (g * (M / op.group_) + m)) * scratch.bias_multiplier n
         | none => 0) := by
  have hMG : op.group_ * (M / op.group_) = M := Nat.mul_div_cancel' (Nat.dvd_of_mod_eq_zero hM)
  have hmM : g * (M / op.group_) + m < M := by
    have := idx_lt g m op.group_ (M / op.group_) hg hm
    rwa [hMG] at this
  have hidx : (p * M + (g * (M / op.group_) + m)) * N + n =
      ((p * op.group_ + g) * (M / op.group_) + m) * N + n := by
    have : p * M = p * (op.group_ * (M / op.group_)) := by rw [hMG]
    rw [this]; ring
  have hcol : ∀ k, k < K →
      math.Transpose [N, op.group_, K, O].prod 4 [N, op.group_, K, O] [O, op.group_, K, N]
        [3, 1, 2, 0]
        (imageLoop op.group_
          (LocallyConnectedOp.input_stride op (planShape .NCHW op.group_ N C M size O K dims))
          (column_stride (planShape .NCHW op.group_ N C M size O K dims))
          (fun x_off col_off col =>
            col.writeAt col_off
              (unfoldCallNCHW op (planShape .NCHW op.group_ N C M size O K dims)
                (column_stride (planShape .NCHW op.group_ N C M size O K dims))
                (X.offset x_off)))
          N scratch.column_buffer)
        scratch.column_transposed_buffer (((p * op.group_ + g) * K + k) * N + n) =
      unfoldAtNCHW (op.axes dims) (X.offset ((n * op.group_ + g) * (C / op.group_ * size)))
        (k * O + p) := by
    intro k hkK
    rw [Transpose_3120 N op.group_ K O _ _ p g k n hp hg hkK hn]
    have e : ((n * op.group_ + g) * K + k) * O + p =
        (n * op.group_ + g) * column_stride (planShape .NCHW op.group_ N C M size O K dims)
          + (k * O + p) := by
      simp only [column_stride, planShape]; ring
    rw [e]
    exact columnBuffer_NCHW op (planShape .NCHW op.group_ N C M size O K dims) hk hK hO _ X _ n g
      (k * O + p) hn hg (by simp only [column_stride, planShape]; exact idx_lt k p K O hkK hp)
  simp only [LocallyConnectedOp.RunOnDeviceWithOrderNCHWImpl]
  have hdims : (planShape .NCHW op.group_ N C M size O K dims).Y_transposed_dims = [O, M, N] := rfl
  have hY : (planShape .NCHW op.group_ N C M size O K dims).Y_dims = [N, M, O] := rfl
  have hax : (planShape .NCHW op.group_ N C M size O K dims).Y_axes = [2, 1, 0] := rfl
  have hcd : (planShape .NCHW op.group_ N C M size O K dims).column_dims
      = [N, op.group_, K, O] := rfl
  have hctd : (planShape .NCHW op.group_ N C M size O K dims).column_transposed_dims
      = [O, op.group_, K, N] := rfl
  have hca : (planShape .NCHW op.group_ N C M size O K dims).column_axes = [3, 1, 2, 0] := rfl
  have hN : (planShape .NCHW op.group_ N C M size O K dims).N = N := rfl
  have hMM : (planShape .NCHW op.group_ N C M size O K dims).M = M := rfl
  have hKK : (planShape .NCHW op.group_ N C M size O K dims).kernel_size = K := rfl
  have hOO : (planShape .NCHW op.group_ N C M size O K dims).output_image_size = O := rfl
  have l3 : ([O, M, N] : List Nat).length = 3 := rfl
  have l4 : ([N, op.group_, K, O] : List Nat).length = 4 := rfl
  rw [hdims, hY, hax, hcd, hctd, hca, hN, hMM, hKK, hOO, l3, l4]
  rw [Transpose_210 O M N _ _ n (g * (M / op.group_) + m) p hn hmM hp]
  cases bias with
  | none =>
    simp only [add_zero]
    rw [hidx, forwardNCHW_gemm _ _ _ _ _ _ _ _ p g m n hp hg hm hn]
    exact sumTo_congr _ _ _ (fun k hkK => by rw [hcol k hkK])
  | some b =>
    simp only [math.Gemm]
    have := GemmBatched_apply false false 1 (O * M) N 1 1 1 b scratch.bias_multiplier
      (math.GemmBatched false false (O * op.group_) (M / op.group_) N K 1 F
        (math.Transpose [N, op.group_, K, O].prod 4 [N, op.group_, K, O] [O, op.group_, K, N]
          [3, 1, 2, 0]
          (imageLoop op.group_
            (LocallyConnectedOp.input_stride op (planShape .NCHW op.group_ N C M size O K dims))
            (column_stride (planShape .NCHW op.group_ N C M size O K dims))
            (fun x_off col_off col =>
              col.writeAt col_off
                (unfoldCallNCHW op (planShape .NCHW op.group_ N C M size O K dims)
                  (column_stride (planShape .NCHW op.group_ N C M size O K dims))
                  (X.offset x_off)))
            N scratch.column_buffer)
          scratch.column_transposed_buffer) 0 scratch.Y_transposed_buffer)
      0 (p * M + (g * (M / op.group_) + m)) n (by omega) (idx_lt p _ O M hp hmM) hn
    simp only [zero_mul, zero_add, Bool.false_eq_true, if_false, sumTo, mul_one, one_mul,
      add_zero] at this
    rw [this, hidx, forwardNCHW_gemm _ _ _ _ _ _ _ _ p g m n hp hg hm hn]
    rw [add_comm]
    congr 1
    exact sumTo_congr _ _ _ (fun k hkK => by rw [hcol k hkK])

/-! ## Forward claims -/

/-- An accepted channel-first forward call, in terms of its Impl. -/
theorem forwardNCHW_run {op : ConvPoolOpBase} {X filter : Tensor} {bias : Option Tensor}
    {Y : Tensor} {scratch : Scratch} {out : ForwardOutput}
    (h : LocallyConnectedOp.RunOnDeviceWithOrderNCHW op X filter bias Y scratch = .ok out) :
    ∃ N C M fc dims, X.dims = N :: C :: dims ∧
      filter.dims = (op.axes dims).map Axis.out ++ M :: fc :: op.kernel_ ∧
      C = fc * op.group_ ∧ M % op.group_ = 0 ∧ op.kernel_.length = dims.length ∧
      (∀ a ∈ op.axes dims, a.dkernel ≤ a.size + a.pad_head + a.pad_tail) ∧
      out.Y.dims = N :: M :: (op.axes dims).map Axis.out ∧
      out.Y.data = (LocallyConnectedOp.RunOnDeviceWithOrderNCHWImpl op
        (planShape .NCHW op.group_ N C M dims.prod (outProd (op.axes dims))
          (C / op.group_ * op.kernel_.prod) dims)
        X.data filter.data (bias.map Tensor.data) Y.data
        { scratch with bias_multiplier :=
            if bias.isSome then SetBiasMultiplier N else scratch.bias_multiplier }).Y_data := by
  obtain ⟨s, hs, hd, hdata⟩ := forwardNCHW_ok_setup h
  obtain ⟨N, C, M, fc, dims, hX, hF, hC, hM, hk, hfit, hshape, hY, hb, hbm⟩ :=
    setupNCHW_ok _ _ _ _ _ _ _ hs
  refine ⟨N, C, M, fc, dims, hX, hF, hC, hM, hk, hfit, ?_, ?_⟩
  · rw [hd, hY]; rfl
  · rw [hdata, hshape, hb, hbm, hY]; rfl

/-- An accepted channel-last forward call, in terms of its Impl. -/
theorem forwardNHWC_run {op : ConvPoolOpBase} {X filter : Tensor} {bias : Option Tensor}
    {Y : Tensor} {scratch : Scratch} {out : ForwardOutput}
    (h : LocallyConnectedOp.RunOnDeviceWithOrderNHWC op X filter bias Y scratch = .ok out) :
    ∃ N H W C M, X.dims = [N, H, W, C] ∧ op.kernel_.length = 2 ∧
      filter.dims = (op.axes [H, W]).map Axis.out ++ [M, op.kernel_h, op.kernel_w, C] ∧
      out.Y.dims = N :: ((op.axes [H, W]).map Axis.out ++ [M]) ∧
      out.Y.data = (LocallyConnectedOp.RunOnDeviceWithOrderNHWCImpl op
        (planShape .NHWC op.group_ N C M (H * W) (outProd (op.axes [H, W]))
          (op.kernel_h * op.kernel_w * C) [H, W])
        X.data filter.data (bias.map Tensor.data) Y.data
        { scratch with bias_multiplier :=
            if bias.isSome then SetBiasMultiplier N else scratch.bias_multiplier }).Y_data := by
  obtain ⟨s, hs, hd, hdata⟩ := forwardNHWC_ok_setup h
  obtain ⟨N, H, W, C, M, hX, hk, hF, hfit, hshape, hY, hb, hbm⟩ :=
    setupNHWC_ok _ _ _ _ _ _ _ hs
  refine ⟨N, H, W, C, M, hX, hk, hF, ?_, ?_⟩
  · rw [hd, hY]; rfl
  · rw [hdata, hshape, hb, hbm, hY]; rfl

/-- The channel-last Impl adds the bias, broadcast over the batch, to the output it
computes without bias. -/
theorem forwardNHWC_bias (op : ConvPoolOpBase) (shape : ShapeParams) (X F b Yd : Buf)
    (scratch : Scratch) (n c : Nat) (hn : n < shape.N)
    (hc : c < shape.output_image_size * shape.M) :
    (LocallyConnectedOp.RunOnDeviceWithOrderNHWCImpl op shape X F (some b) Yd scratch).Y_data
        (n * (shape.output_image_size * shape.M) + c) =
      (LocallyConnectedOp.RunOnDeviceWithOrderNHWCImpl op shape X F none Yd scratch).Y_data
        (n * (shape.output_image_size * shape.M) + c) + scratch.bias_multiplier n * b c := by
  simp only [LocallyConnectedOp.RunOnDeviceWithOrderNHWCImpl, math.Gemm]
  have := GemmBatched_apply false false 1 shape.N (shape.output_image_size * shape.M) 1 1 1
    scratch.bias_multiplier b
    (math.Transpose shape.Y_transposed_dims.prod shape.Y_transposed_dims.length
      shape.Y_transposed_dims shape.Y_dims shape.Y_axes
      (math.GemmBatched false true shape.output_image_size shape.N shape.M shape.kernel_size 1
        (math.Transpose shape.column_dims.prod shape.column_dims.length shape.column_dims
          shape.column_transposed_dims shape.column_axes
          (forImages
            (fun image_id col =>
              col.writeAt (image_id * column_stride shape) fun col_ptr =>
                math.Im2col StorageOrder.NHWC
                  (X.offset (image_id * (shape.C * shape.input_image_size))) shape.C
                  (shape.input_image_dims.getD 0 0) (shape.input_image_dims.getD 1 0)
                  op.kernel_h op.kernel_w op.dilation_h op.dilation_w op.pad_t op.pad_l
                  op.pad_b op.pad_r op.stride_h op.stride_w col_ptr)
            shape.N scratch.column_buffer)
          scratch.column_transposed_buffer)
        F 0 scratch.Y_transposed_buffer)
      Yd)
    0 n c (by omega) hn hc
  simp only [zero_mul, zero_add, Bool.false_eq_true, if_false, sumTo, mul_one, one_mul,
    add_zero] at this
  rw [this, add_comm]

theorem SetBiasMultiplier_apply (N n : Nat) (h : n < N) : SetBiasMultiplier N n = 1 := by
  simp [SetBiasMultiplier, h]

/-- C4: for every call accepted in either layout, with output shape `[N, M, out...]`
(channel-first) or `[N, out..., M]` (channel-last), the output computed with a bias equals
the output computed without bias plus the bias, broadcast over the batch:
`Y_bias[n, m, p] = Y_nobias[n, m, p] + bias[p, m]`. -/
theorem C4_forward_bias_is_additive (order : StorageOrder) (op : ConvPoolOpBase)
    (X filter bias Y : Tensor) (scratch : Scratch) (out_b out_n : ForwardOutput)
    (N M : Nat) (outs : List Nat) (n m p : Nat)
    (hb : LocallyConnectedOp.RunOnDevice order op X filter (some bias) Y scratch = .ok out_b)
    (h0 : LocallyConnectedOp.RunOnDevice order op X filter none Y scratch = .ok out_n)
    (hY : out_n.Y.dims = yDims order N M outs)
    (hn : n < N) (hm : m < M) (hp : p < outs.prod) :
    out_b.Y.data (yIndex order M outs.prod n m p) =
      out_n.Y.data (yIndex order M outs.prod n m p) + bias.data (p * M + m) := by
  cases order with
  | NCHW =>
    obtain ⟨N1, C1, M1, fc1, dims1, hX1, hF1, hC1, hM1, hk1, -, hYd1, hD1⟩ := forwardNCHW_run hb
    obtain ⟨N2, C2, M2, fc2, dims2, hX2, hF2, hC2, hM2, hk2, -, hYd2, hD2⟩ := forwardNCHW_run h0
    rw [hX1] at hX2
    simp only [List.cons.injEq] at hX2
    obtain ⟨rfl, rfl, rfl⟩ := hX2
    rw [hYd2] at hY
    simp only [yDims, List.cons.injEq] at hY
    obtain ⟨rfl, rfl, rfl⟩ := hY
    have hMeq : M1 = M2 := by
      rw [hF1] at hF2
      have := List.append_cancel_left hF2
      simp only [List.cons.injEq] at this
      exact this.1
    subst hMeq
    have hG : 0 < op.group_ := by
      rcases Nat.eq_zero_or_pos op.group_ with h | h
      · rw [h] at hM1; simp at hM1; omega
      · exact h
    have hMG : op.group_ * (M1 / op.group_) = M1 :=
      Nat.mul_div_cancel' (Nat.dvd_of_mod_eq_zero hM1)
    have hMg : 0 < M1 / op.group_ := by
      rcases Nat.eq_zero_or_pos (M1 / op.group_) with h | h
      · rw [h] at hMG; omega
      · exact h
    have hg : m / (M1 / op.group_) < op.group_ := by
      rw [Nat.div_lt_iff_lt_mul hMg, hMG]; exact hm
    have hm' : m % (M1 / op.group_) < M1 / op.group_ := Nat.mod_lt _ hMg
    have hdec : m / (M1 / op.group_) * (M1 / op.group_) + m % (M1 / op.group_) = m := by
      rw [Nat.mul_comm]; exact Nat.div_add_mod m _
    have hp' : p < outProd (op.axes dims1) := hp
    have f1 := forwardNCHW_formula op N1 C1 M1 dims1.prod (outProd (op.axes dims1))
      (C1 / op.group_ * op.kernel_.prod) dims1 hk1 rfl rfl hM1 X.data filter.data
      (some bias.data) Y.data
      { scratch with bias_multiplier := SetBiasMultiplier N1 }
      n (m / (M1 / op.group_)) (m % (M1 / op.group_)) p hn hg hm' hp'
    have f2 := forwardNCHW_formula op N1 C1 M1 dims1.prod (outProd (op.axes dims1))
      (C1 / op.group_ * op.kernel_.prod) dims1 hk1 rfl rfl hM1 X.data filter.data
      none Y.data scratch
      n (m / (M1 / op.group_)) (m % (M1 / op.group_)) p hn hg hm' hp'
    rw [hdec] at f1 f2
    simp only [yIndex, hD1, hD2, Option.map_some', Option.map_none', Option.isSome_some,
      Option.isSome_none, if_true, Bool.false_eq_true, if_false]
    have hs : ({ scratch with bias_multiplier := scratch.bias_multiplier } : Scratch) = scratch :=
      rfl
    rw [hs]
    have hO : (List.map Axis.out (op.axes dims1)).prod = outProd (op.axes dims1) := rfl
    rw [hO, f1, f2]
    simp only [SetBiasMultiplier_apply N1 n hn, mul_one, add_zero]
  | NHWC =>
    obtain ⟨N1, H1, W1, C1, M1, hX1, -, hF1, hYd1, hD1⟩ := forwardNHWC_run hb
    obtain ⟨N2, H2, W2, C2, M2, hX2, -, hF2, hYd2, hD2⟩ := forwardNHWC_run h0
    rw [hX1] at hX2
    simp only [List.cons.injEq, and_true] at hX2
    obtain ⟨rfl, rfl, rfl, rfl⟩ := hX2
    have hMeq : M1 = M2 := by
      rw [hF1] at hF2
      have := List.append_cancel_left hF2
      simp only [List.cons.injEq] at this
      exact this.1
    subst hMeq
    rw [hYd2] at hY
    simp only [yDims, List.cons.injEq] at hY
    obtain ⟨rfl, hY⟩ := hY
    have hlen : ((op.axes [H1, W1]).map Axis.out).length = outs.length := by
      have := congrArg List.length hY
      simpa using this
    obtain ⟨hY1, hY2⟩ := List.append_inj hY hlen
    simp only [List.cons.injEq, and_true] at hY2
    subst hY2
    subst hY1
    have hO : (List.map Axis.out (op.axes [H1, W1])).prod = outProd (op.axes [H1, W1]) := rfl
    have hidx : (n * outProd (op.axes [H1, W1]) + p) * M1 + m =
        n * (outProd (op.axes [H1, W1]) * M1) + (p * M1 + m) := by ring
    have hc : p * M1 + m < outProd (op.axes [H1, W1]) * M1 := idx_lt p m _ _ hp hm
    have f := forwardNHWC_bias op
      (planShape .NHWC op.group_ N1 C1 M1 (H1 * W1) (outProd (op.axes [H1, W1]))
        (op.kernel_h * op.kernel_w * C1) [H1, W1])
      X.data filter.data bias.data Y.data
      { scratch with bias_multiplier := SetBiasMultiplier N1 } n (p * M1 + m) hn hc
    simp only [yIndex, hD1, hD2, Option.map_some', Option.map_none', Option.isSome_some,
      Option.isSome_none, if_true, Bool.false_eq_true, if_false]
    rw [hO, hidx]
    have hs : ({ scratch with bias_multiplier := scratch.bias_multiplier } : Scratch) = scratch :=
      rfl
    rw [hs]
    have hpl : (planShape .NHWC op.group_ N1 C1 M1 (H1 * W1) (outProd (op.axes [H1, W1]))
        (op.kernel_h * op.kernel_w * C1) [H1, W1]).output_image_size
        = outProd (op.axes [H1, W1]) := rfl
    have hpm : (planShape .NHWC op.group_ N1 C1 M1 (H1 * W1) (outProd (op.axes [H1, W1]))
        (op.kernel_h * op.kernel_w * C1) [H1, W1]).M = M1 := rfl
    rw [hpl, hpm] at f
    rw [f]
    simp only [SetBiasMultiplier_apply N1 n hn, one_mul]
    rfl

/-- C4 at a concrete input: two channels in two groups with bias `[100, 200]`. -/
theorem C4_forward_bias_is_additive_witness :
    ∃ out_b out_n,
      LocallyConnectedOp.RunOnDevice .NCHW opGroup2 xGroup2 filterGroup2 (some biasGroup2)
        emptyTensor zeroScratch = .ok out_b ∧
      LocallyConnectedOp.RunOnDevice .NCHW opGroup2 xGroup2 filterGroup2 none
        emptyTensor zeroScratch = .ok out_n ∧
      out_b.Y.data (yIndex .NCHW 2 [1, 1].prod 0 1 0) =
        out_n.Y.data (yIndex .NCHW 2 [1, 1].prod 0 1 0) + biasGroup2.data (0 * 2 + 1) :=
  ⟨_, _, rfl, rfl, C4_forward_bias_is_additive .NCHW opGroup2 xGroup2 filterGroup2 biasGroup2
    emptyTensor zeroScratch _ _ 1 2 [1, 1] 0 1 0 rfl rfl rfl (by decide) (by decide) (by decide)⟩

/-! ## A kernel that spans the whole input -/

theorem Axis.full_out (a : Axis) (h : a.full) (hfit : a.dkernel ≤ a.size + a.pad_head + a.pad_tail) :
    a.out = 1 ∧ 0 < a.size := by
  obtain ⟨hk, hs, hd, hp, hq⟩ := h
  unfold Axis.dkernel at hfit
  rw [hk, hd, hp, hq] at hfit
  have hpos : 0 < a.size := by omega
  refine ⟨?_, hpos⟩
  unfold Axis.out Axis.dkernel
  rw [hk, hs, hd, hp, hq]
  have : a.size + 0 + 0 - (1 * (a.size - 1) + 1) = 0 := by omega
  rw [this]

theorem Axis.full_tap (a : Axis) (h : a.full) (k : Nat) (hk : k < a.kernel) :
    a.tap k 0 = some k := by
  obtain ⟨hks, hs, hd, hp, hq⟩ := h
  unfold Axis.tap
  rw [hd, hp]
  simp only [Nat.zero_mul, Nat.zero_add, Nat.mul_one, Nat.sub_zero, Nat.zero_le, true_and]
  rw [if_pos (by omega)]

theorem kernelProd_full (axes : List Axis) (h : ∀ a ∈ axes, a.full) :
    kernelProd axes = sizeProd axes := by
  induction axes with
  | nil => rfl
  | cons a rest ih =>
    simp only [kernelProd, sizeProd, List.map_cons, List.prod_cons] at *
    rw [(h a (List.mem_cons_self _ _)).1, ih (fun b hb => h b (List.mem_cons_of_mem _ hb))]

theorem outProd_full (axes : List Axis) (h : ∀ a ∈ axes, a.full)
    (hfit : ∀ a ∈ axes, a.dkernel ≤ a.size + a.pad_head + a.pad_tail) : outProd axes = 1 := by
  induction axes with
  | nil => rfl
  | cons a rest ih =>
    simp only [outProd, List.map_cons, List.prod_cons] at *
    rw [(Axis.full_out a (h a (List.mem_cons_self _ _)) (hfit a (List.mem_cons_self _ _))).1,
      ih (fun b hb => h b (List.mem_cons_of_mem _ hb))
        (fun b hb => hfit b (List.mem_cons_of_mem _ hb))]

/-- With a kernel that spans the whole input, kernel offset `k` at the single output
location reads input location `k`. -/
theorem spatialTap_full (axes : List Axis) (h : ∀ a ∈ axes, a.full)
    (hfit : ∀ a ∈ axes, a.dkernel ≤ a.size + a.pad_head + a.pad_tail)
    (k : Nat) (hk : k < kernelProd axes) : spatialTap axes k 0 = some k := by
  induction axes generalizing k with
  | nil => 
    simp only [kernelProd, List.map_nil, List.prod_nil] at hk
    have : k = 0 := by omega
    subst this
    rfl
  | cons a rest ih =>
    have ha := h a (List.mem_cons_self _ _)
    have hrest : ∀ b ∈ rest, b.full := fun b hb => h b (List.mem_cons_of_mem _ hb)
    have hfrest : ∀ b ∈ rest, b.dkernel ≤ b.size + b.pad_head + b.pad_tail :=
      fun b hb => hfit b (List.mem_cons_of_mem _ hb)
    have hkk : kernelProd (a :: rest) = a.kernel * kernelProd rest := by
      simp [kernelProd]
    rw [hkk] at hk
    have hkr : 0 < kernelProd rest := by
      rcases Nat.eq_zero_or_pos (kernelProd rest) with h0 | h0
      · rw [h0] at hk; simp at hk
      · exact h0
    have hq : k / kernelProd rest < a.kernel := by
      rw [Nat.div_lt_iff_lt_mul hkr]; exact hk
    have hr : k % kernelProd rest < kernelProd rest := Nat.mod_lt _ hkr
    have hout := (Axis.full_out a ha (hfit a (List.mem_cons_self _ _))).1
    simp only [spatialTap]
    rw [Nat.zero_div, Nat.zero_mod, Nat.zero_mod, Nat.mod_eq_of_lt hq,
      Axis.full_tap a ha _ hq, ih hrest hfrest _ hr]
    simp only []
    rw [← kernelProd_full rest hrest]
    congr 1
    rw [Nat.mul_comm]
    exact Nat.div_add_mod k _

/-- With a kernel that spans the whole input the unfold of an image is the image itself. -/
theorem unfoldAtNCHW_full (axes : List Axis) (h : ∀ a ∈ axes, a.full)
    (hfit : ∀ a ∈ axes, a.dkernel ≤ a.size + a.pad_head + a.pad_tail)
    (X_ptr : Buf) (k : Nat) (hkp : 0 < kernelProd axes) :
    unfoldAtNCHW axes X_ptr (k * 1 + 0) = X_ptr k := by
  unfold unfoldAtNCHW
  rw [outProd_full axes h hfit]
  simp only [Nat.mul_one, Nat.add_zero, Nat.div_one, Nat.mod_one]
  rw [spatialTap_full axes h hfit _ (Nat.mod_lt _ hkp)]
  simp only []
  rw [← kernelProd_full axes h]
  congr 1
  exact Nat.div_add_mod' k _

theorem getD_replicate_same (n i v : Nat) : (List.replicate n v).getD i v = v := by
  rw [List.getD_eq_getElem?_getD, List.getElem?_replicate]
  split <;> rfl

theorem axes_full (op : ConvPoolOpBase) (dims : List Nat) (hker : op.kernel_ = dims)
    (hst : op.stride_ = List.replicate op.kernel_.length 1)
    (hdi : op.dilation_ = List.replicate op.kernel_.length 1)
    (hpa : op.pads_ = List.replicate (2 * op.kernel_.length) 0) :
    ∀ a ∈ op.axes dims, a.full := by
  intro a ha
  simp only [ConvPoolOpBase.axes, mkAxes, List.mem_map, List.mem_range] at ha
  obtain ⟨i, -, rfl⟩ := ha
  refine ⟨?_, ?_, ?_, ?_, ?_⟩
  · simp only [hker]
  · simp only [hst, getD_replicate_same]
  · simp only [hdi, getD_replicate_same]
  · simp only [hpa, getD_replicate_same]
  · simp only [hpa, getD_replicate_same]

/-- C5: when the kernel dims equal the input spatial dims, with stride 1, no padding,
dilation 1 and group 1, an accepted channel-first forward call without bias has a single
output location and computes the product of the flattened input with the filter:
`Y[n, m] = sum over k of filter[m, k] * Xflat[n, k]`, where `k` runs over the
`C * H * W ...` elements of one image. -/
theorem C5_full_kernel_forward_is_matrix_product (op : ConvPoolOpBase) (X filter Y : Tensor)
    (scratch : Scratch) (out : ForwardOutput) (n m : Nat)
    (hG : op.group_ = 1) (hker : op.kernel_ = X.dims.drop 2)
    (hst : op.stride_ = List.replicate op.kernel_.length 1)
    (hdi : op.dilation_ = List.replicate op.kernel_.length 1)
    (hpa : op.pads_ = List.replicate (2 * op.kernel_.length) 0)
    (h : LocallyConnectedOp.RunOnDeviceWithOrderNCHW op X filter none Y scratch = .ok out)
    (hn : n < X.dims.getD 0 0) (hm : m < out.Y.dims.getD 1 0) :
    (out.Y.dims.drop 2).prod = 1 ∧
    out.Y.data (n * out.Y.dims.getD 1 0 + m) =
      sumTo (X.dims.drop 1).prod fun k =>
        filter.data (m * (X.dims.drop 1).prod + k) * X.data (n * (X.dims.drop 1).prod + k) := by
  obtain ⟨N, C, M, fc, dims, hX, hF, hC, hM, hk, hfit, hYd, hD⟩ := forwardNCHW_run h
  rw [hX] at hker hn
  simp only [List.drop_succ_cons, List.drop_zero, List.getD_cons_zero] at hker hn
  have hfull := axes_full op dims hker hst hdi hpa
  have hO : outProd (op.axes dims) = 1 := outProd_full _ hfull hfit
  have hkp : kernelProd (op.axes dims) = dims.prod := by
    rw [kernelProd_axes op dims hk, hker]
  rw [hYd] at hm ⊢
  rw [hX]
  simp only [List.drop_succ_cons, List.drop_zero, List.getD_cons_zero, List.getD_cons_succ,
    List.prod_cons] at hm ⊢
  refine ⟨hO, ?_⟩
  have hMdiv : M / op.group_ = M := by rw [hG, Nat.div_one]
  have f := forwardNCHW_formula op N C M dims.prod (outProd (op.axes dims))
    (C / op.group_ * op.kernel_.prod) dims hk rfl rfl hM X.data filter.data none Y.data scratch
    n 0 m 0 hn (by omega) (by rw [hMdiv]; exact hm) (by omega)
  rw [hO, hMdiv, hG] at f
  simp only [Nat.zero_mul, Nat.zero_add, Nat.mul_one, Nat.add_zero, Nat.div_one,
    Option.map_none'] at f
  rw [hD]
  simp only [Option.map_none', Option.isSome_none, Bool.false_eq_true, if_false]
  have hs : ({ scratch with bias_multiplier := scratch.bias_multiplier } : Scratch) = scratch :=
    rfl
  rw [hs, hO, hG]
  simp only [Nat.div_one]
  rw [f, hker]
  simp only [add_zero]
  apply sumTo_congr
  intro k hkK
  have hpos : 0 < kernelProd (op.axes dims) := by
    rw [hkp]
    rcases Nat.eq_zero_or_pos dims.prod with h0 | h0
    · rw [h0] at hkK; simp at hkK
    · exact h0
  have := unfoldAtNCHW_full (op.axes dims) hfull hfit (X.data.offset (n * (C * dims.prod))) k hpos
  simp only [Nat.mul_one, Nat.add_zero] at this
  rw [this]
  rfl

/-- C5 at the 2x3 single-channel input with one output channel. -/
theorem C5_full_kernel_forward_is_matrix_product_witness :
    ∃ out, LocallyConnectedOp.RunOnDeviceWithOrderNCHW opFull23 xFull23 filterFull23 none
        emptyTensor zeroScratch = .ok out ∧
      out.Y.data (0 * out.Y.dims.getD 1 0 + 0) =
        sumTo (xFull23.dims.drop 1).prod fun k =>
          filterFull23.data (0 * (xFull23.dims.drop 1).prod + k) *
            xFull23.data (0 * (xFull23.dims.drop 1).prod + k) :=
  ⟨_, rfl, (C5_full_kernel_forward_is_matrix_product opFull23 xFull23 filterFull23 emptyTensor
    zeroScratch _ 0 0 rfl rfl rfl rfl rfl rfl (by decide) (by decide)).2⟩

/-- The 2x3 example evaluates to 1*10 + 2*20 + 3*30 + 4*40 + 5*50 + 6*60. -/
theorem full_kernel_2x3_value :
    (LocallyConnectedOp.RunOnDeviceWithOrderNCHW opFull23 xFull23 filterFull23 none
        emptyTensor zeroScratch).toOption.map (fun out => (out.Y.dims, out.Y.data 0))
      = some ([1, 1, 1, 1], 910) := by
  decide

/-! ## Group independence -/

/-- The values in the two-group example: the grouped output is `[7*3, 11*5]`, and the
single-group call on channel 1 and filter slice 1 gives `11*5`. -/
theorem grouped_forward_example_values :
    (LocallyConnectedOp.RunOnDeviceWithOrderNCHW opGroup2 xGroup2 filterGroup2 none emptyTensor
        zeroScratch).toOption.map (fun out => (out.Y.dims, (List.range 2).map out.Y.data))
      = some ([1, 2, 1, 1], [21, 55]) ∧
    (LocallyConnectedOp.RunOnDeviceWithOrderNCHW opGroup2.singleGroup
        (xGroup2.channelGroup opGroup2.group_ 1)
        (filterGroup2.outputGroup (xGroup2.dims.length - 2) opGroup2.group_ 1) none emptyTensor
        zeroScratch).toOption.map (fun out => (out.Y.dims, (List.range 1).map out.Y.data))
      = some ([1, 1, 1, 1], [55]) := by
  decide

/-! ## Backward with more than one group -/

/-- C2 at the failing input (one image, two channels in two groups, 1x1 image and kernel,
`X = [3, 5]`, `filter = [7, 11]`, `dY = [1, 1]`): `L` is 76; adding 1 to `X[1]` changes `L`
by 11 and adding 1 to `filter[1]` changes it by 5, but backward leaves element 1 of the
input gradient at its stale value 200 and returns 0 for element 1 of the filter gradient
(element 0 of each is right: 7 and 3). -/
theorem C2_gradient_check_fails_with_two_groups :
    lossOf .NCHW opGroup2 xGroup2 filterGroup2 none dYGroup2 = some 76 ∧
    lossOf .NCHW opGroup2 (xGroup2.perturb 1 1) filterGroup2 none dYGroup2 = some (76 + 11) ∧
    lossOf .NCHW opGroup2 xGroup2 (filterGroup2.perturb 1 1) none dYGroup2 = some (76 + 5) ∧
    lossOf .NCHW opGroup2 (xGroup2.perturb 0 1) filterGroup2 none dYGroup2 = some (76 + 7) ∧
    lossOf .NCHW opGroup2 xGroup2 (filterGroup2.perturb 0 1) none dYGroup2 = some (76 + 3) ∧
    (LocallyConnectedGradientOp.RunOnDeviceWithOrderNCHW opGroup2 xGroup2 filterGroup2 dYGroup2 2
        staleGradOutputs zeroScratch).toOption.map
        (fun out => ((List.range 2).map out.outputs.dX.data,
          (List.range 2).map out.outputs.dfilter.data))
      = some ([7, 200], [3, 0]) := by
  decide

/-- C6 at the failing input (one image, two channels in two groups, 1x1 image and kernel,
`filter = [7, 11]`, `dY = [1, 1]`): the stated sum for input channel 1 is `11 * 1`, for
channel 0 it is `7 * 1`; backward writes 7 to element 0 but never writes element 1 of the
input gradient, which keeps its stale value 200. -/
theorem C6_input_gradient_misses_second_group :
    (List.range 2).map
        (fun c => inputGradStatedNCHW (opGroup2.axes [1, 1]) 2 2 2 filterGroup2.data
          dYGroup2.data 0 c 0) = [7, 11] ∧
    (LocallyConnectedGradientOp.RunOnDeviceWithOrderNCHW opGroup2 xGroup2 filterGroup2 dYGroup2 2
        staleGradOutputs zeroScratch).toOption.map
        (fun out => (List.range 2).map out.outputs.dX.data)
      = some [7, 200] := by
  decide

/-- The hand-computed example of C6 with concrete weights `W = [[2, 3], [5, 7]]` and
`dY = [11, 13]` (one channel, 3-element 1-d input, kernel 2, stride 1, group 1):
`dX = [2*11, 3*11 + 5*13, 7*13]`, both by the stated sum and by backward. -/
theorem overlap_example_values :
    (List.range 3).map
        (inputGradStatedNCHW (op1d.axes [3]) 1 1 1 (filter1d 2 3 5 7).data (dY1d 11 13).data 0 0)
      = [2 * 11, 3 * 11 + 5 * 13, 7 * 13] ∧
    (LocallyConnectedGradientOp.RunOnDeviceWithOrderNCHW op1d x1d (filter1d 2 3 5 7)
        (dY1d 11 13) 2 staleGradOutputs zeroScratch).toOption.map
        (fun out => (out.outputs.dX.dims, (List.range 3).map out.outputs.dX.data))
      = some ([1, 1, 3], [2 * 11, 3 * 11 + 5 * 13, 7 * 13]) := by
  decide

/-! ## The channel-first input gradient with a single group -/

theorem sumTo_comm (a b : Nat) (f : Nat → Nat → Int) :
    (sumTo a fun i => sumTo b fun j => f i j) = sumTo b fun j => sumTo a fun i => f i j := by
  induction a with
  | zero => simp [sumTo, sumTo_zero]
  | succ a ih => simp only [sumTo, ih, sumTo_add]

theorem sumTo_ite (c : Prop) [Decidable c] (n : Nat) (f : Nat → Int) :
    (if c then sumTo n f else 0) = sumTo n fun i => if c then f i else 0 := by
  split_ifs
  · rfl
  · exact (sumTo_zero n).symm

/-- Transposing the output gradient `[N, M, O]` into the batched order `[O, M, N]`. -/
theorem Transpose_dY (N M O : Nat) (X Y : Buf) (p m n : Nat) (hp : p < O) (hm : m < M)
    (hn : n < N) :
    math.Transpose [O, M, N].prod 3 [N, M, O] [O, M, N] [2, 1, 0] X Y ((p * M + m) * N + n) =
      X ((n * M + m) * O + p) := by
  have e : [O, M, N].prod = [N, M, O].prod := by
    simp only [List.prod_cons, List.prod_nil]; ring
  rw [e]
  exact Transpose_210 N M O X Y p m n hp hm hn

/-- The multiply of the backward input-gradient step with a single group: the transposed
column gradient at `(p, k, n)` is the sum over the output channels of weight times the
transposed output gradient. -/
theorem backwardNCHW_gemm_dX (M N K O : Nat) (F dYt C0 : Buf) (p k n : Nat) (hp : p < O)
    (hk : k < K) (hn : n < N) :
    math.GemmBatched true false (O * 1) K N (M / 1) 1 F dYt 0 C0 (((p * 1 + 0) * K + k) * N + n) =
      sumTo M fun m => F ((p * M + m) * K + k) * dYt ((p * M + m) * N + n) := by
  rw [GemmBatched_apply _ _ _ _ _ _ _ _ _ _ _ _ _ _ (by omega) hk hn]
  simp only [if_true, Bool.false_eq_true, if_false, one_mul, zero_mul, add_zero, Nat.div_one,
    Nat.mul_one, Nat.add_zero]
  apply sumTo_congr
  intro m _
  congr 2 <;> ring

/-- The fold of column block `n`, at image element `(c, s)` of a `ch`-channel image. -/
theorem foldAtNCHW_offset (axes : List Axis) (col : Buf) (base c s : Nat)
    (hs : s < sizeProd axes) :
    foldAtNCHW axes (col.offset base) (c * sizeProd axes + s) =
      sumTo (kernelProd axes) fun k => sumTo (outProd axes) fun p =>
        if spatialTap axes k p = some s then
          col (base + ((c * kernelProd axes + k) * outProd axes + p))
        else 0 := by
  unfold foldAtNCHW
  rw [idx_div _ _ _ hs, idx_mod _ _ _ hs]
  rfl

/-- The fold loop of the channel-first backward Impl with a single group: image `n` of the
input gradient is the fold of column block `n`. -/
theorem foldLoop_NCHW_group_one (op : ConvPoolOpBase) (shape : ShapeParams)
    (hG : op.group_ = 1)
    (hk : op.kernel_.length = shape.input_image_dims.length)
    (hK : shape.kernel_size = shape.C / op.group_ * op.kernel_.prod)
    (hO : shape.output_image_size = outProd (op.axes shape.input_image_dims))
    (hsz : shape.input_image_size = shape.input_image_dims.prod)
    (hkp : 0 < op.kernel_.prod)
    (col dX0 : Buf) (n j : Nat) (hn : n < shape.N)
    (hj : j < shape.C * shape.input_image_dims.prod) :
    imageLoop op.group_ (LocallyConnectedGradientOp.input_stride shape) (column_stride shape)
        (fun x_off col_off dX =>
          dX.writeAt x_off (foldCallNCHW op shape (column_stride shape) (col.offset col_off)))
        shape.N dX0 (n * (shape.C * shape.input_image_dims.prod) + j) =
      foldAtNCHW (op.axes shape.input_image_dims) (col.offset (n * column_stride shape)) j := by
  rw [imageLoop_eq_forImages, hG, Nat.mul_one]
  have hss : sizeProd (op.axes shape.input_image_dims) = shape.input_image_dims.prod :=
    sizeProd_axes op _
  have his : LocallyConnectedGradientOp.input_stride shape
      = shape.C * shape.input_image_dims.prod := by
    unfold LocallyConnectedGradientOp.input_stride; rw [hsz]
  rw [his]
  have hext : shape.C / op.group_ * sizeProd (op.axes shape.input_image_dims)
      = shape.C * shape.input_image_dims.prod := by rw [hG, Nat.div_one, hss]
  exact (forImages_writeAt (shape.C * shape.input_image_dims.prod)
    (fun t => foldCallNCHW op shape (column_stride shape) (col.offset (t * column_stride shape)))
    (fun t i => foldAtNCHW (op.axes shape.input_image_dims)
      (col.offset (t * column_stride shape)) i)
    (by
      intro t c i hi
      beta_reduce
      rw [foldCallNCHW_eq op shape hk hK hO hkp]
      unfold foldNCHW
      rw [if_neg (by rw [hext]; omega)])
    (by
      intro t c i hi
      beta_reduce
      rw [foldCallNCHW_eq op shape hk hK hO hkp]
      unfold foldNCHW
      rw [if_pos (by rw [hext]; omega)])
    shape.N dX0).1 n j hn hj

/-- The channel-first input gradient with a single group, element by element: the fold of
the column gradient, whose entry for (channel `c`, kernel offset `k`, location `p`) is the
sum over the output channels of filter weight times output gradient. -/
theorem backwardNCHW_dX_formula (op : ConvPoolOpBase) (hG : op.group_ = 1)
    (N C M O K : Nat) (dims : List Nat)
    (hk : op.kernel_.length = dims.length)
    (hK : K = C / op.group_ * op.kernel_.prod)
    (hO : O = outProd (op.axes dims))
    (hkp : 0 < op.kernel_.prod)
    (X F dY dfilter0 dXbuf : Buf) (dbias_data : Option Buf) (dX0 dbias0 : Buf)
    (scratch : Scratch) (n c s : Nat) (hn : n < N) (hc : c < C) (hs : s < dims.prod) :
    (LocallyConnectedGradientOp.RunOnDeviceWithOrderNCHWImpl op
        (planShape .NCHW op.group_ N C M dims.prod O K dims) X F dY dfilter0 (some dXbuf)
        dbias_data dX0 dbias0 scratch).dX_data ((n * C + c) * dims.prod + s) =
      sumTo (kernelProd (op.axes dims)) fun k => sumTo (outProd (op.axes dims)) fun p =>
        if spatialTap (op.axes dims) k p = some s then
          sumTo M fun m =>
            F (((p * M + m) * C + c) * kernelProd (op.axes dims) + k) * dY ((n * M + m) * O + p)
        else 0 := by
  have hkk : kernelProd (op.axes dims) = op.kernel_.prod := kernelProd_axes op dims hk
  have hss : sizeProd (op.axes dims) = dims.prod := sizeProd_axes op dims
  have hKC : K = C * kernelProd (op.axes dims) := by rw [hK, hG, Nat.div_one, hkk]
  have hidx : (n * C + c) * dims.prod + s = n * (C * dims.prod) + (c * dims.prod + s) := by ring
  simp only [LocallyConnectedGradientOp.RunOnDeviceWithOrderNCHWImpl]
  rw [hidx]
  refine Eq.trans (foldLoop_NCHW_group_one op (planShape .NCHW op.group_ N C M dims.prod O K dims)
    hG hk hK hO rfl hkp _ _ n (c * dims.prod + s) hn (idx_lt c s C dims.prod hc hs)) ?_
  have hcd : (planShape .NCHW op.group_ N C M dims.prod O K dims).column_dims
      = [N, 1, K, O] := by rw [hG]; rfl
  have hctd : (planShape .NCHW op.group_ N C M dims.prod O K dims).column_transposed_dims
      = [O, 1, K, N] := by rw [hG]; rfl
  have hca : (planShape .NCHW op.group_ N C M dims.prod O K dims).column_axes = [3, 1, 2, 0] := rfl
  have hYd : (planShape .NCHW op.group_ N C M dims.prod O K dims).Y_dims = [N, M, O] := rfl
  have hYt : (planShape .NCHW op.group_ N C M dims.prod O K dims).Y_transposed_dims
      = [O, M, N] := rfl
  have hYa : (planShape .NCHW op.group_ N C M dims.prod O K dims).Y_axes = [2, 1, 0] := rfl
  have hN : (planShape .NCHW op.group_ N C M dims.prod O K dims).N = N := rfl
  have hMM : (planShape .NCHW op.group_ N C M dims.prod O K dims).M = M := rfl
  have hKK : (planShape .NCHW op.group_ N C M dims.prod O K dims).kernel_size = K := rfl
  have hOO : (planShape .NCHW op.group_ N C M dims.prod O K dims).output_image_size = O := rfl
  have hdim : (planShape .NCHW op.group_ N C M dims.prod O K dims).input_image_dims = dims := rfl
  have hcs : column_stride (planShape .NCHW op.group_ N C M dims.prod O K dims) = K * O := rfl
  have l3 : ([N, M, O] : List Nat).length = 3 := rfl
  have l4 : ([N, 1, K, O] : List Nat).length = 4 := rfl
  rw [hcd, hctd, hca, hYd, hYt, hYa, hN, hMM, hKK, hOO, hdim, hcs, l3, l4, hG]
  rw [← hss, foldAtNCHW_offset _ _ _ _ _ (by rw [hss]; exact hs)]
  apply sumTo_congr
  intro k hk1
  apply sumTo_congr
  intro p hp1
  split_ifs with htap
  · have hkk1 : c * kernelProd (op.axes dims) + k < K := by
      rw [hKC]; exact idx_lt c k C _ hc hk1
    have hpO : p < O := by rw [hO]; exact hp1
    have e : n * (K * O) + ((c * kernelProd (op.axes dims) + k) * outProd (op.axes dims) + p) =
        ((n * 1 + 0) * K + (c * kernelProd (op.axes dims) + k)) * O + p := by
      rw [hO]; ring
    rw [e, Transpose_3120 O 1 K N _ _ n 0 _ p hn (by omega) hkk1 hpO]
    rw [backwardNCHW_gemm_dX M N K O _ _ _ p _ n hpO hkk1 hn]
    apply sumTo_congr
    intro m hm
    rw [Transpose_dY N M O _ _ p m n hpO hm hn]
    congr 2
    rw [hKC]; ring
  · rfl

/-- With a single group the stated input gradient is the fold of the column gradient: the
two differ only in the order of summation. -/
theorem inputGradStatedNCHW_group_one (axes : List Axis) (C M : Nat) (F dY : Buf)
    (n c s : Nat) (hc : c < C) :
    inputGradStatedNCHW axes 1 C M F dY n c s =
      sumTo (kernelProd axes) fun k => sumTo (outProd axes) fun p =>
        if spatialTap axes k p = some s then
          sumTo M fun m =>
            F (((p * M + m) * C + c) * kernelProd axes + k) * dY ((n * M + m) * outProd axes + p)
        else 0 := by
  unfold inputGradStatedNCHW
  simp only [Nat.div_one, Nat.mul_one, Nat.div_eq_of_lt hc, Nat.mod_eq_of_lt hc, Nat.zero_mul,
    Nat.add_zero, Nat.zero_add]
  simp only [sumTo_ite]
  conv_lhs => rw [sumTo_comm]
  conv_rhs => rw [sumTo_comm]
  apply sumTo_congr
  intro p _
  exact sumTo_comm _ _ _

/-- An accepted channel-first backward call, in terms of its Impl. -/
theorem backwardNCHW_run {op : ConvPoolOpBase} {X filter dY : Tensor} {OutputSize : Nat}
    {outs : GradOutputs} {scratch : Scratch} {out : BackwardOutput}
    (h : LocallyConnectedGradientOp.RunOnDeviceWithOrderNCHW op X filter dY OutputSize outs scratch
      = .ok out)
    (hreq : OutputSize = 3 ∨ (op.no_bias_ = true ∧ OutputSize = 2)) :
    ∃ N C dims, X.dims = N :: C :: dims ∧
      C = filter.dims.getD (dims.length + 1) 0 * op.group_ ∧
      filter.dims.getD dims.length 0 % op.group_ = 0 ∧
      out.outputs.dX.dims = X.dims ∧ out.outputs.dfilter.dims = filter.dims ∧
      ∃ dbias_data dbias0 bm, out.outputs.dX.data =
        (LocallyConnectedGradientOp.RunOnDeviceWithOrderNCHWImpl op
          (planShape .NCHW op.group_ N C (filter.dims.getD dims.length 0) dims.prod
            (GetDims .NCHW dY).prod (C / op.group_ * op.kernel_.prod) dims)
          X.data filter.data dY.data outs.dfilter.data (some outs.dX.data) dbias_data
          outs.dX.data dbias0 { scratch with bias_multiplier := bm }).dX_data := by
  obtain ⟨s, hs, hout⟩ := backwardNCHW_ok_setup h
  obtain ⟨N, C, dims, hX, -, hC, hM, -, -, hs'⟩ := gradSetupNCHW_ok _ _ _ _ _ _ _ _ hs
  have hw : decide (OutputSize = 3 ∨ (op.no_bias_ = true ∧ OutputSize = 2)) = true :=
    decide_eq_true hreq
  refine ⟨N, C, dims, hX, hC, hM, ?_, ?_, ?_⟩
  · rw [hout, hs']
    simp only [runGradImpl, resizeGradOutputs, hw, if_true, Tensor.Resize]
  · rw [hout, hs']
    simp only [runGradImpl, resizeGradOutputs, Tensor.Resize]
  · rw [hout, hs']
    simp only [runGradImpl, resizeGradOutputs, hw, if_true, Tensor.Resize]
    exact ⟨_, _, _, rfl⟩

/-- The input gradient of the channel-first backward pass with a single group: for an
accepted call that requests it, with one kernel entry per spatial axis, positive kernel
extents and an output gradient of the output's shape, the input gradient has the shape of
`X` and each element is the stated sum over the output channels and over the (output
location, kernel offset) pairs whose receptive field covers it. -/
theorem input_gradient_of_single_group (op : ConvPoolOpBase) (X filter dY : Tensor)
    (OutputSize : Nat) (outs : GradOutputs) (scratch : Scratch) (out : BackwardOutput)
    (n c s : Nat)
    (hG : op.group_ = 1) (hrank : op.kernel_.length = X.dims.length - 2)
    (hkp : 0 < op.kernel_.prod)
    (hdY : dY.dims.drop 2 = (op.axes (X.dims.drop 2)).map Axis.out)
    (hreq : OutputSize = 3 ∨ (op.no_bias_ = true ∧ OutputSize = 2))
    (h : LocallyConnectedGradientOp.RunOnDeviceWithOrderNCHW op X filter dY OutputSize outs scratch
      = .ok out)
    (hn : n < X.dims.getD 0 0) (hc : c < X.dims.getD 1 0) (hs : s < (X.dims.drop 2).prod) :
    out.outputs.dX.dims = X.dims ∧
    out.outputs.dX.data ((n * X.dims.getD 1 0 + c) * (X.dims.drop 2).prod + s) =
      inputGradStatedNCHW (op.axes (X.dims.drop 2)) op.group_ (X.dims.getD 1 0)
        (filter.dims.getD (X.dims.length - 2) 0) filter.data dY.data n c s := by
  obtain ⟨N, C, dims, hX, hC, hM, hdX, -, dbias_data, dbias0, bm, hD⟩ := backwardNCHW_run h hreq
  refine ⟨hdX, ?_⟩
  rw [hX] at hrank hdY hn hc hs ⊢
  simp only [List.length_cons, List.drop_succ_cons, List.drop_zero, List.getD_cons_zero,
    List.getD_cons_succ, Nat.add_sub_cancel] at hrank hdY hn hc hs ⊢
  have hOd : (GetDims .NCHW dY).prod = outProd (op.axes dims) := by
    simp only [GetDims, hdY]; rfl
  rw [hD, hOd, hG, inputGradStatedNCHW_group_one _ _ _ _ _ _ _ _ hc]
  have := backwardNCHW_dX_formula op hG N C (filter.dims.getD dims.length 0)
    (outProd (op.axes dims)) (C / op.group_ * op.kernel_.prod) dims hrank rfl rfl hkp
    X.data filter.data dY.data outs.dfilter.data outs.dX.data dbias_data outs.dX.data dbias0
    { scratch with bias_multiplier := bm } n c s hn hc hs
  rw [hG] at this
  exact this

/-- The stated input gradient in the 1-d example, for arbitrary weights and output
gradient. -/
theorem inputGradStated_overlap_example (w00 w01 w10 w11 dy0 dy1 : Int) :
    inputGradStatedNCHW (op1d.axes [3]) 1 1 1 (filter1d w00 w01 w10 w11).data
        (dY1d dy0 dy1).data 0 0 0 = w00 * dy0 ∧
    inputGradStatedNCHW (op1d.axes [3]) 1 1 1 (filter1d w00 w01 w10 w11).data
        (dY1d dy0 dy1).data 0 0 1 = w01 * dy0 + w10 * dy1 ∧
    inputGradStatedNCHW (op1d.axes [3]) 1 1 1 (filter1d w00 w01 w10 w11).data
        (dY1d dy0 dy1).data 0 0 2 = w11 * dy1 := by
  have hax : op1d.axes [3] = [⟨3, 2, 1, 1, 0, 0⟩] := by decide
  have hk : kernelProd [(⟨3, 2, 1, 1, 0, 0⟩ : Axis)] = 2 := by decide
  have ho : outProd [(⟨3, 2, 1, 1, 0, 0⟩ : Axis)] = 2 := by decide
  have t00 : spatialTap [(⟨3, 2, 1, 1, 0, 0⟩ : Axis)] 0 0 = some 0 := by decide
  have t01 : spatialTap [(⟨3, 2, 1, 1, 0, 0⟩ : Axis)] 0 1 = some 1 := by decide
  have t10 : spatialTap [(⟨3, 2, 1, 1, 0, 0⟩ : Axis)] 1 0 = some 1 := by decide
  have t11 : spatialTap [(⟨3, 2, 1, 1, 0, 0⟩ : Axis)] 1 1 = some 2 := by decide
  simp [inputGradStatedNCHW, hax, hk, ho, sumTo, t00, t01, t10, t11, filter1d, dY1d, bufOf]

/-- The overlap example of C6 on the code, for arbitrary weights `W[p][k]` and output
gradient: one input and one output channel, a 1-d input of 3 elements, kernel 2, stride 1,
no padding, group 1. The accepted backward call returns
`dX = [W00*dY0, W01*dY0 + W10*dY1, W11*dY1]`. -/
theorem overlap_example_on_code (w00 w01 w10 w11 dy0 dy1 : Int) (outs : GradOutputs)
    (scratch : Scratch) (out : BackwardOutput)
    (h : LocallyConnectedGradientOp.RunOnDeviceWithOrderNCHW op1d x1d (filter1d w00 w01 w10 w11)
      (dY1d dy0 dy1) 2 outs scratch = .ok out) :
    out.outputs.dX.dims = [1, 1, 3] ∧
    out.outputs.dX.data 0 = w00 * dy0 ∧
    out.outputs.dX.data 1 = w01 * dy0 + w10 * dy1 ∧
    out.outputs.dX.data 2 = w11 * dy1 := by
  have hdY : (dY1d dy0 dy1).dims.drop 2 = (op1d.axes (x1d.dims.drop 2)).map Axis.out := by
    show [2] = (op1d.axes [3]).map Axis.out
    decide
  have key := fun s (hs : s < 3) =>
    input_gradient_of_single_group op1d x1d (filter1d w00 w01 w10 w11) (dY1d dy0 dy1) 2 outs
      scratch out 0 0 s rfl (by decide) (by decide) hdY (Or.inr ⟨rfl, rfl⟩) h (by decide)
      (by decide) hs
  obtain ⟨e0, e1, e2⟩ := inputGradStated_overlap_example w00 w01 w10 w11 dy0 dy1
  refine ⟨(key 0 (by decide)).1, ?_, ?_, ?_⟩
  · exact (key 0 (by decide)).2.trans e0
  · exact (key 1 (by decide)).2.trans e1
  · exact (key 2 (by decide)).2.trans e2

/-! ## The checks on the filter's location dims -/

/-- What an accepted channel-last backward setup guarantees. The entry point never checks
the rank of `X` against the kernel rank, so the facts are stated on the axes it reads. -/
theorem gradSetupNHWC_ok (op : ConvPoolOpBase) (X filter dY : Tensor) (OutputSize : Nat)
    (outs : GradOutputs) (bm : Buf) (s : BackwardSetup)
    (h : LocallyConnectedGradientOp.setupNHWC op X filter dY OutputSize outs bm = .ok s) :
    op.kernel_.length = 2 ∧ 4 ≤ X.dims.length ∧
      filter.dims.length = X.dims.length + (X.dims.length - 2) ∧
      (∀ i < X.dims.length - 2, (GetDims .NHWC dY).getD i 0 = filter.dims.getD i 0) ∧
      s = resizeGradOutputs op
        (planShape .NHWC op.group_ (X.dims.getD 0 0) (X.dims.getD 3 0)
          (filter.dims.getD (X.dims.length - 2) 0) (GetDims .NHWC X).prod
          (GetDims .NHWC dY).prod (op.kernel_h * op.kernel_w * X.dims.getD 3 0)
          [X.dims.getD 1 0, X.dims.getD 2 0])
        X filter (GetDims .NHWC dY) OutputSize outs bm := by
  unfold LocallyConnectedGradientOp.setupNHWC at h
  simp only [enforce_bind_ok, dim32_bind_ok] at h
  obtain ⟨hk, h1, -, h3, -, -, -, -, -, -, -, -, -, h9, h11⟩ := h
  simp only [Tensor.ndim] at h1 h3 h9 h11
  have hlen : 4 ≤ X.dims.length := by omega
  have e1 : ((X.dims.length : Int) - 2).toNat = X.dims.length - 2 := by omega
  have t0 : Int.toNat 0 = 0 := rfl
  have t1 : Int.toNat 1 = 1 := rfl
  have t2 : Int.toNat 2 = 2 := rfl
  have t3 : Int.toNat 3 = 3 := rfl
  rw [e1] at h9 h11
  simp only [t0, t1, t2, t3, GetDimsSize, pure, Except.pure, Except.ok.injEq] at h11
  exact ⟨hk, hlen, by omega, h9, h11.symm⟩

theorem backwardNHWC_ok_setup {op : ConvPoolOpBase} {X filter dY : Tensor} {OutputSize : Nat}
    {outs : GradOutputs} {scratch : Scratch} {out : BackwardOutput}
    (h : LocallyConnectedGradientOp.RunOnDeviceWithOrderNHWC op X filter dY OutputSize outs scratch
      = .ok out) :
    ∃ s, LocallyConnectedGradientOp.setupNHWC op X filter dY OutputSize outs
        scratch.bias_multiplier = .ok s ∧
      out = runGradImpl (LocallyConnectedGradientOp.RunOnDeviceWithOrderNHWCImpl op) s X filter dY
        scratch := by
  obtain ⟨s, hs, hr⟩ := except_bind_ok _ _ _ h
  simp only [pure, Except.pure, Except.ok.injEq] at hr
  exact ⟨s, hs, hr.symm⟩

theorem except_error_of_not_ok {ε α : Type} (r : Except ε α) (h : ∀ a, r ≠ .ok a) :
    ∃ f, r = .error f := by
  cases r with
  | error f => exact ⟨f, rfl⟩
  | ok a => exact absurd rfl (h a)

theorem take_eq_of_getD (l1 l2 : List Nat) (n : Nat) (h1 : n ≤ l1.length) (h2 : l2.length = n)
    (h : ∀ i < n, l2.getD i 0 = l1.getD i 0) : l1.take n = l2 := by
  apply list_eq_of_getD
  · simp [h2, h1]
  · intro i hi
    have hi' : i < n := by
      rw [List.length_take] at hi; omega
    rw [h i hi']
    simp only [List.getD_eq_getElem?_getD, List.getElem?_take_of_lt hi']

/-- C11 as stated fails for the backward pass: for a 3-element 1-d input and kernel 2 the
computed output has 2 locations, yet a filter and an output gradient that both have 1
location are accepted by the backward entry point (the forward entry point rejects the
same filter with the filter-location enforce). -/
theorem C11_counterexample_backward_trusts_dY :
    filterShort.dims.take (x1d.dims.length - 2) = GetDims .NCHW dYShort ∧
      filterShort.dims.take (x1d.dims.length - 2) ≠
        (op1d.axes (GetDims .NCHW x1d)).map Axis.out ∧
      (∃ out, LocallyConnectedGradientOp.RunOnDevice .NCHW op1d x1d filterShort dYShort 2
        emptyGradOutputs zeroScratch = .ok out) ∧
      (∃ f, LocallyConnectedOp.RunOnDevice .NCHW op1d x1d filterShort none emptyTensor
        zeroScratch = .error f ∧ f.err = .filterImageDims) :=
  ⟨by decide, by decide, ⟨_, rfl⟩, ⟨_, rfl, rfl⟩⟩

/-- C11 (amended): in either storage order the forward call fails whenever the filter's
leading location dims differ from the output spatial dims computed by conv arithmetic
from the input spatial dims and the kernel/stride/pad/dilation parameters; the backward
call fails whenever the filter's leading location dims differ from the spatial dims of
`dY` (of the rank of `X`), which is what it compares them with. -/
theorem C11_filter_location_dims_checked (order : StorageOrder) (op : ConvPoolOpBase)
    (X filter dY : Tensor) (bias : Option Tensor) (Y : Tensor) (OutputSize : Nat)
    (outs : GradOutputs) (scratch : Scratch) :
    (filter.dims.take (X.dims.length - 2) ≠ (op.axes (GetDims order X)).map Axis.out →
      ∃ f, LocallyConnectedOp.RunOnDevice order op X filter bias Y scratch = .error f) ∧
    (dY.dims.length = X.dims.length →
      filter.dims.take (X.dims.length - 2) ≠ GetDims order dY →
      ∃ f, LocallyConnectedGradientOp.RunOnDevice order op X filter dY OutputSize outs scratch
        = .error f) := by
  constructor
  · intro hne
    apply except_error_of_not_ok
    intro out h
    apply hne
    cases order with
    | NCHW =>
      obtain ⟨s, hs, -⟩ := forwardNCHW_ok_setup h
      obtain ⟨N, C, M, fc, dims, hX, hF, -⟩ := setupNCHW_ok _ _ _ _ _ _ _ hs
      have hl : ((op.axes dims).map Axis.out).length = dims.length := by
        simp [ConvPoolOpBase.axes, mkAxes_length]
      have e : (N :: C :: dims).length - 2 = ((op.axes dims).map Axis.out).length := by
        rw [hl]; simp
      simp only [GetDims]
      rw [hX, hF, e, List.take_left]
      rfl
    | NHWC =>
      obtain ⟨s, hs, -⟩ := forwardNHWC_ok_setup h
      obtain ⟨N, H, W, C, M, hX, -, hF, -⟩ := setupNHWC_ok _ _ _ _ _ _ _ hs
      have hl : ((op.axes [H, W]).map Axis.out).length = 2 := by
        simp [ConvPoolOpBase.axes, mkAxes_length]
      have hg : GetDims .NHWC { dims := [N, H, W, C], data := X.data } = [H, W] := rfl
      rw [hF]
      have hX' : X = { dims := [N, H, W, C], data := X.data } := by
        cases X; simp only at hX; subst hX; rfl
      rw [hX', hg]
      show List.take 2 _ = _
      rw [← hl, List.take_left]
  · intro hrank hne
    apply except_error_of_not_ok
    intro out h
    apply hne
    have hg : (GetDims order dY).length = X.dims.length - 2 := by
      cases order <;> simp [GetDims, hrank]
      omega
    cases order with
    | NCHW =>
      obtain ⟨s, hs, -⟩ := backwardNCHW_ok_setup h
      obtain ⟨N, C, dims, hX, hlen, -, -, h9, -⟩ := gradSetupNCHW_ok _ _ _ _ _ _ _ _ hs
      apply take_eq_of_getD _ _ _ _ hg
      · rw [hX]; simpa using h9
      · rw [hX, hlen]; simp; omega
    | NHWC =>
      obtain ⟨s, hs, -⟩ := backwardNHWC_ok_setup h
      obtain ⟨-, h4, hlen, h9, -⟩ := gradSetupNHWC_ok _ _ _ _ _ _ _ _ hs
      apply take_eq_of_getD _ _ _ _ hg h9
      rw [hlen]; omega

/-- C11 (amended) at concrete inputs: the forward call on a filter with 1 location where 2
are computed, and the backward call on a filter with 2 locations and an output gradient
with 1. -/
theorem C11_filter_location_dims_checked_witness :
    (∃ f, LocallyConnectedOp.RunOnDevice .NCHW op1d x1d filterShort none emptyTensor
        zeroScratch = .error f) ∧
      (∃ f, LocallyConnectedGradientOp.RunOnDevice .NCHW op1d x1d (filter1d 1 2 3 4) dYShort 2
        emptyGradOutputs zeroScratch = .error f) :=
  ⟨(C11_filter_location_dims_checked .NCHW op1d x1d filterShort dYShort none emptyTensor 2
      emptyGradOutputs zeroScratch).1 (by decide),
   (C11_filter_location_dims_checked .NCHW op1d x1d (filter1d 1 2 3 4) dYShort none emptyTensor
      2 emptyGradOutputs zeroScratch).2 (by decide) (by decide)⟩

/-! ## What a failed call leaves behind -/

theorem enforce_bind_error {σ α : Type} (c : Prop) [Decidable c] (e : EnforceError) (st : σ)
    (g : Unit → Except (Failure σ) α) (P : Failure σ → Prop) (h0 : P ⟨e, st⟩)
    (h1 : ∀ f, g () = .error f → P f) :
    ∀ f, (enforce c e st >>= g) = .error f → P f := by
  intro f h
  unfold enforce at h
  by_cases hc : c
  · rw [if_pos hc] at h
    exact h1 f h
  · rw [if_neg hc] at h
    cases h
    exact h0

theorem dim32_bind_error {σ α : Type} (t : Tensor) (i : Int) (st : σ)
    (g : Nat → Except (Failure σ) α) (P : Failure σ → Prop) (h0 : P ⟨.dimIndex, st⟩)
    (h1 : ∀ f, g (t.dims.getD i.toNat 0) = .error f → P f) :
    ∀ f, (t.dim32 i st >>= g) = .error f → P f := by
  intro f h
  unfold Tensor.dim32 at h
  by_cases hc : 0 ≤ i ∧ i < t.ndim
  · rw [if_pos hc] at h
    exact h1 f h
  · rw [if_neg hc] at h
    cases h
    exact h0

theorem SetOutputSize_bind_error {α : Type} (op : ConvPoolOpBase) (order : StorageOrder)
    (X Y : Tensor) (M : Nat) (g : Tensor → Except (Failure Tensor) α)
    (P : Failure Tensor → Prop) (h0 : P ⟨.outputSize, Y⟩)
    (h1 : ∀ f, g (Y.Resize (outputDims op order X M)) = .error f → P f) :
    ∀ f, (op.SetOutputSize order X Y M >>= g) = .error f → P f := by
  intro f h
  unfold ConvPoolOpBase.SetOutputSize at h
  split_ifs at h with hc
  · exact h1 f h
  · cases h
    exact h0

theorem pure_error {σ α : Type} (a : α) (P : Failure σ → Prop) :
    ∀ f, (pure a : Except (Failure σ) α) = .error f → P f := by
  intro f h
  cases h

theorem checkBias_bind_error {α : Type} (bias : Tensor) (image_ndim : Int) (dims : List Nat)
    (M : Nat) (Y : Tensor) (g : Unit → Except (Failure Tensor) α) (P : Failure Tensor → Prop)
    (h0 : P ⟨.biasShape, Y⟩) (h0d : P ⟨.dimIndex, Y⟩) (h1 : ∀ f, g () = .error f → P f) :
    ∀ f, (checkBias bias image_ndim dims M Y >>= g) = .error f → P f := by
  unfold checkBias
  simp only [bind_assoc]
  refine enforce_bind_error _ _ _ _ _ h0 ?_
  refine enforce_bind_error _ _ _ _ _ h0 ?_
  refine dim32_bind_error _ _ _ _ _ h0d ?_
  exact enforce_bind_error _ _ _ _ _ h0 h1

theorem bind_pure_error {ε α β : Type} (x : Except ε α) (g : α → β) (f : ε)
    (h : (x >>= fun a => pure (g a)) = .error f) : x = .error f := by
  cases x with
  | error e => simpa [bind, Except.bind] using h
  | ok a => cases h

theorem ndim_sub_two_toNat (X : Tensor) : (X.ndim - 2).toNat = X.dims.length - 2 := by
  simp only [Tensor.ndim]; omega

theorem failedForwardState_unchanged (order : StorageOrder) (op : ConvPoolOpBase)
    (X filter Y : Tensor) (e : EnforceError)
    (he : e = .filterRank ∨ e = .inputChannels ∨ e = .outputChannelsGroup ∨ e = .kernelRank ∨
      e = .outputSize ∨ e = .dimIndex ∨ (e = .filterKernelDims ∧ order = .NHWC)) :
    failedForwardState order op X filter Y ⟨e, Y⟩ := by
  refine ⟨Or.inl rfl, fun _ => rfl, ?_, ?_⟩
  · intro h
    rcases he with rfl | rfl | rfl | rfl | rfl | rfl | ⟨rfl, -⟩ <;> simp at h
  · intro h
    rcases he with rfl | rfl | rfl | rfl | rfl | rfl | ⟨-, rfl⟩ <;> first | rfl | simp at h

theorem failedForwardState_resized (order : StorageOrder) (op : ConvPoolOpBase)
    (X filter Y : Tensor) (e : EnforceError)
    (he : e = .filterImageDims ∨ e = .biasShape ∨ e = .dimIndex ∨
      (e = .filterKernelDims ∧ order = .NCHW)) :
    failedForwardState order op X filter Y ⟨e, resizedOutput order op X filter Y⟩ := by
  refine ⟨Or.inr rfl, ?_, fun _ => rfl, ?_⟩
  · intro h
    rcases he with rfl | rfl | rfl | ⟨rfl, -⟩ <;> simp at h
  · intro h
    rcases he with rfl | rfl | rfl | ⟨-, rfl⟩ <;> first | rfl | simp at h

theorem setupNCHW_error (op : ConvPoolOpBase) (X filter : Tensor) (bias : Option Tensor)
    (Y : Tensor) (bm : Buf) :
    ∀ f, LocallyConnectedOp.setupNCHW op X filter bias Y bm = .error f →
      failedForwardState .NCHW op X filter Y f := by
  have hr : Y.Resize (outputDims op .NCHW X (filter.dims.getD (X.ndim - 2).toNat 0)) =
      resizedOutput .NCHW op X filter Y := by
    rw [ndim_sub_two_toNat]; rfl
  unfold LocallyConnectedOp.setupNCHW
  dsimp only
  refine enforce_bind_error _ _ _ _ _ (failedForwardState_unchanged _ _ _ _ _ _ (by simp)) ?_
  refine dim32_bind_error _ _ _ _ _ (failedForwardState_unchanged _ _ _ _ _ _ (by simp)) ?_
  refine dim32_bind_error _ _ _ _ _ (failedForwardState_unchanged _ _ _ _ _ _ (by simp)) ?_
  refine dim32_bind_error _ _ _ _ _ (failedForwardState_unchanged _ _ _ _ _ _ (by simp)) ?_
  refine dim32_bind_error _ _ _ _ _ (failedForwardState_unchanged _ _ _ _ _ _ (by simp)) ?_
  refine enforce_bind_error _ _ _ _ _ (failedForwardState_unchanged _ _ _ _ _ _ (by simp)) ?_
  refine enforce_bind_error _ _ _ _ _ (failedForwardState_unchanged _ _ _ _ _ _ (by simp)) ?_
  refine SetOutputSize_bind_error _ _ _ _ _ _ _
    (failedForwardState_unchanged _ _ _ _ _ _ (by simp)) ?_
  rw [hr]
  refine enforce_bind_error _ _ _ _ _
    (failedForwardState_resized _ _ _ _ _ .filterImageDims (by simp)) ?_
  refine enforce_bind_error _ _ _ _ _
    (failedForwardState_resized _ _ _ _ _ .filterKernelDims (by simp)) ?_
  cases bias with
  | none => exact pure_error _ _
  | some b =>
    exact checkBias_bind_error _ _ _ _ _ _ _
      (failedForwardState_resized _ _ _ _ _ .biasShape (by simp))
      (failedForwardState_resized _ _ _ _ _ .dimIndex (by simp)) (pure_error _ _)

theorem setupNHWC_error (op : ConvPoolOpBase) (X filter : Tensor) (bias : Option Tensor)
    (Y : Tensor) (bm : Buf) :
    ∀ f, LocallyConnectedOp.setupNHWC op X filter bias Y bm = .error f →
      failedForwardState .NHWC op X filter Y f := by
  have hr : Y.Resize (outputDims op .NHWC X (filter.dims.getD (X.ndim - 2).toNat 0)) =
      resizedOutput .NHWC op X filter Y := by
    rw [ndim_sub_two_toNat]; rfl
  unfold LocallyConnectedOp.setupNHWC
  dsimp only
  refine enforce_bind_error _ _ _ _ _ (failedForwardState_unchanged _ _ _ _ _ _ (by simp)) ?_
  refine enforce_bind_error _ _ _ _ _ (failedForwardState_unchanged _ _ _ _ _ _ (by simp)) ?_
  refine dim32_bind_error _ _ _ _ _ (failedForwardState_unchanged _ _ _ _ _ _ (by simp)) ?_
  refine dim32_bind_error _ _ _ _ _ (failedForwardState_unchanged _ _ _ _ _ _ (by simp)) ?_
  refine dim32_bind_error _ _ _ _ _ (failedForwardState_unchanged _ _ _ _ _ _ (by simp)) ?_
  refine dim32_bind_error _ _ _ _ _ (failedForwardState_unchanged _ _ _ _ _ _ (by simp)) ?_
  refine dim32_bind_error _ _ _ _ _ (failedForwardState_unchanged _ _ _ _ _ _ (by simp)) ?_
  refine dim32_bind_error _ _ _ _ _ (failedForwardState_unchanged _ _ _ _ _ _ (by simp)) ?_
  refine enforce_bind_error _ _ _ _ _ (failedForwardState_unchanged _ _ _ _ _ _ (by simp)) ?_
  refine dim32_bind_error _ _ _ _ _ (failedForwardState_unchanged _ _ _ _ _ _ (by simp)) ?_
  refine enforce_bind_error _ _ _ _ _ (failedForwardState_unchanged _ _ _ _ _ _ (by simp)) ?_
  refine dim32_bind_error _ _ _ _ _ (failedForwardState_unchanged _ _ _ _ _ _ (by simp)) ?_
  refine enforce_bind_error _ _ _ _ _ (failedForwardState_unchanged _ _ _ _ _ _ (by simp)) ?_
  refine SetOutputSize_bind_error _ _ _ _ _ _ _
    (failedForwardState_unchanged _ _ _ _ _ _ (by simp)) ?_
  rw [hr]
  refine enforce_bind_error _ _ _ _ _
    (failedForwardState_resized _ _ _ _ _ .filterImageDims (by simp)) ?_
  cases bias with
  | none => exact pure_error _ _
  | some b =>
    exact checkBias_bind_error _ _ _ _ _ _ _
      (failedForwardState_resized _ _ _ _ _ .biasShape (by simp))
      (failedForwardState_resized _ _ _ _ _ .dimIndex (by simp)) (pure_error _ _)

theorem gradSetupNCHW_error (op : ConvPoolOpBase) (X filter dY : Tensor) (OutputSize : Nat)
    (outs : GradOutputs) (bm : Buf) :
    ∀ f, LocallyConnectedGradientOp.setupNCHW op X filter dY OutputSize outs bm = .error f →
      f.state = outs := by
  unfold LocallyConnectedGradientOp.setupNCHW
  dsimp only
  refine enforce_bind_error _ _ _ _ _ rfl ?_
  refine dim32_bind_error _ _ _ _ _ rfl ?_
  refine dim32_bind_error _ _ _ _ _ rfl ?_
  refine dim32_bind_error _ _ _ _ _ rfl ?_
  refine dim32_bind_error _ _ _ _ _ rfl ?_
  refine enforce_bind_error _ _ _ _ _ rfl ?_
  refine enforce_bind_error _ _ _ _ _ rfl ?_
  refine enforce_bind_error _ _ _ _ _ rfl ?_
  refine enforce_bind_error _ _ _ _ _ rfl ?_
  exact pure_error _ _

theorem gradSetupNHWC_error (op : ConvPoolOpBase) (X filter dY : Tensor) (OutputSize : Nat)
    (outs : GradOutputs) (bm : Buf) :
    ∀ f, LocallyConnectedGradientOp.setupNHWC op X filter dY OutputSize outs bm = .error f →
      f.state = outs := by
  unfold LocallyConnectedGradientOp.setupNHWC
  dsimp only
  refine enforce_bind_error _ _ _ _ _ rfl ?_
  refine enforce_bind_error _ _ _ _ _ rfl ?_
  refine dim32_bind_error _ _ _ _ _ rfl ?_
  refine dim32_bind_error _ _ _ _ _ rfl ?_
  refine dim32_bind_error _ _ _ _ _ rfl ?_
  refine dim32_bind_error _ _ _ _ _ rfl ?_
  refine dim32_bind_error _ _ _ _ _ rfl ?_
  refine dim32_bind_error _ _ _ _ _ rfl ?_
  refine enforce_bind_error _ _ _ _ _ rfl ?_
  refine dim32_bind_error _ _ _ _ _ rfl ?_
  refine enforce_bind_error _ _ _ _ _ rfl ?_
  refine dim32_bind_error _ _ _ _ _ rfl ?_
  refine enforce_bind_error _ _ _ _ _ rfl ?_
  refine enforce_bind_error _ _ _ _ _ rfl ?_
  exact pure_error _ _

/-- C12 as stated fails for the forward pass: a filter with 1 location where 2 are
computed makes the call fail at the filter-location enforce, and by then SetOutputSize has
resized the output from its empty shape to `[1, 1, 2]`. -/
theorem C12_counterexample_forward_failure_resizes_output :
    ∃ f, LocallyConnectedOp.RunOnDevice .NCHW op1d x1d filterShort none emptyTensor
        zeroScratch = .error f ∧
      f.err = .filterImageDims ∧ f.state.dims = [1, 1, 2] ∧ f.state.dims ≠ emptyTensor.dims :=
  ⟨_, rfl, rfl, rfl, by decide⟩

/-- C12 (amended): a failed call is a failed setup, the validation part of the entry point
that precedes the Impl with its unfold, transpose and multiply calls. A failed backward
call leaves the gradient outputs exactly as they were passed in. A failed forward call
leaves `Y` exactly as it was passed in when the failing enforce precedes SetOutputSize
(filter rank, channel/group arithmetic, kernel rank, output size, channel-last kernel
dims) and leaves `Y` resized to the computed output shape when it follows (filter location
dims, bias shape, channel-first kernel dims). -/
theorem C12_failed_call_outputs (order : StorageOrder) (op : ConvPoolOpBase)
    (X filter dY : Tensor) (bias : Option Tensor) (Y : Tensor) (OutputSize : Nat)
    (outs : GradOutputs) (scratch : Scratch) :
    (∀ f, LocallyConnectedOp.RunOnDevice order op X filter bias Y scratch = .error f →
      LocallyConnectedOp.setup order op X filter bias Y scratch.bias_multiplier = .error f ∧
      failedForwardState order op X filter Y f) ∧
    (∀ f, LocallyConnectedGradientOp.RunOnDevice order op X filter dY OutputSize outs scratch
        = .error f →
      LocallyConnectedGradientOp.setup order op X filter dY OutputSize outs
        scratch.bias_multiplier = .error f ∧
      f.state = outs) := by
  constructor
  · intro f h
    cases order with
    | NCHW =>
      have hs := bind_pure_error _ _ _ h
      exact ⟨hs, setupNCHW_error _ _ _ _ _ _ f hs⟩
    | NHWC =>
      have hs := bind_pure_error _ _ _ h
      exact ⟨hs, setupNHWC_error _ _ _ _ _ _ f hs⟩
  · intro f h
    cases order with
    | NCHW =>
      have hs := bind_pure_error _ _ _ h
      exact ⟨hs, gradSetupNCHW_error _ _ _ _ _ _ _ f hs⟩
    | NHWC =>
      have hs := bind_pure_error _ _ _ h
      exact ⟨hs, gradSetupNHWC_error _ _ _ _ _ _ _ f hs⟩

/-- C12 (amended) at concrete failing calls: the forward call on a filter with 1 location
where 2 are computed, and the backward call on a filter with 2 locations and an output
gradient with 1, with stale contents in the input-gradient storage. -/
theorem C12_failed_call_outputs_witness :
    (LocallyConnectedOp.RunOnDevice .NCHW op1d x1d filterShort none emptyTensor zeroScratch
        = .error ⟨.filterImageDims, emptyTensor.Resize [1, 1, 2]⟩ ∧
      failedForwardState .NCHW op1d x1d filterShort emptyTensor
        ⟨.filterImageDims, emptyTensor.Resize [1, 1, 2]⟩) ∧
    (LocallyConnectedGradientOp.RunOnDevice .NCHW op1d x1d (filter1d 1 2 3 4) dYShort 2
        staleGradOutputs zeroScratch = .error ⟨.filterImageDims, staleGradOutputs⟩ ∧
      (⟨.filterImageDims, staleGradOutputs⟩ : Failure GradOutputs).state = staleGradOutputs) :=
  ⟨⟨rfl, ((C12_failed_call_outputs .NCHW op1d x1d filterShort dYShort none emptyTensor 2
      staleGradOutputs zeroScratch).1 _ rfl).2⟩,
   ⟨rfl, ((C12_failed_call_outputs .NCHW op1d x1d (filter1d 1 2 3 4) dYShort none emptyTensor 2
      staleGradOutputs zeroScratch).2 _ rfl).2⟩⟩

/-! ## The derived kernel size -/

theorem kernel_prod_of_length_two (op : ConvPoolOpBase) (h : op.kernel_.length = 2) :
    op.kernel_.prod = op.kernel_h * op.kernel_w := by
  have := list_pair_of_length_two op.kernel_ h
  rw [this]
  simp [ConvPoolOpBase.kernel_h, ConvPoolOpBase.kernel_w]

/-- C13 as stated fails in the channel-last order: with two input channels and group 2 the
forward call is accepted and derives kernel size 2 (`kernel_h * kernel_w * C`), not
`(C/G)` times the product of the kernel dims, which is 1. -/
theorem C13_counterexample_nhwc_kernel_size_ignores_group :
    (∃ out, LocallyConnectedOp.RunOnDevice .NHWC opGroup2 xNHWCc2 filterNHWCc2 none emptyTensor
        zeroScratch = .ok out) ∧
      (shapeOfForward (LocallyConnectedOp.setup .NHWC opGroup2 xNHWCc2 filterNHWCc2 none
        emptyTensor zeroScratch.bias_multiplier)).map ShapeParams.kernel_size = some 2 ∧
      kernelSizeStated (channelsOf .NHWC xNHWCc2) opGroup2.group_ opGroup2.kernel_ = 1 :=
  ⟨⟨_, rfl⟩, by decide, by decide⟩

/-- C13 (amended): for every configuration accepted by the forward or by the backward
entry point, the derived kernel size is `(C/G)` times the product of the kernel dims in
the channel-first order, and `C` times the product of the kernel dims in the channel-last
order, which never divides by the group count. -/
theorem C13_kernel_size_of_accepted (order : StorageOrder) (op : ConvPoolOpBase)
    (X filter dY : Tensor) (bias : Option Tensor) (Y : Tensor) (OutputSize : Nat)
    (outs : GradOutputs) (bm : Buf) :
    (∀ s, LocallyConnectedOp.setup order op X filter bias Y bm = .ok s →
      s.shape.C = channelsOf order X ∧
      s.shape.kernel_size =
        kernelSizeStated (channelsOf order X) (groupsUsed order op) op.kernel_) ∧
    (∀ s, LocallyConnectedGradientOp.setup order op X filter dY OutputSize outs bm = .ok s →
      s.shape.C = channelsOf order X ∧
      s.shape.kernel_size =
        kernelSizeStated (channelsOf order X) (groupsUsed order op) op.kernel_) := by
  constructor
  · intro s h
    cases order with
    | NCHW =>
      obtain ⟨N, C, M, fc, dims, hX, -, -, -, -, -, hs, -⟩ := setupNCHW_ok _ _ _ _ _ _ _ h
      rw [hs]
      simp [planShape, channelsOf, groupsUsed, kernelSizeStated, hX]
    | NHWC =>
      obtain ⟨N, H, W, C, M, hX, hk, -, -, hs, -⟩ := setupNHWC_ok _ _ _ _ _ _ _ h
      rw [hs]
      simp only [planShape, channelsOf, groupsUsed, kernelSizeStated, hX, List.getD_cons_zero,
        List.getD_cons_succ, Nat.div_one, kernel_prod_of_length_two op hk]
      exact ⟨trivial, Nat.mul_comm _ _⟩
  · intro s h
    cases order with
    | NCHW =>
      obtain ⟨N, C, dims, hX, -, -, -, -, -, hs⟩ := gradSetupNCHW_ok _ _ _ _ _ _ _ _ h
      rw [hs]
      simp [planShape, resizeGradOutputs, channelsOf, groupsUsed, kernelSizeStated, hX]
    | NHWC =>
      obtain ⟨hk, -, -, -, hs⟩ := gradSetupNHWC_ok _ _ _ _ _ _ _ _ h
      rw [hs]
      simp only [planShape, resizeGradOutputs, channelsOf, groupsUsed, kernelSizeStated,
        Nat.div_one, kernel_prod_of_length_two op hk]
      exact ⟨trivial, Nat.mul_comm _ _⟩

/-- C13 (amended) at concrete inputs: two channels in two groups in the channel-first
order, forward and backward. -/
theorem C13_kernel_size_of_accepted_witness :
    (∃ s, LocallyConnectedOp.setup .NCHW opGroup2 xGroup2 filterGroup2 none emptyTensor
        zeroScratch.bias_multiplier = .ok s ∧
      s.shape.C = channelsOf .NCHW xGroup2 ∧
      s.shape.kernel_size =
        kernelSizeStated (channelsOf .NCHW xGroup2) (groupsUsed .NCHW opGroup2)
          opGroup2.kernel_) ∧
    (∃ s, LocallyConnectedGradientOp.setup .NCHW opGroup2 xGroup2 filterGroup2 dYGroup2 2
        emptyGradOutputs zeroScratch.bias_multiplier = .ok s ∧
      s.shape.C = channelsOf .NCHW xGroup2 ∧
      s.shape.kernel_size =
        kernelSizeStated (channelsOf .NCHW xGroup2) (groupsUsed .NCHW opGroup2)
          opGroup2.kernel_) :=
  ⟨⟨_, rfl, (C13_kernel_size_of_accepted .NCHW opGroup2 xGroup2 filterGroup2 dYGroup2 none
      emptyTensor 2 emptyGradOutputs zeroScratch.bias_multiplier).1 _ rfl⟩,
   ⟨_, rfl, (C13_kernel_size_of_accepted .NCHW opGroup2 xGroup2 filterGroup2 dYGroup2 none
      emptyTensor 2 emptyGradOutputs zeroScratch.bias_multiplier).2 _ rfl⟩⟩

/-! ## The bias gradient in both storage orders -/

theorem Gemv_apply (M N : Nat) (A x y : Buf) (i : Nat) (hi : i < M) :
    math.Gemv false M N 1 A x 0 y i = sumTo N fun c => A (i * N + c) * x c := by
  simp [math.Gemv, hi]

theorem Gemv_trans_apply (M N : Nat) (A x y : Buf) (i : Nat) (hi : i < N) :
    math.Gemv true M N 1 A x 0 y i = sumTo M fun r => A (r * N + i) * x r := by
  simp [math.Gemv, hi]

theorem sumTo_bias_multiplier (N : Nat) (f : Nat → Int) :
    (sumTo N fun n => f n * SetBiasMultiplier N n) = sumTo N f := by
  apply sumTo_congr
  intro n hn
  rw [SetBiasMultiplier_apply N n hn, mul_one]

theorem backwardNCHWImpl_dbias (op : ConvPoolOpBase) (shape : ShapeParams)
    (X F dY dF : Buf) (dXo : Option Buf) (db dX0 db0 : Buf) (scratch : Scratch) :
    (LocallyConnectedGradientOp.RunOnDeviceWithOrderNCHWImpl op shape X F dY dF dXo (some db)
        dX0 db0 scratch).dbias_data =
      math.Gemv false (shape.output_image_size * shape.M) shape.N 1
        (math.Transpose shape.Y_transposed_dims.prod shape.Y_dims.length shape.Y_dims
          shape.Y_transposed_dims shape.Y_axes dY scratch.Y_transposed_buffer)
        scratch.bias_multiplier 0 db := by
  cases dXo <;> rfl

theorem backwardNHWCImpl_dbias (op : ConvPoolOpBase) (shape : ShapeParams)
    (X F dY dF : Buf) (dXo : Option Buf) (db dX0 db0 : Buf) (scratch : Scratch) :
    (LocallyConnectedGradientOp.RunOnDeviceWithOrderNHWCImpl op shape X F dY dF dXo (some db)
        dX0 db0 scratch).dbias_data =
      math.Gemv true shape.N (shape.output_image_size * shape.M) 1 dY
        scratch.bias_multiplier 0 db := by
  cases dXo <;> rfl

/-- The bias gradient of the channel-first backward pass: `dbias[p, m]` is the sum over the
images of `dY[n, m, p]`, whatever the bias-gradient storage held before. -/
theorem backwardNCHW_dbias {op : ConvPoolOpBase} {X filter dY : Tensor} {OutputSize : Nat}
    {outs : GradOutputs} {scratch : Scratch} {out : BackwardOutput}
    (hb : op.no_bias_ = false)
    (h : LocallyConnectedGradientOp.RunOnDeviceWithOrderNCHW op X filter dY OutputSize outs scratch
      = .ok out)
    (p m : Nat) (hp : p < (GetDims .NCHW dY).prod)
    (hm : m < filter.dims.getD (X.dims.length - 2) 0) :
    out.outputs.dbias.dims = GetDims .NCHW dY ++ [filter.dims.getD (X.dims.length - 2) 0] ∧
      out.outputs.dbias.data (p * filter.dims.getD (X.dims.length - 2) 0 + m) =
        sumTo (X.dims.getD 0 0) fun n =>
          dY.data ((n * filter.dims.getD (X.dims.length - 2) 0 + m) * (GetDims .NCHW dY).prod
            + p) := by
  obtain ⟨s, hs, hout⟩ := backwardNCHW_ok_setup h
  obtain ⟨N, C, dims, hX, -, -, -, -, -, hs'⟩ := gradSetupNCHW_ok _ _ _ _ _ _ _ _ hs
  have e : (N :: C :: dims).length - 2 = dims.length := by simp
  rw [hX] at hm ⊢
  rw [e] at hm ⊢
  simp only [List.getD_cons_zero]
  rw [hout, hs']
  simp only [runGradImpl, resizeGradOutputs, hb, Bool.not_false, if_true, Bool.false_eq_true,
    if_false, Tensor.Resize, backwardNCHWImpl_dbias, planShape, SetYBufferShape]
  refine ⟨?_, ?_⟩
  · trivial
  rw [Gemv_apply _ _ _ _ _ _ (idx_lt p m _ _ hp hm), sumTo_bias_multiplier]
  apply sumTo_congr
  intro n hn
  exact Transpose_dY N _ _ _ _ p m n hp hm hn

/-- The bias gradient of the channel-last backward pass: `dbias[p, m]` is the sum over the
images of `dY[n, p, m]`, whatever the bias-gradient storage held before. -/
theorem backwardNHWC_dbias {op : ConvPoolOpBase} {X filter dY : Tensor} {OutputSize : Nat}
    {outs : GradOutputs} {scratch : Scratch} {out : BackwardOutput}
    (hb : op.no_bias_ = false)
    (h : LocallyConnectedGradientOp.RunOnDeviceWithOrderNHWC op X filter dY OutputSize outs scratch
      = .ok out)
    (p m : Nat) (hp : p < (GetDims .NHWC dY).prod)
    (hm : m < filter.dims.getD (X.dims.length - 2) 0) :
    out.outputs.dbias.dims = GetDims .NHWC dY ++ [filter.dims.getD (X.dims.length - 2) 0] ∧
      out.outputs.dbias.data (p * filter.dims.getD (X.dims.length - 2) 0 + m) =
        sumTo (X.dims.getD 0 0) fun n =>
          dY.data ((n * (GetDims .NHWC dY).prod + p) * filter.dims.getD (X.dims.length - 2) 0
            + m) := by
  obtain ⟨s, hs, hout⟩ := backwardNHWC_ok_setup h
  obtain ⟨-, -, -, -, hs'⟩ := gradSetupNHWC_ok _ _ _ _ _ _ _ _ hs
  rw [hout, hs']
  simp only [runGradImpl, resizeGradOutputs, hb, Bool.not_false, if_true, Bool.false_eq_true,
    if_false, Tensor.Resize, backwardNHWCImpl_dbias, planShape, SetYBufferShape]
  refine ⟨?_, ?_⟩
  · trivial
  rw [Gemv_trans_apply _ _ _ _ _ _ (idx_lt p m _ _ hp hm), sumTo_bias_multiplier]
  apply sumTo_congr
  intro n _
  congr 1
  ring

/-- C14: the two backward paths compute the same bias gradient on equivalent data. For an
output gradient `dY1` in channel-first layout `[N, M, out...]` and its channel-last
rearrangement `dY2` in `[N, out..., M]`, both accepted calls (with bias) give the bias
gradient the shape `[out..., M]` and set `dbias[p, m]` to the sum over `n` of
`dY1[n, m, p]`, for every output location `p` and output channel `m`, independently of
what the bias-gradient storage held before. -/
theorem C14_bias_gradient_same_in_both_orders (op : ConvPoolOpBase)
    (X1 filter1 dY1 X2 filter2 dY2 : Tensor) (OutputSize : Nat) (outs1 outs2 : GradOutputs)
    (scratch1 scratch2 : Scratch) (out1 out2 : BackwardOutput) (N M : Nat) (outs : List Nat)
    (hb : op.no_bias_ = false)
    (hd1 : dY1.dims = N :: M :: outs) (hd2 : dY2.dims = N :: (outs ++ [M]))
    (hN1 : X1.dims.getD 0 0 = N) (hN2 : X2.dims.getD 0 0 = N)
    (hM1 : filter1.dims.getD (X1.dims.length - 2) 0 = M)
    (hM2 : filter2.dims.getD (X2.dims.length - 2) 0 = M)
    (hdata : ∀ n < N, ∀ m < M, ∀ p < outs.prod,
      dY2.data ((n * outs.prod + p) * M + m) = dY1.data ((n * M + m) * outs.prod + p))
    (h1 : LocallyConnectedGradientOp.RunOnDevice .NCHW op X1 filter1 dY1 OutputSize outs1
      scratch1 = .ok out1)
    (h2 : LocallyConnectedGradientOp.RunOnDevice .NHWC op X2 filter2 dY2 OutputSize outs2
      scratch2 = .ok out2)
    (p m : Nat) (hp : p < outs.prod) (hm : m < M) :
    out1.outputs.dbias.dims = outs ++ [M] ∧ out2.outputs.dbias.dims = outs ++ [M] ∧
      out1.outputs.dbias.data (p * M + m) = biasGradStated N M outs.prod dY1.data p m ∧
      out2.outputs.dbias.data (p * M + m) = biasGradStated N M outs.prod dY1.data p m := by
  have g1 : GetDims .NCHW dY1 = outs := by simp [GetDims, hd1]
  have g2 : GetDims .NHWC dY2 = outs := by simp [GetDims, hd2]
  have r1 := backwardNCHW_dbias hb h1 p m (by rw [g1]; exact hp) (by rw [hM1]; exact hm)
  have r2 := backwardNHWC_dbias hb h2 p m (by rw [g2]; exact hp) (by rw [hM2]; exact hm)
  rw [g1, hM1, hN1] at r1
  rw [g2, hM2, hN2] at r2
  refine ⟨r1.1, r2.1, r1.2, ?_⟩
  rw [r2.2]
  exact sumTo_congr _ _ _ fun n hn => hdata n hn m hm p hp

/-- C14 at concrete inputs: two images, two output channels, 1x2 output locations and
stale values in the bias-gradient storage: both paths return `[6, 10, 8, 12]`, here at
location 1 and channel 0. -/
theorem C14_bias_gradient_same_in_both_orders_witness :
    ∃ out1 out2,
      LocallyConnectedGradientOp.RunOnDevice .NCHW opPointBias xPairNCHW filterPair dYPairNCHW 3
        staleBiasOutputs zeroScratch = .ok out1 ∧
      LocallyConnectedGradientOp.RunOnDevice .NHWC opPointBias xPairNHWC filterPair dYPairNHWC 3
        staleBiasOutputs zeroScratch = .ok out2 ∧
      biasGradStated 2 2 2 dYPairNCHW.data 1 0 = 8 ∧
      out1.outputs.dbias.dims = [1, 2] ++ [2] ∧ out2.outputs.dbias.dims = [1, 2] ++ [2] ∧
      out1.outputs.dbias.data (1 * 2 + 0) = biasGradStated 2 2 [1, 2].prod dYPairNCHW.data 1 0 ∧
      out2.outputs.dbias.data (1 * 2 + 0) = biasGradStated 2 2 [1, 2].prod dYPairNCHW.data 1 0 :=
  ⟨_, _, rfl, rfl, by decide,
    C14_bias_gradient_same_in_both_orders opPointBias xPairNCHW filterPair dYPairNCHW xPairNHWC
      filterPair dYPairNHWC 3 staleBiasOutputs staleBiasOutputs zeroScratch zeroScratch _ _ 2 2
      [1, 2] rfl rfl rfl rfl rfl rfl rfl (by decide) rfl rfl 1 0 (by decide) (by decide)⟩

/-! ## The planner's permutations undo themselves -/

/-- The way back in the code: when the input gradient is requested, the column buffer both
backward Impls leave behind is the transpose of their transposed column buffer from
`column_transposed_dims` to `column_dims` under the same `column_axes` that took the
column buffer there. -/
theorem backward_column_transposed_back_with_column_axes (op : ConvPoolOpBase)
    (shape : ShapeParams) (X F dY dF dX : Buf) (db : Option Buf) (dX0 db0 : Buf)
    (scratch : Scratch) :
    (∃ col0, (LocallyConnectedGradientOp.RunOnDeviceWithOrderNCHWImpl op shape X F dY dF
        (some dX) db dX0 db0 scratch).scratch.column_buffer =
      math.Transpose shape.column_transposed_dims.prod shape.column_dims.length
        shape.column_transposed_dims shape.column_dims shape.column_axes
        (LocallyConnectedGradientOp.RunOnDeviceWithOrderNCHWImpl op shape X F dY dF
          (some dX) db dX0 db0 scratch).scratch.column_transposed_buffer col0) ∧
    (∃ col0, (LocallyConnectedGradientOp.RunOnDeviceWithOrderNHWCImpl op shape X F dY dF
        (some dX) db dX0 db0 scratch).scratch.column_buffer =
      math.Transpose shape.column_transposed_dims.prod shape.column_dims.length
        shape.column_transposed_dims shape.column_dims shape.column_axes
        (LocallyConnectedGradientOp.RunOnDeviceWithOrderNHWCImpl op shape X F dY dF
          (some dX) db dX0 db0 scratch).scratch.column_transposed_buffer col0) :=
  ⟨⟨_, rfl⟩, ⟨_, rfl⟩⟩

/-- The order `[output_image_size, G, N, kernel_size]` for the transposed channel-first
column buffer, reached by the permutation `[3, 1, 0, 2]`, would not undo itself: on a
`[2, 1, 1, 2]` buffer holding 1..4 the two transposes leave 3 at offset 1. -/
theorem transposed_order_OGNK_not_self_inverse :
    transposeThereAndBack [2, 1, 1, 2] [2, 1, 2, 1] [3, 1, 0, 2] (bufOf [1, 2, 3, 4]) (bufOf [])
        (bufOf []) 1 = 3 ∧
      bufOf [1, 2, 3, 4] 1 = 2 := by
  decide

end caffe2
